import Mathlib

/-!
# stress-ng: fork/vfork, advisory-lock and splice stressors

A shallow embedding of `stress-fork.c`, `stress-locka.c` and `stress-splice.c`.

Conventions of the embedding:

* A system call is modelled by its observable effect: the call is recorded in a trace of
  events and the value it returns is supplied by an environment value.
* A loop that runs until `keep_stressing(args)` returns false is run on a list that gives
  the answers of the environment for each pass; the list is the part of the run that is
  described, and a result says whether the loop was left within it.
* Unsigned 64-bit counters are natural numbers reduced modulo `2 ^ 64`; signed values are
  integers, with the casts written out.
* Linked records live in a heap of cells; a pointer is `none` for `NULL` or the address
  of a cell.  A read through a pointer that is not an allocated cell has no result.
* Constants that `stress-ng.h` declares and the sources only use are parameters.

The first half of the file holds the definitions, the second half the theorems.
-/

/-- Wrap-around of an unsigned 64-bit increment, as performed by `inc_counter(args)`
(`(*args->counter)++` on a `uint64_t`). -/
def u64_incr (c : Nat) : Nat := (c + 1) % 2 ^ 64

/-- Wrap-around of an unsigned 64-bit decrement (`x--` on a `uint64_t`). -/
def u64_decr (c : Nat) : Nat := (c + (2 ^ 64 - 1)) % 2 ^ 64

/-- Conversion of an unsigned 64-bit value to a signed 64-bit one (the cast `(off_t)x`
with a 64-bit `off_t`). -/
def to_int64 (x : Nat) : Int :=
  if x % 2 ^ 64 < 2 ^ 63 then ((x % 2 ^ 64 : Nat) : Int) else ((x % 2 ^ 64 : Nat) : Int) - 2 ^ 64


/-! ## Definitions: `stress-fork.c` -/

namespace StressFork

/-- Selector value `STRESS_FORK`. -/
def STRESS_FORK : Int := 0

/-- Selector value `STRESS_VFORK`. -/
def STRESS_VFORK : Int := 1

/-- Linux value of `EAGAIN`. -/
def EAGAIN : Int := 11

/-- Linux value of `ENOMEM`. -/
def ENOMEM : Int := 12

/-- Linux value of `ENOSYS`. -/
def ENOSYS : Int := 38

/-- Value of `EXIT_SUCCESS`. -/
def EXIT_SUCCESS : Int := 0

/-- One child slot: `fork_info_t`. -/
structure fork_info_t where
  pid : Int
  err : Int
deriving DecidableEq, Repr

/-- Observable actions of `stress_fork_fn`. -/
inductive Event where
  | fork_call (ret : Int)
  | vfork_call (ret : Int)
  | pr_err_bad_fn
  | child_sequence_exit
  | setpgid (pid : Int)
  | keep_stressing (r : Bool)
  | waitpid (pid : Int) (status : Int)
  | inc_counter
  | pr_fail (err : Int)
deriving DecidableEq, Repr

/-- What the environment answers during one iteration of the outer loop.
`spawn n` is the value returned by the `fork()`/`vfork()` call made for slot `n`,
`spawn_errno n` the `errno` it leaves when it fails, `keep n` the value of
`keep_stressing(args)` evaluated after slot `n`, and `wait_status i` the status
stored by `shim_waitpid` for slot `i`. -/
structure Env where
  spawn : Nat → Int
  spawn_errno : Nat → Int
  keep : Nat → Bool
  wait_status : Nat → Int

/-- Result of the spawn loop: either this process is a freshly created child, which
runs the child sequence and calls `_exit(0)`, or it is the parent and leaves the loop
with loop variable `n` and the filled slot array. -/
inductive SpawnResult where
  | child (trace : List Event)
  | parent (n : Nat) (info : List fork_info_t) (trace : List Event)
deriving DecidableEq, Repr

/-- Slot `i` of the array (`info[i]`). -/
def slot (info : List fork_info_t) (i : Nat) : fork_info_t :=
  info.getD i { pid := 0, err := 0 }

/-- Assignment to slot `i` of the array. -/
def set_slot (info : List fork_info_t) (i : Nat) (v : fork_info_t) : List fork_info_t :=
  info.set i v

/-- The `switch (which)` of the spawn loop: the event of the call made, the returned pid
and the `errno` in force afterwards. -/
def spawn_call (which : Int) (env : Env) (n : Nat) : Event × Int × Int :=
  if which = STRESS_FORK then (Event.fork_call (env.spawn n), env.spawn n, env.spawn_errno n)
  else if which = STRESS_VFORK then (Event.vfork_call (env.spawn n), env.spawn n, env.spawn_errno n)
  else (Event.pr_err_bad_fn, -1, ENOSYS)

/-- How one pass through the body of the spawn loop ends: in the child (which exits), at
the end of the body (the loop goes on with `n++`), or at the `break`. -/
inductive BodyResult where
  | child (ext : List Event)
  | next (info : List fork_info_t) (ext : List Event)
  | brk (info : List fork_info_t) (ext : List Event)
deriving DecidableEq, Repr

/-- The writes to slot `n` made by the parent: `info[n].err = errno` when `pid < 0`, then
`info[n].pid = pid`. -/
def record_slot (info : List fork_info_t) (n : Nat) (pid errno : Int) : List fork_info_t :=
  let info1 := if pid < 0 then set_slot info n { slot info n with err := errno } else info
  set_slot info1 n { slot info1 n with pid := pid }

/-- Body of the spawn loop for slot `n`: the new slot array and the events it adds. -/
def spawn_body (which : Int) (env : Env) (n : Nat) (info : List fork_info_t) : BodyResult :=
  let c := spawn_call which env n
  let pid := c.2.1
  if pid = 0 then
    BodyResult.child [c.1, Event.child_sequence_exit]
  else
    let ext1 := if pid > -1 then [c.1, Event.setpgid pid] else [c.1]
    let info2 := record_slot info n pid c.2.2
    if env.keep n then
      BodyResult.next info2 (ext1 ++ [Event.keep_stressing true])
    else
      BodyResult.brk info2 (ext1 ++ [Event.keep_stressing false])

/-- The loop `for (n = 0; n < fork_max; n++) { ... }` of `stress_fork_fn`.  The argument
`fuel` is `fork_max - n`, the number of slots still to be tried.  A `break` leaves the
loop without incrementing `n`. -/
def spawn_loop (which : Int) (env : Env) :
    Nat → Nat → List fork_info_t → List Event → SpawnResult
  | 0, n, info, tr => SpawnResult.parent n info tr
  | fuel + 1, n, info, tr =>
    match spawn_body which env n info with
    | BodyResult.child ext => SpawnResult.child (tr ++ ext)
    | BodyResult.next info2 ext => spawn_loop which env fuel (n + 1) info2 (tr ++ ext)
    | BodyResult.brk info2 ext => SpawnResult.parent n info2 (tr ++ ext)

/-- Body of the reap loop for index `i`. -/
def reap_step (env : Env) (info : List fork_info_t) (st : Nat × List Event) (i : Nat) :
    Nat × List Event :=
  if (slot info i).pid > 0 then
    (u64_incr st.1, st.2 ++ [Event.waitpid (slot info i).pid (env.wait_status i), Event.inc_counter])
  else st

/-- The loop `for (i = 0; i < n; i++) if (info[i].pid > 0) { waitpid; inc_counter }`. -/
def reap_loop (env : Env) (info : List fork_info_t) (n : Nat) (counter : Nat) :
    Nat × List Event :=
  (List.range n).foldl (reap_step env info) (counter, [])

/-- Body of the error evaluation loop for index `i`. -/
def verify_step (verify : Bool) (info : List fork_info_t) (tr : List Event) (i : Nat) :
    List Event :=
  if (slot info i).pid < 0 ∧ verify = true then
    if (slot info i).err = EAGAIN ∨ (slot info i).err = ENOMEM then tr
    else tr ++ [Event.pr_fail (slot info i).err]
  else tr

/-- The loop `for (i = 0; i < n; i++) { if ((info[i].pid < 0) && verify) switch ... }`. -/
def verify_loop (verify : Bool) (info : List fork_info_t) (n : Nat) : List Event :=
  (List.range n).foldl (verify_step verify info) []

/-- Result of one iteration of the outer `do { ... } while` body. -/
inductive IterResult where
  | child (trace : List Event)
  | parent (n : Nat) (info : List fork_info_t) (counter : Nat) (trace : List Event)
deriving DecidableEq, Repr

/-- One iteration of the body of the outer loop of `stress_fork_fn`: `memset` of the
`MAX_FORKS` slots, spawn loop, reap loop, error evaluation loop.  `MAX_FORKS` is
declared in `stress-ng.h` and is a parameter here. -/
def stress_fork_iteration (MAX_FORKS : Nat) (which : Int) (fork_max : Nat) (verify : Bool)
    (env : Env) (counter : Nat) : IterResult :=
  match spawn_loop which env fork_max 0 (List.replicate MAX_FORKS { pid := 0, err := 0 }) [] with
  | SpawnResult.child tr => IterResult.child tr
  | SpawnResult.parent n info tr =>
    let r := reap_loop env info n counter
    IterResult.parent n info r.1 (tr ++ r.2 ++ verify_loop verify info n)

/-- The pids handed to `shim_waitpid` in a trace, in order. -/
def waited (tr : List Event) : List Int :=
  tr.filterMap (fun e => match e with | Event.waitpid p _ => some p | _ => none)

/-- The children successfully created in a trace: the pids greater than zero returned
by `fork()` or `vfork()`, in order. -/
def spawned (tr : List Event) : List Int :=
  tr.filterMap (fun e => match e with
    | Event.fork_call p => if p > 0 then some p else none
    | Event.vfork_call p => if p > 0 then some p else none
    | _ => none)

/-- Number of increments of the Operation Counter in a trace. -/
def incs (tr : List Event) : Nat := tr.count Event.inc_counter

/-- The slots below `n` that hold a child to wait for (`info[i].pid > 0`). -/
def reaped_slots (info : List fork_info_t) (n : Nat) : List Nat :=
  (List.range n).filter (fun i => decide ((slot info i).pid > 0))

/-- The events of reaping the given slots one after the other: for each slot one
`shim_waitpid` immediately followed by one `inc_counter`. -/
def reap_events (env : Env) (info : List fork_info_t) (slots : List Nat) : List Event :=
  slots.flatMap (fun i => [Event.waitpid (slot info i).pid (env.wait_status i), Event.inc_counter])

/-- A trace without wait and without increment of the Operation Counter. -/
def Quiet (ext : List Event) : Prop := incs ext = 0 ∧ waited ext = []

/-- The pid the spawn call of slot `n` returns. -/
def pid_of (which : Int) (env : Env) (n : Nat) : Int := (spawn_call which env n).2.1

/-- The pids greater than zero returned by the spawn calls of slots `a, a+1, ..., a+k-1`. -/
def pids (which : Int) (env : Env) (a k : Nat) : List Int :=
  ((List.range' a k).map (pid_of which env)).filter (fun p => decide (p > 0))

/-- Trace of an iteration result. -/
def IterResult.trace : IterResult → List Event
  | IterResult.child tr => tr
  | IterResult.parent _ _ _ tr => tr

/-- Operation Counter after an iteration (a child leaves it as it was). -/
def IterResult.counter (c : Nat) : IterResult → Nat
  | IterResult.child _ => c
  | IterResult.parent _ _ c1 _ => c1

/-- An environment in which every spawn returns pid `100` and the stop signal is
already raised at the first check. -/
def env_stop_first : Env :=
  { spawn := fun _ => 100, spawn_errno := fun _ => 0, keep := fun _ => false,
    wait_status := fun _ => 0 }

/-- The `errno` in force after the spawn call of slot `n`. -/
def errno_of (which : Int) (env : Env) (n : Nat) : Int := (spawn_call which env n).2.2

/-- Number of spawn attempts in a trace: calls of `fork()` or `vfork()`, and passes
through the `default` case of the selector switch. -/
def attempts (tr : List Event) : Nat :=
  tr.countP (fun e => match e with
    | Event.fork_call _ => true
    | Event.vfork_call _ => true
    | Event.pr_err_bad_fn => true
    | _ => false)

/-- The error codes of the failures reported with `pr_fail` in a trace, in order. -/
def failures (tr : List Event) : List Int :=
  tr.filterMap (fun e => match e with | Event.pr_fail err => some err | _ => none)

/-- The condition under which the spawn error of slot `i` is to be reported:
verification mode is enabled, the spawn failed, and the captured error code is neither
`EAGAIN` nor `ENOMEM`. -/
def must_report (verify : Bool) (which : Int) (env : Env) (i : Nat) : Bool :=
  verify && decide (pid_of which env i < 0) && decide (errno_of which env i ≠ EAGAIN)
    && decide (errno_of which env i ≠ ENOMEM)

/-- How a run of `stress_fork_fn` ends: in a child, which calls `_exit(0)`; with a
`return`; or still in the outer loop after the last iteration described. -/
inductive FnResult where
  | child_exit (trace : List Event)
  | returned (rc : Int) (counter : Nat) (trace : List Event)
  | running (counter : Nat) (trace : List Event)
deriving DecidableEq, Repr

/-- The outer loop `do { ... } while (keep_stressing(args))` of `stress_fork_fn` and its
`return EXIT_SUCCESS`, run on the answers of the environment for each iteration and on
the value of the loop condition after it. -/
def stress_fork_fn (MAX_FORKS : Nat) (which : Int) (fork_max : Nat) (verify : Bool) :
    List (Env × Bool) → Nat → List Event → FnResult
  | [], c, tr => FnResult.running c tr
  | (env, keep) :: rest, c, tr =>
    match stress_fork_iteration MAX_FORKS which fork_max verify env c with
    | IterResult.child t => FnResult.child_exit (tr ++ t)
    | IterResult.parent _ _ c1 t =>
      if keep = true then
        stress_fork_fn MAX_FORKS which fork_max verify rest c1
          (tr ++ t ++ [Event.keep_stressing true])
      else
        FnResult.returned EXIT_SUCCESS c1 (tr ++ t ++ [Event.keep_stressing false])

/-- An environment for one iteration in which the stop signal is not raised during the
batch. -/
def env_no_stop : Env :=
  { spawn := fun _ => 100, spawn_errno := fun _ => 0, keep := fun _ => true,
    wait_status := fun _ => 0 }

/-- An environment for one iteration of three slots: the first spawn fails with error
code 5, the second with `EAGAIN`, the third succeeds. -/
def env_spawn_errors : Env :=
  { spawn := fun n => if n = 2 then 100 else -1,
    spawn_errno := fun n => if n = 0 then 5 else EAGAIN,
    keep := fun _ => true, wait_status := fun _ => 0 }

/-- An environment for one iteration in which every spawn fails with error code 5 and
the stop signal is seen at the first check, the one that follows the spawn of slot 0. -/
def env_fail_then_stop : Env :=
  { spawn := fun _ => -1, spawn_errno := fun _ => 5, keep := fun _ => false,
    wait_status := fun _ => 0 }

/-- An environment for one iteration of three slots in which the spawn of slot `n` fails
with error code `5 + n` and the stop signal is seen at the check that follows the third
spawn. -/
def env_errors_stop_last : Env :=
  { spawn := fun _ => -1, spawn_errno := fun n => 5 + n, keep := fun n => decide (n < 2),
    wait_status := fun _ => 0 }

end StressFork

/-! ## Definitions: `stress-locka.c` -/

namespace StressLocka

/-- Size of the backing file: `LOCK_FILE_SIZE`. -/
def LOCK_FILE_SIZE : Int := 1024 * 1024

/-- Cap on the outstanding lock records: `LOCK_MAX`. -/
def LOCK_MAX : Nat := 1024

/-- Linux value of `F_WRLCK`. -/
def F_WRLCK : Int := 1

/-- Linux value of `F_UNLCK`. -/
def F_UNLCK : Int := 2

/-- Value of `SEEK_SET`. -/
def SEEK_SET : Int := 0

/-- A lock record `stress_locka_info_t`.  A pointer is `none` for `NULL` and otherwise the
address of a heap cell. -/
structure stress_locka_info_t where
  next : Option Nat
  offset : Int
  len : Int
  pid : Int
deriving DecidableEq, Repr

/-- The list header `stress_locka_info_list_t`. -/
structure stress_locka_info_list_t where
  head : Option Nat
  tail : Option Nat
  free : Option Nat
  length : Nat
deriving DecidableEq, Repr

/-- Heap cells: cell `p` is `some nd` while the record at address `p` is allocated and
`none` once it has been handed to `free()`. -/
abbrev Heap := List (Option stress_locka_info_t)

/-- The memory the lock lists live in: the heap and the static `locka_infos`. -/
structure Mem where
  heap : Heap
  locka_infos : stress_locka_info_list_t
deriving DecidableEq, Repr

/-- Memory at program start: nothing allocated, `locka_infos` zero-initialised. -/
def Mem.init : Mem :=
  { heap := [], locka_infos := { head := none, tail := none, free := none, length := 0 } }

/-- Read of the record at address `p`; `none` when `p` is not an allocated record. -/
def load (heap : Heap) (p : Nat) : Option stress_locka_info_t :=
  match heap[p]? with
  | some (some nd) => some nd
  | _ => none

/-- Write of the record at address `p`. -/
def store (heap : Heap) (p : Nat) (nd : stress_locka_info_t) : Heap :=
  heap.set p (some nd)

/-- First half of `stress_locka_info_new`: pop a record off the free list, or `calloc`
one.  The outer `none` is a read through an invalid pointer; the inner `none` is a failed
`calloc` (the function returns `NULL`). -/
def take_record (calloc_ok : Bool) (m : Mem) : Option (Option (Nat × Mem)) :=
  match m.locka_infos.free with
  | some p =>
    match load m.heap p with
    | none => none
    | some nd =>
      some (some (p, { heap := store m.heap p { nd with next := none },
                       locka_infos := { m.locka_infos with free := nd.next } }))
  | none =>
    if calloc_ok then
      some (some (m.heap.length,
        { m with heap := m.heap ++ [some { next := none, offset := 0, len := 0, pid := 0 }] }))
    else some none

/-- Second half of `stress_locka_info_new`: link the record `p` at the tail of the list and
count it. -/
def link_record (p : Nat) (m : Mem) : Option Mem :=
  match m.locka_infos.head with
  | some _ =>
    match m.locka_infos.tail with
    | none => none
    | some t =>
      match load m.heap t with
      | none => none
      | some tn =>
        some { heap := store m.heap t { tn with next := some p },
               locka_infos := { m.locka_infos with
                 tail := some p, length := u64_incr m.locka_infos.length } }
  | none =>
    some { m with locka_infos := { m.locka_infos with
      head := some p, tail := some p, length := u64_incr m.locka_infos.length } }

/-- The function `stress_locka_info_new`: the returned pointer (`none` for `NULL`) and the
memory afterwards. -/
def stress_locka_info_new (calloc_ok : Bool) (m : Mem) : Option (Option Nat × Mem) :=
  match take_record calloc_ok m with
  | none => none
  | some none => some (none, m)
  | some (some (p, m1)) =>
    match link_record p m1 with
    | none => none
    | some m2 => some (some p, m2)

/-- The function `stress_locka_info_head_remove`. -/
def stress_locka_info_head_remove (m : Mem) : Option Mem :=
  match m.locka_infos.head with
  | none => some m
  | some h =>
    let unlinked : Option stress_locka_info_list_t :=
      if m.locka_infos.tail = m.locka_infos.head then
        some { m.locka_infos with tail := none, head := none }
      else
        match load m.heap h with
        | none => none
        | some hn => some { m.locka_infos with head := hn.next }
    match unlinked with
    | none => none
    | some li =>
      match load m.heap h with
      | none => none
      | some hn =>
        some { heap := store m.heap h { hn with next := li.free },
               locka_infos := { li with free := some h, length := u64_decr li.length } }

/-- The loop `while (p) { next = p->next; free(p); p = next; }`.  The first argument
bounds the number of passes; `none` is a read through an invalid pointer or a loop that
has not ended within the bound. -/
def free_chain : Nat → Heap → Option Nat → Option Heap
  | _, heap, none => some heap
  | 0, _, some _ => none
  | fuel + 1, heap, some p =>
    match load heap p with
    | none => none
    | some nd => free_chain fuel (heap.set p none) nd.next

/-- The function `stress_locka_info_free`: both lists are walked and their records freed;
`tail` and `length` are not written. -/
def stress_locka_info_free (fuel : Nat) (m : Mem) : Option Mem :=
  match free_chain fuel m.heap m.locka_infos.head with
  | none => none
  | some h1 =>
    match free_chain fuel h1 m.locka_infos.free with
    | none => none
    | some h2 =>
      some { heap := h2, locka_infos := { m.locka_infos with head := none, free := none } }

/-- The argument `struct flock` of an `fcntl` call. -/
structure flock where
  l_type : Int
  l_whence : Int
  l_start : Int
  l_len : Int
  l_pid : Int
deriving DecidableEq, Repr

/-- Observable actions of the lock-contention code. -/
inductive Event where
  | fcntl_setlk (f : flock) (rc : Int)
  | fcntl_getlk (f : flock) (rc : Int)
  | pr_fail_setlk (name : String)
  | pr_fail_calloc (name : String)
  | inc_counter
  | keep_stressing (r : Bool)
deriving DecidableEq, Repr

/-- What the code can see of its context: `args->name`, `args->pid` and whether
`g_opt_flags` has `OPT_FLAGS_VERIFY` set. -/
structure Ctx where
  name : String
  pid : Int
  verify : Bool
deriving DecidableEq, Repr

/-- The function `stress_locka_unlock`; `setlk_rc` is what `fcntl(fd, F_SETLK, &f)`
returns if it is called.  Result: return value, memory, events. -/
def stress_locka_unlock (ctx : Ctx) (setlk_rc : Int) (m : Mem) :
    Option (Int × Mem × List Event) :=
  match m.locka_infos.head with
  | none => some (0, m, [])
  | some h =>
    match load m.heap h with
    | none => none
    | some hn =>
      let f : flock := { l_type := F_UNLCK, l_whence := SEEK_SET, l_start := hn.offset,
                         l_len := hn.len, l_pid := hn.pid }
      match stress_locka_info_head_remove m with
      | none => none
      | some m1 =>
        if setlk_rc < 0 then
          some (-1, m1, [Event.fcntl_setlk f setlk_rc, Event.pr_fail_setlk ctx.name])
        else
          some (0, m1, [Event.fcntl_setlk f setlk_rc])

/-- The length drawn in the loop: `(stress_mwc16() + 1) & 0xfff`, where `r16` is the value
of the `uint16_t` returned by `stress_mwc16()`. -/
def locka_len (r16 : Nat) : Int := (((r16 % 2 ^ 16 + 1) &&& 0xfff : Nat) : Int)

/-- The offset drawn in the loop: `(off_t)stress_mwc64() % (LOCK_FILE_SIZE - len)`, with a
64-bit `off_t`; `%` on signed operands truncates towards zero. -/
def locka_offset (r64 : Nat) (len : Int) : Int := Int.tmod (to_int64 r64) (LOCK_FILE_SIZE - len)

/-- The caller's writes `locka_info->offset = offset; locka_info->len = len;
locka_info->pid = args->pid` through the pointer `p`. -/
def fill_record (heap : Heap) (p : Nat) (offset len pid : Int) : Option Heap :=
  match load heap p with
  | none => none
  | some nd => some (store heap p { nd with offset := offset, len := len, pid := pid })

/-- What the environment answers during one pass of the contention loop. -/
structure IterIn where
  setlk_rc : Int
  mwc16 : Nat
  mwc64 : Nat
  getlk_rc : Int
  calloc_ok : Bool
  keep : Bool
deriving DecidableEq, Repr

/-- How one pass of the loop body ends: with a `return`, or at the loop condition
`keep_stressing(args)` with the given value. -/
inductive Flow where
  | ret (rc : Int)
  | cond (keep : Bool)
deriving DecidableEq, Repr

/-- State of a run of the loop: memory, Operation Counter, events so far, and the
memory as it was after each change to the lists. -/
structure St where
  mem : Mem
  counter : Nat
  trace : List Event
  history : List Mem
deriving DecidableEq, Repr

/-- The guarded unlock at the head of the loop body:
`if (locka_infos.length >= LOCK_MAX) if (stress_locka_unlock(args, fd) < 0) return -1;`.
The boolean tells whether the function returns `-1` here. -/
def cap_check (ctx : Ctx) (x : IterIn) (s : St) : Option (Bool × St) :=
  if s.mem.locka_infos.length ≥ LOCK_MAX then
    match stress_locka_unlock ctx x.setlk_rc s.mem with
    | none => none
    | some (rc, m1, ev) =>
      some (decide (rc < 0),
        { s with mem := m1, trace := s.trace ++ ev, history := s.history ++ [m1] })
  else some (false, s)

/-- One pass through the body of the `do { ... } while (keep_stressing(args))` loop of
`stress_locka_contention`. -/
def contention_body (ctx : Ctx) (x : IterIn) (s : St) : Option (Flow × St) :=
  match cap_check ctx x s with
  | none => none
  | some (true, s1) => some (Flow.ret (-1), s1)
  | some (false, s1) =>
    let len := locka_len x.mwc16
    let offset := locka_offset x.mwc64 len
    let f : flock := { l_type := F_WRLCK, l_whence := SEEK_SET, l_start := offset,
                       l_len := len, l_pid := ctx.pid }
    let tr2 := s1.trace ++ [Event.fcntl_getlk f x.getlk_rc]
    if x.getlk_rc < 0 then
      some (Flow.cond x.keep, { s1 with trace := tr2 ++ [Event.keep_stressing x.keep] })
    else
      match stress_locka_info_new x.calloc_ok s1.mem with
      | none => none
      | some (none, m3) =>
        some (Flow.ret (-1),
          { s1 with mem := m3, trace := tr2 ++ [Event.pr_fail_calloc ctx.name] })
      | some (some p, m3) =>
        match fill_record m3.heap p offset len ctx.pid with
        | none => none
        | some h4 =>
          some (Flow.cond x.keep,
            { mem := { m3 with heap := h4 },
              counter := u64_incr s1.counter,
              trace := tr2 ++ [Event.inc_counter, Event.keep_stressing x.keep],
              history := s1.history ++ [m3, { m3 with heap := h4 }] })

/-- The function `stress_locka_contention` run on the answers of the environment for the
passes of its loop.  The result is `some rc` when the function has returned `rc`, and
`none` when the loop is still running after the last pass described. -/
def stress_locka_contention (ctx : Ctx) : List IterIn → St → Option (Option Int × St)
  | [], s => some (none, s)
  | x :: xs, s =>
    match contention_body ctx x s with
    | none => none
    | some (Flow.ret rc, s1) => some (some rc, s1)
    | some (Flow.cond true, s1) => stress_locka_contention ctx xs s1
    | some (Flow.cond false, s1) => some (some 0, s1)

/-- State at the call of `stress_locka_contention` in a fresh process. -/
def St.init : St := { mem := Mem.init, counter := 0, trace := [], history := [Mem.init] }

/-- Contents of a lock record: offset, length and owning pid. -/
abbrev Rec := Int × Int × Int

/-- Contents of a heap record. -/
def rec_of (nd : stress_locka_info_t) : Rec := (nd.offset, nd.len, nd.pid)

/-- The pointer `p` starts a `NULL`-terminated list in the heap whose cells are, in
order, at the addresses and with the contents listed. -/
def Seg (heap : Heap) : Option Nat → List (Nat × Rec) → Prop
  | p, [] => p = none
  | p, (a, r) :: rest =>
    p = some a ∧ ∃ nd, load heap a = some nd ∧ rec_of nd = r ∧ Seg heap nd.next rest

/-- Well-formed lock lists: `head` starts the list `active`, `free` starts the list
`spare`, no cell occurs twice, and `tail` points to the last active cell. -/
structure WF (m : Mem) (active spare : List (Nat × Rec)) : Prop where
  seg_active : Seg m.heap m.locka_infos.head active
  seg_spare : Seg m.heap m.locka_infos.free spare
  nodup : ((active ++ spare).map Prod.fst).Nodup
  tail_last : active ≠ [] → m.locka_infos.tail = active.getLast?.map Prod.fst

/-- The `struct flock` that unlocks a record. -/
def unlock_flock (r : Rec) : flock :=
  { l_type := F_UNLCK, l_whence := SEEK_SET, l_start := r.1, l_len := r.2.1, l_pid := r.2.2 }

/-- The lists are well formed, the `length` field is the number of active records, and
that number is within the cap. -/
def Bounded (m : Mem) : Prop :=
  ∃ active spare, WF m active spare ∧ m.locka_infos.length = active.length ∧
    active.length ≤ LOCK_MAX

/-- A use of the record list: an append (`stress_locka_info_new`, with the answer of
`calloc` should it be called, followed by the caller's writes of offset, length and
pid), or a release (`stress_locka_unlock`, with the answer of `fcntl(F_SETLK)`). -/
inductive Op where
  | append (calloc_ok : Bool) (offset len pid : Int)
  | release (setlk_rc : Int)
deriving DecidableEq, Repr

/-- Memory together with three observations of the uses made so far.  `appended` holds
the contents of the records appended, in order.  `released` holds the `struct flock`
handed to each `fcntl(F_SETLK)` call, in order.  `due` counts the releases that found a
record on the list, that is the calls of `stress_locka_unlock` made while
`locka_infos.head` was not `NULL`. -/
structure Log where
  mem : Mem
  appended : List Rec
  released : List flock
  due : Nat
deriving DecidableEq, Repr

/-- The log of a fresh process: empty lists, nothing appended, nothing released. -/
def Log.init : Log := { mem := Mem.init, appended := [], released := [], due := 0 }

/-- The `struct flock` of each `fcntl(F_SETLK)` call in a trace, in order. -/
def setlk_calls (ev : List Event) : List flock :=
  ev.filterMap (fun e => match e with
    | Event.fcntl_setlk f _ => some f
    | _ => none)

/-- One use of the record list. -/
def apply_op (ctx : Ctx) (op : Op) (g : Log) : Option Log :=
  match op with
  | Op.append ok offset len pid =>
    match stress_locka_info_new ok g.mem with
    | none => none
    | some (none, m1) => some { g with mem := m1 }
    | some (some p, m1) =>
      match fill_record m1.heap p offset len pid with
      | none => none
      | some h2 =>
        some { g with mem := { m1 with heap := h2 },
                      appended := g.appended ++ [(offset, len, pid)] }
  | Op.release rc =>
    match stress_locka_unlock ctx rc g.mem with
    | none => none
    | some (_, m1, ev) =>
      some { g with mem := m1, released := g.released ++ setlk_calls ev,
                    due := if g.mem.locka_infos.head.isSome = true then g.due + 1 else g.due }

/-- A sequence of uses of the record list, in order. -/
def run_ops (ctx : Ctx) : List Op → Log → Option Log
  | [], g => some g
  | op :: ops, g =>
    match apply_op ctx op g with
    | none => none
    | some g1 => run_ops ctx ops g1

/-- First in, first out: the lists are well formed; every release that found a record
has issued one unlock, and these unlocks are, in order, the unlocks of the records
appended first; the records still on the list are, in order, the other records
appended. -/
def Fifo (g : Log) : Prop :=
  ∃ active spare, WF g.mem active spare ∧
    g.due ≤ g.appended.length ∧
    g.released = (g.appended.take g.due).map unlock_flock ∧
    active.map Prod.snd = g.appended.drop g.due

/-- The memory of a process that holds one lock record: offset 1000, length 8, pid 42. -/
def one_record_mem : Mem :=
  { heap := [some { next := none, offset := 1000, len := 8, pid := 42 }],
    locka_infos := { head := some 0, tail := some 0, free := none, length := 1 } }

/-- A context with verification mode off. -/
def ctx_verify_off : Ctx := { name := "locka", pid := 42, verify := false }

/-- Answers of the environment for a pass in which the lock query succeeds, the
allocation succeeds, the stop signal is not raised, and an unlock, if one is issued,
fails. -/
def x_unlock_fails : IterIn :=
  { setlk_rc := -1, mwc16 := 7, mwc64 := 1000, getlk_rc := 0, calloc_ok := true, keep := true }

/-- A call on the record lists: `stress_locka_info_new` (with the answer `calloc` gives
if it is called) or `stress_locka_info_head_remove`. -/
inductive ListOp where
  | new (calloc_ok : Bool)
  | head_remove
deriving DecidableEq, Repr

/-- Memory together with three observations of the calls made so far.  `outstanding` is
the number of records appended and not yet removed: it goes up by one when
`stress_locka_info_new` returns a record and down by one when
`stress_locka_info_head_remove` finds a head.  `high_water` is the largest value
`outstanding` has had.  `recycle_misses` counts the calls in which a record was freshly
allocated (the heap grew) although the free list was not empty.  The number of records
ever allocated is the number of heap cells, since only `calloc` adds a cell. -/
structure Tally where
  mem : Mem
  outstanding : Nat
  high_water : Nat
  recycle_misses : Nat
deriving DecidableEq, Repr

/-- The observations at program start. -/
def Tally.init : Tally :=
  { mem := Mem.init, outstanding := 0, high_water := 0, recycle_misses := 0 }

/-- One call on the record lists, with its observations. -/
def list_step (op : ListOp) (t : Tally) : Option Tally :=
  match op with
  | ListOp.new ok =>
    match stress_locka_info_new ok t.mem with
    | none => none
    | some (r, m1) =>
      let out := if r.isSome = true then t.outstanding + 1 else t.outstanding
      some { mem := m1, outstanding := out, high_water := max t.high_water out,
             recycle_misses := t.recycle_misses +
               (if m1.heap.length > t.mem.heap.length ∧ t.mem.locka_infos.free ≠ none
                then 1 else 0) }
  | ListOp.head_remove =>
    match stress_locka_info_head_remove t.mem with
    | none => none
    | some m1 =>
      some { mem := m1,
             outstanding := if t.mem.locka_infos.head.isSome = true then t.outstanding - 1
                            else t.outstanding,
             high_water := t.high_water,
             recycle_misses := t.recycle_misses +
               (if m1.heap.length > t.mem.heap.length then 1 else 0) }

/-- A sequence of calls on the record lists, in order. -/
def run_list_ops : List ListOp → Tally → Option Tally
  | [], t => some t
  | op :: ops, t =>
    match list_step op t with
    | none => none
    | some t1 => run_list_ops ops t1

/-- What holds of the observations after any sequence of calls: the lists are well
formed, the active list has `outstanding` records, every allocated record is on one of
the two lists, the number of allocated records is the high-water mark, no record was
freshly allocated while the free list had one, and the `length` field is `outstanding`
as an unsigned 64-bit value. -/
def Recycled (t : Tally) : Prop :=
  ∃ active spare, WF t.mem active spare ∧ active.length = t.outstanding ∧
    t.mem.heap.length = active.length + spare.length ∧
    t.mem.heap.length = t.high_water ∧ t.recycle_misses = 0 ∧
    t.mem.locka_infos.length = t.outstanding % 2 ^ 64

end StressLocka

/-! ## Definitions: `stress-splice.c` -/

namespace StressSplice

/-- Size of the write buffer: `SPLICE_BUFFER_LEN`. -/
def SPLICE_BUFFER_LEN : Nat := 65536

/-- Linux value of `EINVAL`. -/
def EINVAL : Int := 22

/-- Value of `EXIT_SUCCESS`. -/
def EXIT_SUCCESS : Int := 0

/-- Value of `EXIT_FAILURE`. -/
def EXIT_FAILURE : Int := 1

/-- Linux value of `SPLICE_F_MOVE`. -/
def SPLICE_F_MOVE : Nat := 1

/-- The flags argument `~0U`. -/
def ALL_FLAGS : Nat := 2 ^ 32 - 1

/-- The cast `(size_t)x` of a signed 64-bit value. -/
def size_t_of (x : Int) : Nat := (x % 2 ^ 64).toNat

/-- The cast `(int)x` of a signed 64-bit value. -/
def to_int32 (x : Int) : Int :=
  if x % 2 ^ 32 < 2 ^ 31 then x % 2 ^ 32 else x % 2 ^ 32 - 2 ^ 32

/-- The resources `stress_splice` acquires: the write buffer mapping and the file
descriptors. -/
inductive Res where
  | buffer
  | fd_in
  | fds1_0
  | fds1_1
  | fds2_0
  | fds2_1
  | fds3_0
  | fds3_1
  | fds4_0
  | fds4_1
  | fd_out
deriving DecidableEq, Repr

/-- The lifecycle states handed to `stress_set_proc_state`. -/
inductive ProcState where
  | STRESS_STATE_INIT
  | STRESS_STATE_RUN
  | STRESS_STATE_DEINIT
deriving DecidableEq, Repr

/-- Observable actions of `stress_splice`.  A `splice` event carries the arguments of the
call (`none` for a `NULL` offset pointer, `some v` for a pointer to an offset holding
`v`) and the value returned. -/
inductive Event where
  | acquire (r : Res)
  | release (r : Res)
  | pr_inf_mmap
  | pr_fail_open_zero
  | pr_fail_pipe
  | pr_fail_open_null
  | pr_inf_direct_write
  | set_proc_state (s : ProcState)
  | fcntl_getfl (r : Res) (ret : Int)
  | fcntl_setfl (r : Res) (nonblock : Bool) (ret : Int)
  | write (r : Res) (n : Nat) (ret : Int)
  | splice (src : Res) (off_in : Option Int) (dst : Res) (off_out : Option Int)
      (len : Nat) (flags : Nat) (ret : Int)
  | inc_counter
  | keep_stressing (r : Bool)
deriving DecidableEq, Repr

/-- The function `stress_splice_write`.  `write_ret k` is what the `k`-th `write` of the
call returns.  The first argument bounds the number of passes of the `while` loop;
`none` means that the loop has not ended within the bound.  The other arguments are the
index of the next write, the value of `size` and the value of `ret`. -/
def stress_splice_write (fd : Res) (write_ret : Nat → Int) (buffer_len : Int) :
    Nat → Nat → Int → Int → Option (Int × List Event)
  | 0, _, size, ret => if size > 0 then none else some (to_int32 ret, [])
  | fuel + 1, k, size, ret =>
    if size > 0 then
      let n := size_t_of (if size > buffer_len then buffer_len else size)
      let r := write_ret k
      if r < 0 then some (to_int32 r, [Event.write fd n r])
      else
        match stress_splice_write fd write_ret buffer_len fuel (k + 1)
            (to_int64 ((size_t_of size + (2 ^ 64 - n % 2 ^ 64)) % 2 ^ 64)) r with
        | none => none
        | some (v, evs) => some (v, Event.write fd n r :: evs)
    else some (to_int32 ret, [])

/-- The function `stress_splice_non_block_write_4K` with the values returned by its four
system calls. -/
def stress_splice_non_block_write_4K (fd : Res) (getfl setfl1 wr setfl2 : Int) :
    Bool × List Event :=
  if getfl < 0 then (false, [Event.fcntl_getfl fd getfl])
  else if setfl1 < 0 then (false, [Event.fcntl_getfl fd getfl, Event.fcntl_setfl fd true setfl1])
  else if wr < 0 then
    (false, [Event.fcntl_getfl fd getfl, Event.fcntl_setfl fd true setfl1,
             Event.write fd 4096 wr])
  else if setfl2 < 0 then
    (false, [Event.fcntl_getfl fd getfl, Event.fcntl_setfl fd true setfl1,
             Event.write fd 4096 wr, Event.fcntl_setfl fd false setfl2])
  else
    (true, [Event.fcntl_getfl fd getfl, Event.fcntl_setfl fd true setfl1,
            Event.write fd 4096 wr, Event.fcntl_setfl fd false setfl2])

/-- The function `stress_splice_looped_pipe` with the values returned by its two
splices: the new value of `*use_splice_loop` and the events. -/
def stress_splice_looped_pipe (r1 r2 : Int) (use_splice_loop : Bool) : Bool × List Event :=
  if use_splice_loop = false then (use_splice_loop, [])
  else if r1 < 0 then
    (false, [Event.splice Res.fds3_0 none Res.fds4_1 none 4096 SPLICE_F_MOVE r1])
  else if r2 < 0 then
    (false, [Event.splice Res.fds3_0 none Res.fds4_1 none 4096 SPLICE_F_MOVE r1,
             Event.splice Res.fds4_0 none Res.fds3_1 none 4096 SPLICE_F_MOVE r2])
  else
    (true, [Event.splice Res.fds3_0 none Res.fds4_1 none 4096 SPLICE_F_MOVE r1,
            Event.splice Res.fds4_0 none Res.fds3_1 none 4096 SPLICE_F_MOVE r2])

/-- What the environment answers during one pass of the primary loop: the result and
`errno` of the splice from the source, the results of the writes of
`stress_splice_write`, of the two pipeline splices, of the seven probe splices, of the
four splices of the two looped-pipe calls, and of `keep_stressing(args)`. -/
structure IterIn where
  src_ret : Int
  src_errno : Int
  write_ret : Nat → Int
  p12_ret : Int
  p2out_ret : Int
  probe_ret : Nat → Int
  loop_ret : Nat → Int
  keep : Bool

/-- The mutable state of the primary loop. -/
structure LoopSt where
  use_splice : Bool
  use_splice_loop : Bool
  counter : Nat
  trace : List Event
deriving DecidableEq, Repr

/-- How one pass of the loop body ends: at a `break`, or at the loop condition
`keep_stressing(args)` with the given value. -/
inductive Flow where
  | brk
  | cond (keep : Bool)
deriving DecidableEq, Repr

/-- The seven probe splices of lines 313 to 343, whose results are discarded. -/
def probe_events (splice_bytes : Nat) (probe_ret : Nat → Int) : List Event :=
  [Event.splice Res.fds1_0 (some 1) Res.fds1_1 (some 1) 4096 SPLICE_F_MOVE (probe_ret 0),
   Event.splice Res.fd_in none Res.fds1_1 (some 1) splice_bytes SPLICE_F_MOVE (probe_ret 1),
   Event.splice Res.fds1_0 (some 1) Res.fd_out none splice_bytes SPLICE_F_MOVE (probe_ret 2),
   Event.splice Res.fd_in none Res.fds1_1 none 0 SPLICE_F_MOVE (probe_ret 3),
   Event.splice Res.fd_in none Res.fds1_1 none 1 ALL_FLAGS (probe_ret 4),
   Event.splice Res.fd_in none Res.fds1_1 none 1 0 (probe_ret 5),
   Event.splice Res.fds1_1 (some 0) Res.fds1_1 (some 0) 4096 SPLICE_F_MOVE (probe_ret 6)]

/-- The value of `splice_bytes` computed at the start of `stress_splice` (lines 160 to
185).  `setting` is what `stress_get_setting("splice-bytes", ...)` finds, `maximize` and
`minimize` are the bits `OPT_FLAGS_MAXIMIZE` and `OPT_FLAGS_MINIMIZE` of `g_opt_flags`,
and the three constants are declared in `stress-ng.h`.  `num_instances` is at least one
in a running stressor. -/
def splice_bytes_of (MIN_SPLICE_BYTES MAX_SPLICE_BYTES DEFAULT_SPLICE_BYTES : Nat)
    (setting : Option Nat) (maximize minimize : Bool) (num_instances : Nat) : Nat :=
  let sb0 :=
    match setting with
    | some v => v
    | none =>
      let a := if maximize = true then MAX_SPLICE_BYTES else DEFAULT_SPLICE_BYTES
      if minimize = true then MIN_SPLICE_BYTES else a
  let sb1 := sb0 / num_instances
  if sb1 < MIN_SPLICE_BYTES then MIN_SPLICE_BYTES else sb1

/-- The value of `buffer_len`:
`(ssize_t)(splice_bytes > SPLICE_BUFFER_LEN ? SPLICE_BUFFER_LEN : splice_bytes)`. -/
def buffer_len_of (splice_bytes : Nat) : Int :=
  to_int64 (if splice_bytes > SPLICE_BUFFER_LEN then SPLICE_BUFFER_LEN else splice_bytes)

/-- The part of the loop body after the first pipe has been fed: the two pipeline
splices, the probes, the two looped-pipe calls and `inc_counter`. -/
def splice_rest (splice_bytes : Nat) (x : IterIn) (s : LoopSt) : Flow × LoopSt :=
  let e12 := Event.splice Res.fds1_0 none Res.fds2_1 none splice_bytes SPLICE_F_MOVE x.p12_ret
  if x.p12_ret < 0 then (Flow.brk, { s with trace := s.trace ++ [e12] })
  else
    let e2o := Event.splice Res.fds2_0 none Res.fd_out none splice_bytes SPLICE_F_MOVE x.p2out_ret
    if x.p2out_ret < 0 then (Flow.brk, { s with trace := s.trace ++ [e12, e2o] })
    else
      let l1 := stress_splice_looped_pipe (x.loop_ret 0) (x.loop_ret 1) s.use_splice_loop
      let l2 := stress_splice_looped_pipe (x.loop_ret 2) (x.loop_ret 3) l1.1
      (Flow.cond x.keep,
        { s with
          use_splice_loop := l2.1,
          counter := u64_incr s.counter,
          trace := s.trace ++ [e12, e2o] ++ probe_events splice_bytes x.probe_ret ++ l1.2 ++ l2.2
            ++ [Event.inc_counter, Event.keep_stressing x.keep] })

/-- One pass through the body of the primary `do { ... } while (keep_stressing(args))`
loop of `stress_splice`.  `instance_id` is `args->instance`.  The write loop of
`stress_splice_write` is given `splice_bytes` passes, which it never uses up. -/
def splice_body (instance_id : Nat) (splice_bytes : Nat) (x : IterIn) (s : LoopSt) :
    Option (Flow × LoopSt) :=
  if s.use_splice = true then
    let e := Event.splice Res.fd_in none Res.fds1_1 none splice_bytes SPLICE_F_MOVE x.src_ret
    if x.src_ret < 0 then
      if x.src_errno = EINVAL then
        let tr := if instance_id = 0 then s.trace ++ [e, Event.pr_inf_direct_write]
                  else s.trace ++ [e]
        some (Flow.cond x.keep,
          { s with use_splice := false, trace := tr ++ [Event.keep_stressing x.keep] })
      else some (Flow.brk, { s with trace := s.trace ++ [e] })
    else some (splice_rest splice_bytes x { s with trace := s.trace ++ [e] })
  else
    match stress_splice_write Res.fds1_1 x.write_ret (buffer_len_of splice_bytes) splice_bytes 0
        (to_int64 splice_bytes) 0 with
    | none => none
    | some (ret, evs) =>
      if ret < 0 then some (Flow.brk, { s with trace := s.trace ++ evs })
      else some (splice_rest splice_bytes x { s with trace := s.trace ++ evs })

/-- The primary loop run on the answers of the environment for its passes.  The boolean
of the result tells whether the loop has been left (by `break` or because
`keep_stressing` returned false); it is false when the loop is still running after the
last pass described. -/
def splice_loop (instance_id : Nat) (splice_bytes : Nat) :
    List IterIn → LoopSt → Option (Bool × LoopSt)
  | [], s => some (false, s)
  | x :: xs, s =>
    match splice_body instance_id splice_bytes x s with
    | none => none
    | some (Flow.brk, s1) => some (true, s1)
    | some (Flow.cond true, s1) => splice_loop instance_id splice_bytes xs s1
    | some (Flow.cond false, s1) => some (true, s1)

/-- What the environment answers during the acquisition sequence: whether each of the
seven steps succeeds, and the results of the system calls of
`stress_splice_non_block_write_4K`. -/
structure SetupEnv where
  mmap_ok : Bool
  open_zero_ok : Bool
  pipe1_ok : Bool
  pipe2_ok : Bool
  pipe3_ok : Bool
  pipe4_ok : Bool
  open_null_ok : Bool
  getfl : Int
  setfl1 : Int
  wr : Int
  setfl2 : Int
deriving DecidableEq, Repr

/-- The code from label `close_done` on. -/
def close_done : List Event := [Event.set_proc_state ProcState.STRESS_STATE_DEINIT]

/-- The code from label `close_unmap` on. -/
def close_unmap : List Event := Event.release Res.buffer :: close_done

/-- The code from label `close_fd_in` on. -/
def close_fd_in : List Event :=
  Event.set_proc_state ProcState.STRESS_STATE_DEINIT :: Event.release Res.fd_in :: close_unmap

/-- The code from label `close_fds1` on. -/
def close_fds1 : List Event :=
  Event.set_proc_state ProcState.STRESS_STATE_DEINIT :: Event.release Res.fds1_0 ::
    Event.release Res.fds1_1 :: close_fd_in

/-- The code from label `close_fds2` on. -/
def close_fds2 : List Event :=
  Event.set_proc_state ProcState.STRESS_STATE_DEINIT :: Event.release Res.fds2_0 ::
    Event.release Res.fds2_1 :: close_fds1

/-- The code from label `close_fds3` on. -/
def close_fds3 : List Event :=
  Event.set_proc_state ProcState.STRESS_STATE_DEINIT :: Event.release Res.fds3_0 ::
    Event.release Res.fds3_1 :: close_fds2

/-- The code from label `close_fds4` on. -/
def close_fds4 : List Event :=
  Event.set_proc_state ProcState.STRESS_STATE_DEINIT :: Event.release Res.fds4_0 ::
    Event.release Res.fds4_1 :: close_fds3

/-- The code after the primary loop: `rc = EXIT_SUCCESS`, the state change, the close of
`fd_out`, and the labels that follow. -/
def close_all : List Event :=
  Event.set_proc_state ProcState.STRESS_STATE_DEINIT :: Event.release Res.fd_out :: close_fds4

/-- The function `stress_splice` from the mapping of the buffer on: the acquisition
sequence, the primary loop and the cleanup chain.  The result is the returned status and
the events; it is `none` when the function has not returned within the passes
described. -/
def stress_splice (instance_id : Nat) (splice_bytes : Nat) (counter : Nat) (env : SetupEnv)
    (iters : List IterIn) : Option (Int × List Event) :=
  if env.mmap_ok = false then
    some (EXIT_FAILURE, Event.pr_inf_mmap :: close_done)
  else if env.open_zero_ok = false then
    some (EXIT_FAILURE, [Event.acquire Res.buffer, Event.pr_fail_open_zero] ++ close_unmap)
  else if env.pipe1_ok = false then
    some (EXIT_FAILURE,
      [Event.acquire Res.buffer, Event.acquire Res.fd_in, Event.pr_fail_pipe] ++ close_fd_in)
  else if env.pipe2_ok = false then
    some (EXIT_FAILURE,
      [Event.acquire Res.buffer, Event.acquire Res.fd_in, Event.acquire Res.fds1_0,
       Event.acquire Res.fds1_1, Event.pr_fail_pipe] ++ close_fds1)
  else if env.pipe3_ok = false then
    some (EXIT_FAILURE,
      [Event.acquire Res.buffer, Event.acquire Res.fd_in, Event.acquire Res.fds1_0,
       Event.acquire Res.fds1_1, Event.acquire Res.fds2_0, Event.acquire Res.fds2_1,
       Event.pr_fail_pipe] ++ close_fds2)
  else if env.pipe4_ok = false then
    some (EXIT_FAILURE,
      [Event.acquire Res.buffer, Event.acquire Res.fd_in, Event.acquire Res.fds1_0,
       Event.acquire Res.fds1_1, Event.acquire Res.fds2_0, Event.acquire Res.fds2_1,
       Event.acquire Res.fds3_0, Event.acquire Res.fds3_1, Event.pr_fail_pipe] ++ close_fds3)
  else if env.open_null_ok = false then
    some (EXIT_FAILURE,
      [Event.acquire Res.buffer, Event.acquire Res.fd_in, Event.acquire Res.fds1_0,
       Event.acquire Res.fds1_1, Event.acquire Res.fds2_0, Event.acquire Res.fds2_1,
       Event.acquire Res.fds3_0, Event.acquire Res.fds3_1, Event.acquire Res.fds4_0,
       Event.acquire Res.fds4_1, Event.pr_fail_open_null] ++ close_fds4)
  else
    let nb := stress_splice_non_block_write_4K Res.fds3_1 env.getfl env.setfl1 env.wr env.setfl2
    let s0 : LoopSt :=
      { use_splice := true, use_splice_loop := nb.1, counter := counter,
        trace := [Event.acquire Res.buffer, Event.acquire Res.fd_in, Event.acquire Res.fds1_0,
          Event.acquire Res.fds1_1, Event.acquire Res.fds2_0, Event.acquire Res.fds2_1,
          Event.acquire Res.fds3_0, Event.acquire Res.fds3_1, Event.acquire Res.fds4_0,
          Event.acquire Res.fds4_1, Event.acquire Res.fd_out] ++ nb.2
          ++ [Event.set_proc_state ProcState.STRESS_STATE_RUN] }
    match splice_loop instance_id splice_bytes iters s0 with
    | none => none
    | some (false, _) => none
    | some (true, s1) => some (EXIT_SUCCESS, s1.trace ++ close_all)

/-- The resources acquired in a trace, in order. -/
def acquired (tr : List Event) : List Res :=
  tr.filterMap (fun e => match e with | Event.acquire r => some r | _ => none)

/-- The resources released in a trace, in order. -/
def released (tr : List Event) : List Res :=
  tr.filterMap (fun e => match e with | Event.release r => some r | _ => none)

/-- The seven acquisition steps, in order. -/
inductive Step where
  | map_buffer
  | open_zero
  | pipe_fds1
  | pipe_fds2
  | pipe_fds3
  | pipe_fds4
  | open_null
deriving DecidableEq, Repr

/-- The resources a successful step yields. -/
def Step.yields : Step → List Res
  | Step.map_buffer => [Res.buffer]
  | Step.open_zero => [Res.fd_in]
  | Step.pipe_fds1 => [Res.fds1_0, Res.fds1_1]
  | Step.pipe_fds2 => [Res.fds2_0, Res.fds2_1]
  | Step.pipe_fds3 => [Res.fds3_0, Res.fds3_1]
  | Step.pipe_fds4 => [Res.fds4_0, Res.fds4_1]
  | Step.open_null => [Res.fd_out]

/-- The steps that come before a step. -/
def Step.earlier : Step → List Step
  | Step.map_buffer => []
  | Step.open_zero => [Step.map_buffer]
  | Step.pipe_fds1 => [Step.map_buffer, Step.open_zero]
  | Step.pipe_fds2 => [Step.map_buffer, Step.open_zero, Step.pipe_fds1]
  | Step.pipe_fds3 => [Step.map_buffer, Step.open_zero, Step.pipe_fds1, Step.pipe_fds2]
  | Step.pipe_fds4 =>
    [Step.map_buffer, Step.open_zero, Step.pipe_fds1, Step.pipe_fds2, Step.pipe_fds3]
  | Step.open_null =>
    [Step.map_buffer, Step.open_zero, Step.pipe_fds1, Step.pipe_fds2, Step.pipe_fds3,
     Step.pipe_fds4]

/-- Whether a step succeeds in an environment. -/
def Step.ok (env : SetupEnv) : Step → Bool
  | Step.map_buffer => env.mmap_ok
  | Step.open_zero => env.open_zero_ok
  | Step.pipe_fds1 => env.pipe1_ok
  | Step.pipe_fds2 => env.pipe2_ok
  | Step.pipe_fds3 => env.pipe3_ok
  | Step.pipe_fds4 => env.pipe4_ok
  | Step.open_null => env.open_null_ok

/-- An event is the splice of the primary feed of the first pipe from the source:
`splice(fd_in, NULL, fds1[1], NULL, splice_bytes, SPLICE_F_MOVE)`. -/
def is_direct_splice (splice_bytes : Nat) (e : Event) : Bool :=
  match e with
  | Event.splice Res.fd_in none Res.fds1_1 none len flags _ =>
    decide (len = splice_bytes) && decide (flags = SPLICE_F_MOVE)
  | _ => false

/-- Number of increments of the Operation Counter in a trace. -/
def incs (tr : List Event) : Nat := tr.count Event.inc_counter

/-- The first pipe is fed in a pass: by the splice from the source when `use_splice` is
set, by `stress_splice_write` otherwise. -/
def feed_ok (splice_bytes : Nat) (use_splice : Bool) (x : IterIn) : Bool :=
  if use_splice = true then decide (0 ≤ x.src_ret)
  else
    match stress_splice_write Res.fds1_1 x.write_ret (buffer_len_of splice_bytes) splice_bytes 0
        (to_int64 splice_bytes) 0 with
    | some (ret, _) => decide (0 ≤ ret)
    | none => false

/-- The three moves of the primary pipeline all succeed in a pass: source to first pipe,
first pipe to second pipe, second pipe to sink. -/
def moves_ok (splice_bytes : Nat) (use_splice : Bool) (x : IterIn) : Bool :=
  feed_ok splice_bytes use_splice x && decide (0 ≤ x.p12_ret) && decide (0 ≤ x.p2out_ret)

/-- Answers of the environment for a pass in which the splice from the source fails
with `EINVAL`. -/
def x_einval : IterIn :=
  { src_ret := -1, src_errno := EINVAL, write_ret := fun _ => 4096, p12_ret := 4096,
    p2out_ret := 4096, probe_ret := fun _ => -1, loop_ret := fun _ => -1, keep := true }

/-- Answers of the environment for a pass in which every write and pipeline splice moves
4096 bytes, every probe fails, and the stop signal is raised at the end. -/
def x_completes : IterIn :=
  { src_ret := 4096, src_errno := 0, write_ret := fun _ => 4096, p12_ret := 4096,
    p2out_ret := 4096, probe_ret := fun _ => -1, loop_ret := fun _ => -1, keep := false }

/-- The statement that the fallback is permanent, for a worker with the given instance
number and transfer size.  First, a pass that finds the splice from the source failing
with `EINVAL` clears `use_splice` and goes to the loop condition.  Second, a pass that
starts with `use_splice` cleared ends with it cleared, begins with the events of the
`stress_splice_write` call on the first pipe, and contains no primary splice from the
source.  Third, the same holds for any number of further passes: `use_splice` stays
cleared and no primary splice from the source is issued. -/
def FallbackPermanent (instance_id sb : Nat) : Prop :=
  (∀ (x : IterIn) (s : LoopSt), s.use_splice = true → x.src_ret < 0 → x.src_errno = EINVAL →
    ∃ s1, splice_body instance_id sb x s = some (Flow.cond x.keep, s1) ∧
      s1.use_splice = false ∧ s1.counter = s.counter) ∧
  (∀ (x : IterIn) (s : LoopSt), s.use_splice = false →
    ∃ fl s1 ret wr rest, splice_body instance_id sb x s = some (fl, s1) ∧
      s1.use_splice = false ∧
      stress_splice_write Res.fds1_1 x.write_ret (buffer_len_of sb) sb 0 (to_int64 sb) 0
        = some (ret, wr) ∧
      s1.trace = s.trace ++ (wr ++ rest) ∧
      (∀ e, e ∈ wr → ∃ n r, e = Event.write Res.fds1_1 n r) ∧
      (∀ e, e ∈ wr ++ rest → is_direct_splice sb e = false)) ∧
  (∀ (xs : List IterIn) (s : LoopSt), s.use_splice = false →
    ∃ r ext, splice_loop instance_id sb xs s = some r ∧ r.2.use_splice = false ∧
      r.2.trace = s.trace ++ ext ∧ ∀ e, e ∈ ext → is_direct_splice sb e = false)

/-- The largest byte count a single `write` transfers on Linux (`INT_MAX & PAGE_MASK`),
so that a successful `write` returns at most this value. -/
def MAX_RW_COUNT : Int := 0x7ffff000

/-- The byte counts requested by the `write` calls of a trace, in order. -/
def requested (evs : List Event) : List Nat :=
  evs.filterMap (fun e => match e with | Event.write _ n _ => some n | _ => none)

/-- The number `ceil(size / buffer_len)` for positive `buffer_len`. -/
def ceil_div (size buffer_len : Int) : Nat := ((size + buffer_len - 1) / buffer_len).toNat

/-- An environment in which the third `write` fails and the others transfer all that is
requested of them. -/
def wr_third_fails (k : Nat) : Int := if k = 2 then -1 else 4

end StressSplice

/-! ## Definitions: the entry points and the lifecycle state -/

namespace StressSplice

/-- The order of the lifecycle states: `INIT < RUN < DEINIT`. -/
def ProcState.rank : ProcState → Nat
  | ProcState.STRESS_STATE_INIT => 0
  | ProcState.STRESS_STATE_RUN => 1
  | ProcState.STRESS_STATE_DEINIT => 2

/-- A sequence of lifecycle states never goes back: each state set is at most every
state set after it. -/
def Monotonic (l : List ProcState) : Prop :=
  l.Pairwise (fun a b => a.rank ≤ b.rank)

/-- The states handed to `stress_set_proc_state` in a trace of `stress_splice`, in
order. -/
def states (tr : List Event) : List ProcState :=
  tr.filterMap (fun e => match e with | Event.set_proc_state s => some s | _ => none)

/-- The state of the primary loop at its first pass, for a given trace so far. -/
def loop_start (use_splice_loop : Bool) (counter : Nat) (tr : List Event) : LoopSt :=
  { use_splice := true, use_splice_loop := use_splice_loop, counter := counter, trace := tr }

/-- The state in which `stress_splice` enters its primary loop once the seven
acquisition steps and the open of `/dev/null` have succeeded: the value `s0` of
`stress_splice`. -/
def run_start (counter : Nat) (env : SetupEnv) : LoopSt :=
  loop_start
    (stress_splice_non_block_write_4K Res.fds3_1 env.getfl env.setfl1 env.wr env.setfl2).1
    counter
    ([Event.acquire Res.buffer, Event.acquire Res.fd_in, Event.acquire Res.fds1_0,
      Event.acquire Res.fds1_1, Event.acquire Res.fds2_0, Event.acquire Res.fds2_1,
      Event.acquire Res.fds3_0, Event.acquire Res.fds3_1, Event.acquire Res.fds4_0,
      Event.acquire Res.fds4_1, Event.acquire Res.fd_out]
      ++ (stress_splice_non_block_write_4K Res.fds3_1 env.getfl env.setfl1 env.wr env.setfl2).2
      ++ [Event.set_proc_state ProcState.STRESS_STATE_RUN])

end StressSplice

namespace StressFork

/-- Observable actions of `stress_fork` and `stress_vfork`: a call of
`stress_set_proc_state`, or an action of `stress_fork_fn`. -/
inductive EntryEvent where
  | set_proc_state (s : StressSplice.ProcState)
  | fn (e : Event)
deriving DecidableEq, Repr

/-- How a run of `stress_fork` or `stress_vfork` ends: in a child, which calls
`_exit(0)`; with a `return`; or still in the loop of `stress_fork_fn` after the last
iteration described.  Each carries the events so far. -/
inductive EntryResult where
  | child_exit (trace : List EntryEvent)
  | returned (rc : Int) (trace : List EntryEvent)
  | running (trace : List EntryEvent)
deriving DecidableEq, Repr

/-- The events of an entry point's run. -/
def EntryResult.trace : EntryResult → List EntryEvent
  | EntryResult.child_exit tr => tr
  | EntryResult.returned _ tr => tr
  | EntryResult.running tr => tr

/-- The batch size an entry point works with: the setting if there is one, else the
default, replaced by the maximum when `OPT_FLAGS_MAXIMIZE` is set and then by the
minimum when `OPT_FLAGS_MINIMIZE` is set. -/
def batch_size (min_forks max_forks default_forks : Nat) (setting : Option Nat)
    (maximize minimize : Bool) : Nat :=
  match setting with
  | some v => v
  | none =>
    let a := if maximize = true then max_forks else default_forks
    if minimize = true then min_forks else a

/-- The part common to `stress_fork` and `stress_vfork`:
`stress_set_proc_state(RUN); rc = stress_fork_fn(...); stress_set_proc_state(DEINIT);
return rc;`. -/
def run_entry (r : FnResult) : EntryResult :=
  match r with
  | FnResult.child_exit t =>
    EntryResult.child_exit
      (EntryEvent.set_proc_state StressSplice.ProcState.STRESS_STATE_RUN :: t.map EntryEvent.fn)
  | FnResult.returned rc _ t =>
    EntryResult.returned rc
      (EntryEvent.set_proc_state StressSplice.ProcState.STRESS_STATE_RUN :: t.map EntryEvent.fn
        ++ [EntryEvent.set_proc_state StressSplice.ProcState.STRESS_STATE_DEINIT])
  | FnResult.running _ t =>
    EntryResult.running
      (EntryEvent.set_proc_state StressSplice.ProcState.STRESS_STATE_RUN :: t.map EntryEvent.fn)

/-- The function `stress_fork`.  `MIN_FORKS`, `MAX_FORKS` and `DEFAULT_FORKS` are
declared in `stress-ng.h`; `setting` is what `stress_get_setting("fork-max", ...)`
finds. -/
def stress_fork (MIN_FORKS MAX_FORKS DEFAULT_FORKS : Nat) (setting : Option Nat)
    (maximize minimize verify : Bool) (its : List (Env × Bool)) (counter : Nat) : EntryResult :=
  run_entry (stress_fork_fn MAX_FORKS STRESS_FORK
    (batch_size MIN_FORKS MAX_FORKS DEFAULT_FORKS setting maximize minimize) verify its
    counter [])

/-- The function `stress_vfork`.  `MIN_VFORKS`, `MAX_VFORKS` and `DEFAULT_VFORKS` are
declared in `stress-ng.h`, as is `MAX_FORKS`, the size of the slot array of
`stress_fork_fn`. -/
def stress_vfork (MAX_FORKS MIN_VFORKS MAX_VFORKS DEFAULT_VFORKS : Nat) (setting : Option Nat)
    (maximize minimize verify : Bool) (its : List (Env × Bool)) (counter : Nat) : EntryResult :=
  run_entry (stress_fork_fn MAX_FORKS STRESS_VFORK
    (batch_size MIN_VFORKS MAX_VFORKS DEFAULT_VFORKS setting maximize minimize) verify its
    counter [])

/-- The states handed to `stress_set_proc_state` in a trace, in order. -/
def entry_states (tr : List EntryEvent) : List StressSplice.ProcState :=
  tr.filterMap (fun e => match e with | EntryEvent.set_proc_state s => some s | _ => none)

end StressFork

namespace StressLocka

/-- Value of `EXIT_SUCCESS`. -/
def EXIT_SUCCESS : Int := 0

/-- Value of `EXIT_FAILURE`. -/
def EXIT_FAILURE : Int := 1

/-- Linux value of `EINTR`. -/
def EINTR : Int := 4

/-- Linux value of `EAGAIN`. -/
def EAGAIN : Int := 11

/-- Linux value of `EEXIST`. -/
def EEXIST : Int := 17

/-- Observable actions of `stress_locka`; `loop e` is an action of
`stress_locka_contention`. -/
inductive EntryEvent where
  | mkdir (rc : Int)
  | open_file (fd : Int)
  | lseek (rc : Int)
  | keep_stressing_flag (r : Bool)
  | write (rc : Int)
  | pr_fail_mkdir
  | pr_fail_open
  | pr_fail_lseek
  | pr_fail_write
  | pr_fail_fork
  | set_proc_state (s : StressSplice.ProcState)
  | fork (cpid : Int)
  | keep_stressing (r : Bool)
  | loop (e : Event)
  | kill (pid : Int)
  | waitpid (pid : Int)
  | info_free
  | close
  | unlink
  | rmdir
deriving DecidableEq, Repr

/-- What the environment answers at one pass through the label `redo` of the loop that
fills the backing file. -/
structure FillIn where
  keep_flag : Bool
  write_rc : Int
  write_errno : Int
deriving DecidableEq, Repr

/-- What the environment answers at one pass through the label `again`: the value of
`fork()`, of `stress_redo_fork(errno)` and of `keep_stressing(args)`. -/
structure ForkIn where
  cpid : Int
  redo : Bool
  keep : Bool
deriving DecidableEq, Repr

/-- What the environment answers during a run of `stress_locka`. -/
structure EntryEnv where
  mkdir_rc : Int
  mkdir_errno : Int
  open_fd : Int
  open_errno : Int
  lseek_rc : Int
  fills : List FillIn
  forks : List ForkIn
  passes : List IterIn

/-- How a run of `stress_locka` ends: with a `return`; with `_exit` in the child; or
still in one of its loops after the last pass described.  Each carries the events so
far. -/
inductive EntryResult where
  | returned (rc : Int) (trace : List EntryEvent)
  | exited (rc : Int) (trace : List EntryEvent)
  | running (trace : List EntryEvent)
deriving DecidableEq, Repr

/-- The events of a run of `stress_locka`. -/
def EntryResult.trace : EntryResult → List EntryEvent
  | EntryResult.returned _ tr => tr
  | EntryResult.exited _ tr => tr
  | EntryResult.running tr => tr

/-- How the loop that fills the backing file ends: with a jump to `tidy` and a value of
`ret`, with the file filled, or still running. -/
inductive FillResult where
  | tidy (ret : Int) (trace : List EntryEvent)
  | filled (trace : List EntryEvent)
  | running (trace : List EntryEvent)
deriving DecidableEq, Repr

/-- The loop `for (offset = 0; offset < LOCK_FILE_SIZE; offset += sizeof(buffer))` with
its label `redo`; `exit_status` is the helper of that name. -/
def fill_loop (exit_status : Int → Int) : List FillIn → Int → List EntryEvent → FillResult
  | [], offset, tr => if offset < LOCK_FILE_SIZE then FillResult.running tr else FillResult.filled tr
  | x :: rest, offset, tr =>
    if offset < LOCK_FILE_SIZE then
      if x.keep_flag = false then
        FillResult.tidy EXIT_SUCCESS (tr ++ [EntryEvent.keep_stressing_flag false])
      else
        let tr1 := tr ++ [EntryEvent.keep_stressing_flag true, EntryEvent.write x.write_rc]
        if x.write_rc < 0 ∨ x.write_rc ≠ 4096 then
          if x.write_errno = EAGAIN ∨ x.write_errno = EINTR then
            fill_loop exit_status rest offset tr1
          else
            FillResult.tidy (exit_status x.write_errno) (tr1 ++ [EntryEvent.pr_fail_write])
        else fill_loop exit_status rest (offset + 4096) tr1
    else FillResult.filled tr

/-- The events of the filling loop. -/
def FillResult.trace : FillResult → List EntryEvent
  | FillResult.tidy _ tr => tr
  | FillResult.filled tr => tr
  | FillResult.running tr => tr

/-- How the code at the label `again` ends: with a jump to `tidy` (no child), with a
value of `cpid` that is not negative, or still retrying. -/
inductive ForkResult where
  | tidy (cpid : Int) (trace : List EntryEvent)
  | forked (cpid : Int) (trace : List EntryEvent)
  | running (trace : List EntryEvent)
deriving DecidableEq, Repr

/-- The code at the label `again`: `fork()` with its retries. -/
def fork_loop : List ForkIn → List EntryEvent → ForkResult
  | [], tr => ForkResult.running tr
  | x :: rest, tr =>
    let tr1 := tr ++ [EntryEvent.fork x.cpid]
    if x.cpid < 0 then
      if x.redo = true then fork_loop rest tr1
      else if x.keep = false then
        ForkResult.tidy x.cpid (tr1 ++ [EntryEvent.keep_stressing false])
      else
        ForkResult.tidy x.cpid (tr1 ++ [EntryEvent.keep_stressing true, EntryEvent.pr_fail_fork])
    else ForkResult.forked x.cpid tr1

/-- The events of the code at the label `again`. -/
def ForkResult.trace : ForkResult → List EntryEvent
  | ForkResult.tidy _ tr => tr
  | ForkResult.forked _ tr => tr
  | ForkResult.running tr => tr

/-- The code from the label `tidy` on.  The loops of `stress_locka_info_free` are given
as many passes as the heap has cells, which is as many as a list can have. -/
def tidy (ret cpid : Int) (m : Mem) (tr : List EntryEvent) : Option EntryResult :=
  match stress_locka_info_free m.heap.length m with
  | none => none
  | some _ =>
    some (EntryResult.returned ret
      (tr ++ [EntryEvent.set_proc_state StressSplice.ProcState.STRESS_STATE_DEINIT]
        ++ (if cpid > 0 then [EntryEvent.kill cpid, EntryEvent.waitpid cpid] else [])
        ++ [EntryEvent.info_free, EntryEvent.close, EntryEvent.unlink, EntryEvent.rmdir]))

/-- The function `stress_locka`.  The result is `none` when a record pointer that is not
valid is read. -/
def stress_locka (exit_status : Int → Int) (ctx : Ctx) (env : EntryEnv) : Option EntryResult :=
  if env.mkdir_rc < 0 ∧ env.mkdir_errno ≠ EEXIST then
    some (EntryResult.returned (exit_status env.mkdir_errno)
      [EntryEvent.mkdir env.mkdir_rc, EntryEvent.pr_fail_mkdir])
  else if env.open_fd < 0 then
    some (EntryResult.returned (exit_status env.open_errno)
      [EntryEvent.mkdir env.mkdir_rc, EntryEvent.open_file env.open_fd, EntryEvent.pr_fail_open,
       EntryEvent.rmdir])
  else
    let tr0 := [EntryEvent.mkdir env.mkdir_rc, EntryEvent.open_file env.open_fd,
                EntryEvent.lseek env.lseek_rc]
    if env.lseek_rc < 0 then
      tidy EXIT_FAILURE (-1) Mem.init (tr0 ++ [EntryEvent.pr_fail_lseek])
    else
      match fill_loop exit_status env.fills 0 tr0 with
      | FillResult.tidy ret tr => tidy ret (-1) Mem.init tr
      | FillResult.running tr => some (EntryResult.running tr)
      | FillResult.filled tr =>
        match fork_loop env.forks
            (tr ++ [EntryEvent.set_proc_state StressSplice.ProcState.STRESS_STATE_RUN]) with
        | ForkResult.running tr1 => some (EntryResult.running tr1)
        | ForkResult.tidy cpid tr1 => tidy EXIT_FAILURE cpid Mem.init tr1
        | ForkResult.forked cpid tr1 =>
          match stress_locka_contention ctx env.passes St.init with
          | none => none
          | some (none, s) => some (EntryResult.running (tr1 ++ s.trace.map EntryEvent.loop))
          | some (some rc, s) =>
            if cpid = 0 then
              if rc < 0 then
                some (EntryResult.exited EXIT_FAILURE (tr1 ++ s.trace.map EntryEvent.loop))
              else
                match stress_locka_info_free s.mem.heap.length s.mem with
                | none => none
                | some _ =>
                  some (EntryResult.exited EXIT_SUCCESS
                    (tr1 ++ s.trace.map EntryEvent.loop ++ [EntryEvent.info_free]))
            else
              tidy (if rc = 0 then EXIT_SUCCESS else EXIT_FAILURE) cpid s.mem
                (tr1 ++ s.trace.map EntryEvent.loop)

/-- The states handed to `stress_set_proc_state` in a trace, in order. -/
def entry_states (tr : List EntryEvent) : List StressSplice.ProcState :=
  tr.filterMap (fun e => match e with | EntryEvent.set_proc_state s => some s | _ => none)

end StressLocka

/-! ## Theorems: `stress-fork.c` -/

namespace StressFork

theorem waited_append (a b : List Event) : waited (a ++ b) = waited a ++ waited b := by
  simp [waited, List.filterMap_append]

theorem spawned_append (a b : List Event) : spawned (a ++ b) = spawned a ++ spawned b := by
  simp [spawned, List.filterMap_append]

theorem incs_append (a b : List Event) : incs (a ++ b) = incs a + incs b := by
  simp [incs, List.count_append]

theorem quiet_append {a b : List Event} (ha : Quiet a) (hb : Quiet b) : Quiet (a ++ b) := by
  unfold Quiet at *
  rw [incs_append, waited_append, ha.1, ha.2, hb.1, hb.2]
  exact ⟨rfl, rfl⟩

theorem spawn_call_cases (which : Int) (env : Env) (n : Nat) :
    (spawn_call which env n).1 = Event.fork_call (pid_of which env n) ∨
    (spawn_call which env n).1 = Event.vfork_call (pid_of which env n) ∨
    ((spawn_call which env n).1 = Event.pr_err_bad_fn ∧ pid_of which env n = -1) := by
  unfold pid_of spawn_call
  split_ifs <;> simp

/-- The events added by one pass through the spawn loop body. -/
theorem spawn_body_ext (which : Int) (env : Env) (n : Nat) (info : List fork_info_t) :
    ∃ ext, Quiet ext ∧
      spawned ext = (if pid_of which env n > 0 then [pid_of which env n] else []) ∧
      ((pid_of which env n = 0 ∧ spawn_body which env n info = BodyResult.child ext) ∨
       (pid_of which env n ≠ 0 ∧ env.keep n = true ∧
          spawn_body which env n info
            = BodyResult.next (record_slot info n (pid_of which env n) (spawn_call which env n).2.2) ext) ∨
       (pid_of which env n ≠ 0 ∧ env.keep n = false ∧
          spawn_body which env n info
            = BodyResult.brk (record_slot info n (pid_of which env n) (spawn_call which env n).2.2) ext)) := by
  have hq : Quiet [(spawn_call which env n).1] ∧
      spawned [(spawn_call which env n).1]
        = (if pid_of which env n > 0 then [pid_of which env n] else []) := by
    rcases spawn_call_cases which env n with h | h | ⟨h, h1⟩
    · rw [h]; simp only [Quiet, incs, waited, spawned, List.filterMap_cons, List.filterMap_nil]
      refine ⟨⟨by simp, trivial⟩, ?_⟩
      split_ifs <;> rfl
    · rw [h]; simp only [Quiet, incs, waited, spawned, List.filterMap_cons, List.filterMap_nil]
      refine ⟨⟨by simp, trivial⟩, ?_⟩
      split_ifs <;> rfl
    · rw [h, h1]; simp only [Quiet, incs, waited, spawned, List.filterMap_cons, List.filterMap_nil]
      refine ⟨⟨by simp, trivial⟩, ?_⟩
      decide
  have hkq : ∀ b, Quiet [Event.keep_stressing b] ∧ spawned [Event.keep_stressing b] = [] :=
    fun b => ⟨⟨by simp [incs], rfl⟩, rfl⟩
  have hsq : ∀ p, Quiet [Event.setpgid p] ∧ spawned [Event.setpgid p] = [] :=
    fun p => ⟨⟨by simp [incs], rfl⟩, rfl⟩
  have hcq : Quiet [Event.child_sequence_exit] ∧ spawned [Event.child_sequence_exit] = [] :=
    ⟨⟨by simp [incs], rfl⟩, rfl⟩
  by_cases h0 : pid_of which env n = 0
  · refine ⟨[(spawn_call which env n).1] ++ [Event.child_sequence_exit],
      quiet_append hq.1 hcq.1, ?_, Or.inl ⟨h0, ?_⟩⟩
    · rw [spawned_append, hq.2, hcq.2, List.append_nil]
    · unfold pid_of at h0
      simp [spawn_body, h0]
  · have h0' : ¬ (spawn_call which env n).2.1 = 0 := h0
    by_cases hp : pid_of which env n > -1
    · have hp' : (spawn_call which env n).2.1 > -1 := hp
      refine ⟨[(spawn_call which env n).1] ++ [Event.setpgid (pid_of which env n)]
          ++ [Event.keep_stressing (env.keep n)],
        quiet_append (quiet_append hq.1 (hsq _).1) (hkq _).1, ?_, Or.inr ?_⟩
      · rw [spawned_append, spawned_append, hq.2, (hsq _).2, (hkq _).2]; simp
      · cases hk : env.keep n
        · exact Or.inr ⟨h0, rfl, by simp [spawn_body, h0', hp', hk, pid_of]⟩
        · exact Or.inl ⟨h0, rfl, by simp [spawn_body, h0', hp', hk, pid_of]⟩
    · have hp' : ¬ (spawn_call which env n).2.1 > -1 := hp
      refine ⟨[(spawn_call which env n).1] ++ [Event.keep_stressing (env.keep n)],
        quiet_append hq.1 (hkq _).1, ?_, Or.inr ?_⟩
      · rw [spawned_append, hq.2, (hkq _).2]; simp
      · cases hk : env.keep n
        · exact Or.inr ⟨h0, rfl, by simp [spawn_body, h0', hp', hk, pid_of]⟩
        · exact Or.inl ⟨h0, rfl, by simp [spawn_body, h0', hp', hk, pid_of]⟩


theorem record_slot_length (info : List fork_info_t) (n : Nat) (pid e : Int) :
    (record_slot info n pid e).length = info.length := by
  unfold record_slot set_slot
  split_ifs <;> simp

theorem record_slot_other (info : List fork_info_t) (n i : Nat) (pid e : Int) (h : i ≠ n) :
    slot (record_slot info n pid e) i = slot info i := by
  unfold record_slot set_slot slot
  have h' : n ≠ i := fun x => h x.symm
  split_ifs <;> simp [List.getD_eq_getElem?_getD, List.getElem?_set_ne h']

theorem record_slot_pid (info : List fork_info_t) (n : Nat) (pid e : Int)
    (h : n < info.length) : (slot (record_slot info n pid e) n).pid = pid := by
  unfold record_slot set_slot slot
  split_ifs <;> simp [List.getD_eq_getElem?_getD, h]

theorem pids_succ (which : Int) (env : Env) (a k : Nat) :
    pids which env a (k + 1)
      = (if pid_of which env a > 0 then [pid_of which env a] else []) ++ pids which env (a + 1) k := by
  unfold pids
  rw [List.range'_succ, List.map_cons, List.filter_cons]
  split_ifs with h1 h2 h2
  · rfl
  · exact absurd (of_decide_eq_true h1) h2
  · exact absurd (decide_eq_true h2) h1
  · rfl

theorem spawn_loop_parent (which : Int) (env : Env) :
    ∀ (fuel n : Nat) (info : List fork_info_t) (tr : List Event) (n1 : Nat)
      (info1 : List fork_info_t) (tr1 : List Event),
      spawn_loop which env fuel n info tr = SpawnResult.parent n1 info1 tr1 →
        n ≤ n1 ∧ n1 ≤ n + fuel ∧ info1.length = info.length ∧
        (∀ i, i < n → slot info1 i = slot info i) ∧
        (∀ i, n ≤ i → i < n1 → i < info.length → (slot info1 i).pid = pid_of which env i) ∧
        (∀ i, n ≤ i → i < n1 → env.keep i = true) ∧
        (n1 < n + fuel → env.keep n1 = false) ∧
        ∃ ext, tr1 = tr ++ ext ∧ Quiet ext ∧
          spawned ext = pids which env n ((if n1 < n + fuel then n1 + 1 else n1) - n) := by
  intro fuel
  induction fuel with
  | zero =>
    intro n info tr n1 info1 tr1 h
    simp only [spawn_loop, SpawnResult.parent.injEq] at h
    obtain ⟨rfl, rfl, rfl⟩ := h
    refine ⟨le_refl _, le_refl _, rfl, fun _ _ => rfl, ?_, ?_, ?_, [], by simp, ⟨rfl, rfl⟩, ?_⟩
    · intro i h1 h2; omega
    · intro i h1 h2; omega
    · intro h; omega
    · simp [pids, spawned]
  | succ fuel ih =>
    intro n info tr n1 info1 tr1 h
    obtain ⟨ext, hq, hs, hb⟩ := spawn_body_ext which env n info
    rcases hb with ⟨-, hb⟩ | ⟨-, hk, hb⟩ | ⟨-, hk, hb⟩
    · simp [spawn_loop, hb] at h
    · simp only [spawn_loop, hb] at h
      obtain ⟨h1, h2, h3, h4, h5, h6, h7, ext2, he, hq2, hs2⟩ := ih _ _ _ _ _ _ h
      rw [record_slot_length] at h3
      refine ⟨by omega, by omega, h3, ?_, ?_, ?_, ?_, ext ++ ext2, by rw [he, List.append_assoc],
        quiet_append hq hq2, ?_⟩
      · intro i hi
        rw [h4 i (by omega), record_slot_other _ _ _ _ _ (by omega)]
      · intro i hi1 hi2 hi3
        rcases Nat.eq_or_lt_of_le hi1 with heq | hlt
        · subst heq
          rw [h4 _ (by omega), record_slot_pid _ _ _ _ hi3]
        · exact h5 i (by omega) hi2 (by rw [record_slot_length]; exact hi3)
      · intro i hi1 hi2
        rcases Nat.eq_or_lt_of_le hi1 with heq | hlt
        · subst heq; exact hk
        · exact h6 i (by omega) hi2
      · intro hlt; exact h7 (by omega)
      · rw [spawned_append, hs, hs2]
        have e1 : (if n1 < n + 1 + fuel then n1 + 1 else n1)
            = (if n1 < n + (fuel + 1) then n1 + 1 else n1) := by
          split_ifs <;> omega
        have e2 : (if n1 < n + (fuel + 1) then n1 + 1 else n1) - n
            = ((if n1 < n + (fuel + 1) then n1 + 1 else n1) - (n + 1)) + 1 := by
          split_ifs <;> omega
        rw [e1, e2, pids_succ]
    · simp only [spawn_loop, hb, SpawnResult.parent.injEq] at h
      obtain ⟨rfl, rfl, rfl⟩ := h
      refine ⟨le_refl _, by omega, record_slot_length _ _ _ _, ?_, ?_, ?_, ?_, ext, rfl, hq, ?_⟩
      · intro i hi; exact record_slot_other _ _ _ _ _ (by omega)
      · intro i h1 h2; omega
      · intro i h1 h2; omega
      · intro _; exact hk
      · rw [hs]
        have : (if n < n + (fuel + 1) then n + 1 else n) - n = 0 + 1 := by
          rw [if_pos (by omega)]; omega
        rw [this, pids_succ]
        simp [pids]


theorem reap_fold (env : Env) (info : List fork_info_t) :
    ∀ (l : List Nat) (c : Nat) (tr : List Event),
      l.foldl (reap_step env info) (c, tr)
        = (u64_incr^[(l.filter (fun i => decide ((slot info i).pid > 0))).length] c,
           tr ++ reap_events env info (l.filter (fun i => decide ((slot info i).pid > 0)))) := by
  intro l
  induction l with
  | nil => intro c tr; simp [reap_events]
  | cons a l ih =>
    intro c tr
    rw [List.foldl_cons]
    by_cases h : (slot info a).pid > 0
    · rw [List.filter_cons_of_pos (by simpa using h)]
      simp only [reap_step, if_pos h]
      rw [ih]
      simp [reap_events, Function.iterate_succ_apply]
    · rw [List.filter_cons_of_neg (by simpa using h)]
      simp only [reap_step, if_neg h]
      rw [ih]

theorem reap_loop_eq (env : Env) (info : List fork_info_t) (n c : Nat) :
    reap_loop env info n c
      = (u64_incr^[(reaped_slots info n).length] c, reap_events env info (reaped_slots info n)) := by
  unfold reap_loop
  rw [reap_fold]
  simp [reaped_slots]

theorem reap_events_counts (env : Env) (info : List fork_info_t) (l : List Nat) :
    incs (reap_events env info l) = l.length ∧
    waited (reap_events env info l) = l.map (fun i => (slot info i).pid) ∧
    spawned (reap_events env info l) = [] := by
  induction l with
  | nil => exact ⟨rfl, rfl, rfl⟩
  | cons a l ih =>
    have e : reap_events env info (a :: l)
        = [Event.waitpid (slot info a).pid (env.wait_status a), Event.inc_counter]
          ++ reap_events env info l := by
      simp [reap_events]
    rw [e, incs_append, waited_append, spawned_append, ih.1, ih.2.1, ih.2.2]
    refine ⟨?_, rfl, rfl⟩
    simp [incs]
    omega

theorem verify_fold (verify : Bool) (info : List fork_info_t) :
    ∀ (l : List Nat) (tr : List Event),
      ∃ ext, l.foldl (verify_step verify info) tr = tr ++ ext ∧ Quiet ext ∧ spawned ext = [] := by
  intro l
  induction l with
  | nil => intro tr; exact ⟨[], by simp, ⟨rfl, rfl⟩, rfl⟩
  | cons a l ih =>
    intro tr
    rw [List.foldl_cons]
    have hs : verify_step verify info tr a = tr ∨
        verify_step verify info tr a = tr ++ [Event.pr_fail (slot info a).err] := by
      unfold verify_step
      split_ifs
      · exact Or.inl rfl
      · exact Or.inr rfl
      · exact Or.inl rfl
    rcases hs with hs | hs
    · rw [hs]; exact ih tr
    · rw [hs]
      obtain ⟨ext, h1, h2, h3⟩ := ih (tr ++ [Event.pr_fail (slot info a).err])
      refine ⟨[Event.pr_fail (slot info a).err] ++ ext, by rw [h1, List.append_assoc], ?_, ?_⟩
      · exact quiet_append ⟨by simp [incs], rfl⟩ h2
      · rw [spawned_append, h3]; rfl

theorem verify_loop_quiet (verify : Bool) (info : List fork_info_t) (n : Nat) :
    Quiet (verify_loop verify info n) ∧ spawned (verify_loop verify info n) = [] := by
  obtain ⟨ext, h1, h2, h3⟩ := verify_fold verify info (List.range n) []
  unfold verify_loop
  rw [h1]
  exact ⟨by simpa using h2, by simpa using h3⟩

theorem filter_map_congr_pids (f g : Nat → Int) :
    ∀ (l : List Nat), (∀ i, i ∈ l → f i = g i) →
      (l.filter (fun i => decide (f i > 0))).map f
        = (l.map g).filter (fun p => decide (p > 0)) := by
  intro l
  induction l with
  | nil => intro _; rfl
  | cons a l ih =>
    intro h
    have ha : f a = g a := h a (List.mem_cons_self _ _)
    have ih1 := ih (fun i hi => h i (List.mem_cons_of_mem _ hi))
    rw [List.map_cons, List.filter_cons, List.filter_cons, ← ha]
    by_cases hp : f a > 0
    · simp only [hp, decide_True, if_true, List.map_cons]
      rw [ih1]
    · simp only [hp, decide_False, Bool.false_eq_true, if_false]
      rw [ih1]

/-- What one iteration of `stress_fork_fn` waits for and what it spawned.  In the parent
the children waited for are those of the slots below the final `n`; the children spawned
are those of the slots below `n`, and also the one of slot `n` when the loop was left by
the `break` (`n < fork_max`). -/
theorem iteration_waited_spawned (MAX_FORKS : Nat) (which : Int) (fork_max : Nat)
    (verify : Bool) (env : Env) (c n : Nat) (info : List fork_info_t) (c1 : Nat)
    (tr : List Event) (hmax : fork_max ≤ MAX_FORKS)
    (h : stress_fork_iteration MAX_FORKS which fork_max verify env c
      = IterResult.parent n info c1 tr) :
    n ≤ fork_max ∧ (∀ i, i < n → env.keep i = true) ∧ (n < fork_max → env.keep n = false) ∧
    waited tr = pids which env 0 n ∧
    spawned tr = pids which env 0 (if n < fork_max then n + 1 else n) := by
  unfold stress_fork_iteration at h
  cases hs : spawn_loop which env fork_max 0
      (List.replicate MAX_FORKS { pid := 0, err := 0 }) [] with
  | child tr0 => rw [hs] at h; simp at h
  | parent n0 info0 tr0 =>
    rw [hs] at h
    simp only [IterResult.parent.injEq] at h
    obtain ⟨rfl, rfl, -, rfl⟩ := h
    obtain ⟨-, h2, h3, -, h5, h6, h7, ext, he, hq, hsp⟩ := spawn_loop_parent which env _ _ _ _ _ _ _ hs
    simp only [Nat.zero_add, List.length_replicate, List.nil_append, Nat.sub_zero] at h2 h3 h5 h7 he hsp
    subst he
    refine ⟨h2, fun i hi => h6 i (Nat.zero_le _) hi, h7, ?_, ?_⟩
    · rw [reap_loop_eq, waited_append, waited_append, hq.2, (verify_loop_quiet _ _ _).1.2,
        (reap_events_counts _ _ _).2.1]
      simp only [List.nil_append, List.append_nil]
      unfold reaped_slots pids
      rw [List.range_eq_range']
      apply filter_map_congr_pids
      intro i hi
      have hi' := hi
      simp only [List.mem_range'_1, Nat.zero_add] at hi'
      exact h5 i (Nat.zero_le _) hi'.2 (by omega)
    · rw [reap_loop_eq, spawned_append, spawned_append, hsp, (verify_loop_quiet _ _ _).2,
        (reap_events_counts _ _ _).2.2]
      simp

/-- When the stop signal does not fire during the batch, every child spawned in the
iteration is waited for. -/
theorem full_batch_reaps_all (MAX_FORKS : Nat) (which : Int) (fork_max : Nat)
    (verify : Bool) (env : Env) (c n : Nat) (info : List fork_info_t) (c1 : Nat)
    (tr : List Event) (hmax : fork_max ≤ MAX_FORKS)
    (hkeep : ∀ i, i < fork_max → env.keep i = true)
    (h : stress_fork_iteration MAX_FORKS which fork_max verify env c
      = IterResult.parent n info c1 tr) :
    n = fork_max ∧ waited tr = spawned tr := by
  obtain ⟨h1, -, h3, h4, h5⟩ := iteration_waited_spawned _ _ _ _ _ _ _ _ _ _ hmax h
  have hn : ¬ n < fork_max := by
    intro hlt
    have := hkeep n hlt
    rw [h3 hlt] at this
    exact Bool.noConfusion this
  rw [if_neg hn] at h5
  exact ⟨by omega, by rw [h4, h5]⟩

/-- When the stop signal cuts the batch short at slot `n`, the child spawned in slot `n`
is not waited for. -/
theorem cut_batch_skips_last (MAX_FORKS : Nat) (which : Int) (fork_max : Nat)
    (verify : Bool) (env : Env) (c n : Nat) (info : List fork_info_t) (c1 : Nat)
    (tr : List Event) (hmax : fork_max ≤ MAX_FORKS) (hn : n < fork_max)
    (h : stress_fork_iteration MAX_FORKS which fork_max verify env c
      = IterResult.parent n info c1 tr) :
    spawned tr
      = waited tr ++ (if pid_of which env n > 0 then [pid_of which env n] else []) := by
  obtain ⟨-, -, -, h4, h5⟩ := iteration_waited_spawned _ _ _ _ _ _ _ _ _ _ hmax h
  rw [if_pos hn] at h5
  rw [h4, h5]
  unfold pids
  rw [List.range'_concat, List.map_append, List.filter_append]
  simp only [Nat.zero_add, Nat.one_mul, List.map_cons, List.map_nil, List.filter_cons,
    List.filter_nil]
  by_cases hp : pid_of which env n > 0
  · simp [hp]
  · simp [hp]

/-- C1 (failing input): with `fork_max = 1`, a spawn that returns pid 100 and a stop
signal raised at the first `keep_stressing` check, the iteration spawns one child and
waits for none; the Operation Counter is not advanced. -/
theorem fork_stop_in_first_slot_reaps_nothing (MAX_FORKS : Nat) (h : 1 ≤ MAX_FORKS) :
    ∃ info,
      stress_fork_iteration MAX_FORKS STRESS_FORK 1 false env_stop_first 0
        = IterResult.parent 0 info 0
            [Event.fork_call 100, Event.setpgid 100, Event.keep_stressing false] ∧
      slot info 0 = { pid := 100, err := 0 } ∧
      spawned [Event.fork_call 100, Event.setpgid 100, Event.keep_stressing false] = [100] ∧
      waited [Event.fork_call 100, Event.setpgid 100, Event.keep_stressing false] = [] := by
  obtain ⟨m, rfl⟩ : ∃ m, MAX_FORKS = m + 1 := ⟨MAX_FORKS - 1, by omega⟩
  refine ⟨_, rfl, ?_, rfl, rfl⟩
  rfl

/-- The failing input of C1 with the slot array of 16000 entries. -/
theorem fork_stop_in_first_slot_reaps_nothing_witness :
    1 ≤ 16000 ∧ ∃ info,
      stress_fork_iteration 16000 STRESS_FORK 1 false env_stop_first 0
        = IterResult.parent 0 info 0
            [Event.fork_call 100, Event.setpgid 100, Event.keep_stressing false] ∧
      slot info 0 = { pid := 100, err := 0 } ∧
      spawned [Event.fork_call 100, Event.setpgid 100, Event.keep_stressing false] = [100] ∧
      waited [Event.fork_call 100, Event.setpgid 100, Event.keep_stressing false] = [] :=
  ⟨by decide, fork_stop_in_first_slot_reaps_nothing 16000 (by decide)⟩

theorem attempts_append (a b : List Event) : attempts (a ++ b) = attempts a + attempts b := by
  simp [attempts, List.countP_append]

theorem failures_append (a b : List Event) : failures (a ++ b) = failures a ++ failures b := by
  simp [failures, List.filterMap_append]

theorem record_slot_err (info : List fork_info_t) (n : Nat) (pid e : Int)
    (h : n < info.length) (hp : pid < 0) : (slot (record_slot info n pid e) n).err = e := by
  unfold record_slot set_slot slot
  simp [hp, List.getD_eq_getElem?_getD, h]

/-- One pass through the spawn loop body makes one spawn attempt and reports no
failure. -/
theorem spawn_body_attempt (which : Int) (env : Env) (n : Nat) (info : List fork_info_t) :
    ∃ ext, attempts ext = 1 ∧ failures ext = [] ∧
      (spawn_body which env n info = BodyResult.child ext ∨
       spawn_body which env n info
         = BodyResult.next (record_slot info n (pid_of which env n) (errno_of which env n)) ext ∨
       spawn_body which env n info
         = BodyResult.brk (record_slot info n (pid_of which env n) (errno_of which env n)) ext) := by
  have hq : attempts [(spawn_call which env n).1] = 1 ∧ failures [(spawn_call which env n).1] = [] := by
    rcases spawn_call_cases which env n with h | h | ⟨h, -⟩ <;> rw [h] <;> exact ⟨rfl, rfl⟩
  by_cases h0 : (spawn_call which env n).2.1 = 0
  · refine ⟨[(spawn_call which env n).1] ++ [Event.child_sequence_exit], ?_, ?_, Or.inl ?_⟩
    · rw [attempts_append, hq.1]; rfl
    · rw [failures_append, hq.2]; rfl
    · simp [spawn_body, h0]
  · by_cases hp : (spawn_call which env n).2.1 > -1
    · refine ⟨[(spawn_call which env n).1] ++ [Event.setpgid (pid_of which env n)]
          ++ [Event.keep_stressing (env.keep n)], ?_, ?_, Or.inr ?_⟩
      · rw [attempts_append, attempts_append, hq.1]; rfl
      · rw [failures_append, failures_append, hq.2]; rfl
      · cases hk : env.keep n
        · exact Or.inr (by simp [spawn_body, h0, hp, hk, pid_of, errno_of])
        · exact Or.inl (by simp [spawn_body, h0, hp, hk, pid_of, errno_of])
    · refine ⟨[(spawn_call which env n).1] ++ [Event.keep_stressing (env.keep n)], ?_, ?_,
        Or.inr ?_⟩
      · rw [attempts_append, hq.1]; rfl
      · rw [failures_append, hq.2]; rfl
      · cases hk : env.keep n
        · exact Or.inr (by simp [spawn_body, h0, hp, hk, pid_of, errno_of])
        · exact Or.inl (by simp [spawn_body, h0, hp, hk, pid_of, errno_of])

/-- More on the spawn loop in the parent: the captured error codes, the number of spawn
attempts, and the absence of failure reports. -/
theorem spawn_loop_parent_errs (which : Int) (env : Env) :
    ∀ (fuel n : Nat) (info : List fork_info_t) (tr : List Event) (n1 : Nat)
      (info1 : List fork_info_t) (tr1 : List Event),
      spawn_loop which env fuel n info tr = SpawnResult.parent n1 info1 tr1 →
        (∀ i, n ≤ i → i < n1 → i < info.length → pid_of which env i < 0 →
          (slot info1 i).err = errno_of which env i) ∧
        ∃ ext, tr1 = tr ++ ext ∧ failures ext = [] ∧
          attempts ext = (if n1 < n + fuel then n1 + 1 else n1) - n := by
  intro fuel
  induction fuel with
  | zero =>
    intro n info tr n1 info1 tr1 h
    simp only [spawn_loop, SpawnResult.parent.injEq] at h
    obtain ⟨rfl, rfl, rfl⟩ := h
    refine ⟨fun i h1 h2 => by omega, [], by simp, rfl, ?_⟩
    simp [attempts]
  | succ fuel ih =>
    intro n info tr n1 info1 tr1 h
    obtain ⟨ext, ha, hf, hb⟩ := spawn_body_attempt which env n info
    rcases hb with hb | hb | hb
    · simp [spawn_loop, hb] at h
    · simp only [spawn_loop, hb] at h
      obtain ⟨h1, -, -, h4, -, -, -, -⟩ := spawn_loop_parent which env _ _ _ _ _ _ _ h
      obtain ⟨h5, ext2, he, hf2, ha2⟩ := ih _ _ _ _ _ _ h
      refine ⟨?_, ext ++ ext2, by rw [he, List.append_assoc], ?_, ?_⟩
      · intro i hi1 hi2 hi3 hp
        rcases Nat.eq_or_lt_of_le hi1 with heq | hlt
        · subst heq
          rw [h4 _ (by omega), record_slot_err _ _ _ _ hi3 hp]
        · exact h5 i (by omega) hi2 (by rw [record_slot_length]; exact hi3) hp
      · rw [failures_append, hf, hf2]; rfl
      · rw [attempts_append, ha, ha2]
        split_ifs <;> omega
    · simp only [spawn_loop, hb, SpawnResult.parent.injEq] at h
      obtain ⟨rfl, rfl, rfl⟩ := h
      refine ⟨fun i h1 h2 => by omega, ext, rfl, hf, ?_⟩
      rw [ha, if_pos (by omega)]
      omega


theorem verify_fold_failures (verify : Bool) (info : List fork_info_t) :
    ∀ (l : List Nat) (tr : List Event),
      ∃ ext, l.foldl (verify_step verify info) tr = tr ++ ext ∧ attempts ext = 0 ∧
        failures ext = l.filterMap (fun i =>
          if (slot info i).pid < 0 ∧ verify = true ∧ (slot info i).err ≠ EAGAIN
              ∧ (slot info i).err ≠ ENOMEM
          then some (slot info i).err else none) := by
  intro l
  induction l with
  | nil => intro tr; exact ⟨[], by simp, rfl, rfl⟩
  | cons a l ih =>
    intro tr
    rw [List.foldl_cons, List.filterMap_cons]
    by_cases hc : (slot info a).pid < 0 ∧ verify = true ∧ (slot info a).err ≠ EAGAIN
        ∧ (slot info a).err ≠ ENOMEM
    · have hs : verify_step verify info tr a = tr ++ [Event.pr_fail (slot info a).err] := by
        unfold verify_step
        rw [if_pos ⟨hc.1, hc.2.1⟩, if_neg (fun h => h.elim hc.2.2.1 hc.2.2.2)]
      obtain ⟨ext, h1, h2, h3⟩ := ih (tr ++ [Event.pr_fail (slot info a).err])
      rw [hs, if_pos hc]
      refine ⟨[Event.pr_fail (slot info a).err] ++ ext, by rw [h1, List.append_assoc], ?_, ?_⟩
      · rw [attempts_append, h2]; rfl
      · rw [failures_append, h3]; rfl
    · have hs : verify_step verify info tr a = tr := by
        unfold verify_step
        by_cases h1 : (slot info a).pid < 0 ∧ verify = true
        · rw [if_pos h1]
          by_cases h2 : (slot info a).err = EAGAIN ∨ (slot info a).err = ENOMEM
          · rw [if_pos h2]
          · exact absurd ⟨h1.1, h1.2, fun h => h2 (Or.inl h), fun h => h2 (Or.inr h)⟩ hc
        · rw [if_neg h1]
      obtain ⟨ext, h1, h2, h3⟩ := ih tr
      rw [hs, if_neg hc]
      exact ⟨ext, h1, h2, h3⟩

theorem reap_events_quiet (env : Env) (info : List fork_info_t) (l : List Nat) :
    attempts (reap_events env info l) = 0 ∧ failures (reap_events env info l) = [] := by
  induction l with
  | nil => exact ⟨rfl, rfl⟩
  | cons a l ih =>
    have e : reap_events env info (a :: l)
        = [Event.waitpid (slot info a).pid (env.wait_status a), Event.inc_counter]
          ++ reap_events env info l := by
      simp [reap_events]
    rw [e, attempts_append, failures_append, ih.1, ih.2]
    exact ⟨rfl, rfl⟩

theorem filterMap_congr_mem {α β : Type} (f g : α → Option β) :
    ∀ (l : List α), (∀ i, i ∈ l → f i = g i) → l.filterMap f = l.filterMap g := by
  intro l
  induction l with
  | nil => intro _; rfl
  | cons a l ih =>
    intro h
    rw [List.filterMap_cons, List.filterMap_cons, h a (List.mem_cons_self _ _),
      ih (fun i hi => h i (List.mem_cons_of_mem _ hi))]

theorem must_report_iff (verify : Bool) (which : Int) (env : Env) (i : Nat) :
    (must_report verify which env i = true ↔
      (verify = true ∧ pid_of which env i < 0 ∧ errno_of which env i ≠ EAGAIN ∧
        errno_of which env i ≠ ENOMEM)) := by
  simp only [must_report, Bool.and_eq_true, decide_eq_true_eq]
  tauto

/-- What an iteration of `stress_fork_fn` reports, whatever the stop signal does: the
loop variable `n` is at most `fork_max`; the number of spawn attempts is `n + 1` when the
spawn loop was left at the `break` (`n < fork_max`) and `n` otherwise; and the failures
reported with `pr_fail` are, in order, those of the slots below `n` for which
verification mode is enabled, the spawn failed and the captured error code is neither
`EAGAIN` nor `ENOMEM`.  The slot filled last before a `break` is not looked at. -/
theorem iteration_failures (MAX_FORKS : Nat) (which : Int) (fork_max : Nat)
    (verify : Bool) (env : Env) (c n : Nat) (info : List fork_info_t) (c1 : Nat)
    (tr : List Event) (hmax : fork_max ≤ MAX_FORKS)
    (h : stress_fork_iteration MAX_FORKS which fork_max verify env c
      = IterResult.parent n info c1 tr) :
    n ≤ fork_max ∧ attempts tr = (if n < fork_max then n + 1 else n) ∧
    failures tr = (List.range n).filterMap (fun i =>
      if must_report verify which env i = true then some (errno_of which env i) else none) ∧
    (∀ i, i < n → (slot info i).pid = pid_of which env i) ∧
    (∀ i, i < n → pid_of which env i < 0 → (slot info i).err = errno_of which env i) := by
  obtain ⟨hn, -, -, -, -⟩ := iteration_waited_spawned _ _ _ _ _ _ _ _ _ _ hmax h
  unfold stress_fork_iteration at h
  cases hs : spawn_loop which env fork_max 0
      (List.replicate MAX_FORKS { pid := 0, err := 0 }) [] with
  | child tr0 => rw [hs] at h; simp at h
  | parent n0 info0 tr0 =>
    rw [hs] at h
    simp only [IterResult.parent.injEq] at h
    obtain ⟨hn0, hi0, -, htr⟩ := h
    subst hn0 hi0
    obtain ⟨-, -, -, -, hpid, -, -, -⟩ := spawn_loop_parent which env _ _ _ _ _ _ _ hs
    obtain ⟨herr, ext, he, hf, ha⟩ := spawn_loop_parent_errs which env _ _ _ _ _ _ _ hs
    simp only [Nat.zero_add, List.length_replicate, List.nil_append, Nat.sub_zero] at hpid herr he ha
    subst he
    obtain ⟨vext, hv1, hv2, hv3⟩ := verify_fold_failures verify info0 (List.range n0) []
    have hvl : verify_loop verify info0 n0 = vext := by
      unfold verify_loop
      rw [hv1]; rfl
    have hr := reap_events_quiet env info0 (reaped_slots info0 n0)
    refine ⟨hn, ?_, ?_, fun i hi => hpid i (Nat.zero_le _) hi (by omega),
      fun i hi hneg => herr i (Nat.zero_le _) hi (by omega) hneg⟩
    · rw [← htr, reap_loop_eq, attempts_append, attempts_append, ha, hr.1, hvl, hv2]
      omega
    · rw [← htr, reap_loop_eq, failures_append, failures_append, hf, hr.2, hvl, hv3]
      simp only [List.nil_append]
      apply filterMap_congr_mem
      intro i hi
      have hi' : i < n0 := List.mem_range.1 hi
      have hp := hpid i (Nat.zero_le _) hi' (by omega)
      by_cases hneg : pid_of which env i < 0
      · have hE := herr i (Nat.zero_le _) hi' (by omega) hneg
        rw [hp, hE]
        by_cases hm : must_report verify which env i = true
        · rw [if_pos hm, if_pos]
          have := (must_report_iff verify which env i).1 hm
          exact ⟨this.2.1, this.1, this.2.2.1, this.2.2.2⟩
        · rw [if_neg hm, if_neg]
          intro hx
          exact hm ((must_report_iff verify which env i).2 ⟨hx.2.1, hx.1, hx.2.2.1, hx.2.2.2⟩)
      · rw [hp, if_neg (fun hx => hneg hx.1), if_neg]
        intro hm
        exact hneg ((must_report_iff verify which env i).1 hm).2.1

/-- The part of the reporting policy that holds: in an iteration of `stress_fork_fn` in
which `keep_stressing` is true at every check of the batch, the check that follows the
last spawn included, all `fork_max` spawn attempts are made whatever the spawn calls
return, and the failures reported with `pr_fail` are, slot by slot and in order, those of
the slots for which verification mode is enabled, the spawn failed (`pid < 0`) and the
captured error code is neither `EAGAIN` nor `ENOMEM`; with verification mode off nothing
is reported. -/
theorem spawn_errors_reported_iff (MAX_FORKS : Nat) (which : Int) (fork_max : Nat)
    (verify : Bool) (env : Env) (c n : Nat) (info : List fork_info_t) (c1 : Nat)
    (tr : List Event) (hmax : fork_max ≤ MAX_FORKS)
    (hkeep : ∀ i, i < fork_max → env.keep i = true)
    (h : stress_fork_iteration MAX_FORKS which fork_max verify env c
      = IterResult.parent n info c1 tr) :
    n = fork_max ∧ attempts tr = fork_max ∧
    failures tr = (List.range fork_max).filterMap (fun i =>
      if must_report verify which env i = true then some (errno_of which env i) else none) ∧
    (verify = false → failures tr = []) ∧
    (∀ i, i < fork_max →
      (must_report verify which env i = true ↔
        (verify = true ∧ pid_of which env i < 0 ∧ errno_of which env i ≠ EAGAIN ∧
          errno_of which env i ≠ ENOMEM))) := by
  have hnn : n = fork_max := (full_batch_reaps_all _ _ _ _ _ _ _ _ _ _ hmax hkeep h).1
  obtain ⟨-, ha, hfail, -, -⟩ := iteration_failures _ _ _ _ _ _ _ _ _ _ hmax h
  rw [hnn] at ha hfail
  refine ⟨hnn, ?_, hfail, ?_, fun i _ => must_report_iff verify which env i⟩
  · rw [ha, if_neg (by omega)]
  · intro hv
    rw [hfail]
    apply List.filterMap_eq_nil_iff.2
    intro i _
    rw [if_neg]
    intro hm
    have := ((must_report_iff verify which env i).1 hm).1
    rw [hv] at this
    exact Bool.noConfusion this

/-- The reporting policy on a batch of three slots with verification mode on and no stop
signal: the first spawn fails with error code 5 and is reported, the second fails with
`EAGAIN` and is not, the third succeeds. -/
theorem spawn_errors_reported_iff_witness :
    (3 ≤ 4 ∧ (∀ i, i < 3 → env_spawn_errors.keep i = true)) ∧
    ∃ n info c1 tr,
      stress_fork_iteration 4 STRESS_FORK 3 true env_spawn_errors 0
        = IterResult.parent n info c1 tr ∧
      failures tr = [5] ∧
      n = 3 ∧ attempts tr = 3 ∧
      failures tr = (List.range 3).filterMap (fun i =>
        if must_report true STRESS_FORK env_spawn_errors i = true
        then some (errno_of STRESS_FORK env_spawn_errors i) else none) ∧
      (true = false → failures tr = []) ∧
      (∀ i, i < 3 →
        (must_report true STRESS_FORK env_spawn_errors i = true ↔
          (true = true ∧ pid_of STRESS_FORK env_spawn_errors i < 0 ∧
            errno_of STRESS_FORK env_spawn_errors i ≠ EAGAIN ∧
            errno_of STRESS_FORK env_spawn_errors i ≠ ENOMEM))) :=
  ⟨⟨by decide, fun _ _ => rfl⟩, _, _, _, _, rfl, by decide,
    spawn_errors_reported_iff 4 STRESS_FORK 3 true env_spawn_errors 0 _ _ _ _
      (by decide) (fun _ _ => rfl) rfl⟩

/-- A batch of three slots with verification mode on in which every spawn fails, with
error codes 5, 6 and 7, and the stop signal is seen at the check after the third spawn:
three attempts are made, the errors of the first two slots are reported and the error of
the third is not. -/
theorem stop_at_last_check_example :
    ∃ info c1 tr,
      stress_fork_iteration 4 STRESS_FORK 3 true env_errors_stop_last 0
        = IterResult.parent 2 info c1 tr ∧
      attempts tr = 3 ∧
      must_report true STRESS_FORK env_errors_stop_last 2 = true ∧
      errno_of STRESS_FORK env_errors_stop_last 2 = 7 ∧
      failures tr = [5, 6] :=
  ⟨_, _, _, rfl, by decide, by decide, by decide, by decide⟩

/-- C11 (failing input): with `fork_max = 1` and verification mode on, the one spawn of
the batch fails with error code 5 (neither `EAGAIN` nor `ENOMEM`) and the stop signal is
seen at the `keep_stressing` check that follows it.  The one spawn attempt of the batch
has been made and its error is captured in slot 0, so the failure is to be reported; but
the spawn loop is left by `break` with `n = 0`, the error evaluation loop runs zero times
and nothing is reported. -/
theorem stop_at_last_check_drops_error (MAX_FORKS : Nat) (h : 1 ≤ MAX_FORKS) :
    ∃ info,
      stress_fork_iteration MAX_FORKS STRESS_FORK 1 true env_fail_then_stop 0
        = IterResult.parent 0 info 0 [Event.fork_call (-1), Event.keep_stressing false] ∧
      slot info 0 = { pid := -1, err := 5 } ∧
      attempts [Event.fork_call (-1), Event.keep_stressing false] = 1 ∧
      must_report true STRESS_FORK env_fail_then_stop 0 = true ∧
      failures [Event.fork_call (-1), Event.keep_stressing false] = [] := by
  obtain ⟨m, rfl⟩ : ∃ m, MAX_FORKS = m + 1 := ⟨MAX_FORKS - 1, by omega⟩
  refine ⟨_, rfl, ?_, rfl, by decide, rfl⟩
  rfl

/-- The failing input of C11 with the slot array of 16000 entries. -/
theorem stop_at_last_check_drops_error_witness :
    1 ≤ 16000 ∧ ∃ info,
      stress_fork_iteration 16000 STRESS_FORK 1 true env_fail_then_stop 0
        = IterResult.parent 0 info 0 [Event.fork_call (-1), Event.keep_stressing false] ∧
      slot info 0 = { pid := -1, err := 5 } ∧
      attempts [Event.fork_call (-1), Event.keep_stressing false] = 1 ∧
      must_report true STRESS_FORK env_fail_then_stop 0 = true ∧
      failures [Event.fork_call (-1), Event.keep_stressing false] = [] :=
  ⟨by decide, stop_at_last_check_drops_error 16000 (by decide)⟩

/-- Whenever `stress_fork_fn` returns, it returns `EXIT_SUCCESS`, whatever the selector
is and whatever happened in the iterations. -/
theorem stress_fork_fn_returns_success (MAX_FORKS : Nat) (which : Int) (fork_max : Nat)
    (verify : Bool) :
    ∀ (its : List (Env × Bool)) (c : Nat) (tr : List Event) (rc : Int) (c1 : Nat)
      (tr1 : List Event),
      stress_fork_fn MAX_FORKS which fork_max verify its c tr = FnResult.returned rc c1 tr1 →
        rc = EXIT_SUCCESS := by
  intro its
  induction its with
  | nil => intro c tr rc c1 tr1 h; simp [stress_fork_fn] at h
  | cons x its ih =>
    intro c tr rc c1 tr1 h
    obtain ⟨env, keep⟩ := x
    simp only [stress_fork_fn] at h
    cases hi : stress_fork_iteration MAX_FORKS which fork_max verify env c with
    | child t => rw [hi] at h; simp at h
    | parent n info c2 t =>
      rw [hi] at h
      cases keep with
      | true =>
        simp only [if_true] at h
        exact ih _ _ _ _ _ h
      | false =>
        simp only [Bool.false_eq_true, if_false, FnResult.returned.injEq] at h
        exact h.1.symm

/-- A run with the selector value 2, batches of two slots and verification mode on: the
first iteration goes through both slots, the second is stopped at its first check.  Each
slot logs the bad selector, `ENOSYS` is reported for the slots below `n`, and the function
returns `EXIT_SUCCESS`. -/
theorem bad_selector_run_example :
    stress_fork_fn 4 2 2 true [(env_no_stop, true), (env_stop_first, false)] 0 []
      = FnResult.returned EXIT_SUCCESS 0
          [Event.pr_err_bad_fn, Event.keep_stressing true,
           Event.pr_err_bad_fn, Event.keep_stressing true,
           Event.pr_fail ENOSYS, Event.pr_fail ENOSYS,
           Event.keep_stressing true,
           Event.pr_err_bad_fn, Event.keep_stressing false,
           Event.keep_stressing false] := by
  decide

end StressFork

/-! ## Theorems: `stress-locka.c` -/

namespace StressLocka

theorem load_lt {heap : Heap} {p : Nat} {nd : stress_locka_info_t} (h : load heap p = some nd) :
    p < heap.length := by
  unfold load at h
  by_contra hlt
  rw [List.getElem?_eq_none (by omega)] at h
  simp at h

theorem load_set_ne (heap : Heap) (a b : Nat) (v : Option stress_locka_info_t) (h : a ≠ b) :
    load (heap.set a v) b = load heap b := by
  unfold load
  rw [List.getElem?_set_ne h]

theorem load_store_same (heap : Heap) (a : Nat) (nd : stress_locka_info_t)
    (h : a < heap.length) : load (store heap a nd) a = some nd := by
  unfold load store
  rw [List.getElem?_set_self h]

theorem load_set_none (heap : Heap) (a : Nat) : load (heap.set a none) a = none := by
  unfold load
  by_cases h : a < heap.length
  · rw [List.getElem?_set_self h]
  · rw [List.getElem?_eq_none (by simp; omega)]

theorem load_append (heap : Heap) (c : Option stress_locka_info_t) (b : Nat)
    (h : b < heap.length) : load (heap ++ [c]) b = load heap b := by
  unfold load
  rw [List.getElem?_append_left h]

theorem load_append_new (heap : Heap) (nd : stress_locka_info_t) :
    load (heap ++ [some nd]) heap.length = some nd := by
  unfold load
  simp

theorem seg_lt {heap : Heap} : ∀ {xs : List (Nat × Rec)} {p : Option Nat},
    Seg heap p xs → ∀ a, a ∈ xs.map Prod.fst → a < heap.length := by
  intro xs
  induction xs with
  | nil => intro p _ a ha; simp at ha
  | cons x xs ih =>
    intro p h a ha
    obtain ⟨a0, r0⟩ := x
    obtain ⟨-, nd, hl, -, hrest⟩ := h
    simp only [List.map_cons, List.mem_cons] at ha
    rcases ha with rfl | ha
    · exact load_lt hl
    · exact ih hrest a ha

theorem seg_frame_set {heap : Heap} (a : Nat) (v : Option stress_locka_info_t) :
    ∀ {xs : List (Nat × Rec)} {p : Option Nat},
      Seg heap p xs → a ∉ xs.map Prod.fst → Seg (heap.set a v) p xs := by
  intro xs
  induction xs with
  | nil => intro p h _; exact h
  | cons x xs ih =>
    intro p h ha
    obtain ⟨a0, r0⟩ := x
    obtain ⟨hp, nd, hl, hr, hrest⟩ := h
    simp only [List.map_cons, List.mem_cons, not_or] at ha
    refine ⟨hp, nd, ?_, hr, ih hrest ha.2⟩
    rw [load_set_ne _ _ _ _ ha.1]
    exact hl

theorem seg_frame_append {heap : Heap} (c : Option stress_locka_info_t) :
    ∀ {xs : List (Nat × Rec)} {p : Option Nat}, Seg heap p xs → Seg (heap ++ [c]) p xs := by
  intro xs
  induction xs with
  | nil => intro p h; exact h
  | cons x xs ih =>
    intro p h
    obtain ⟨a0, r0⟩ := x
    obtain ⟨hp, nd, hl, hr, hrest⟩ := h
    refine ⟨hp, nd, ?_, hr, ih hrest⟩
    rw [load_append _ _ _ (load_lt hl)]
    exact hl

/-- Replacing the last cell of a list segment: the cells before it are untouched and the
list continues with whatever the new cell points to. -/
theorem seg_replace_last {heap : Heap} (l : Nat) (r : Rec) (nl : stress_locka_info_t)
    (ys : List (Nat × Rec)) (hl : l < heap.length)
    (hys : Seg (store heap l nl) nl.next ys) :
    ∀ {xs : List (Nat × Rec)} {p : Option Nat},
      Seg heap p (xs ++ [(l, r)]) → l ∉ xs.map Prod.fst →
        Seg (store heap l nl) p (xs ++ (l, rec_of nl) :: ys) := by
  intro xs
  induction xs with
  | nil =>
    intro p h _
    obtain ⟨hp, -⟩ := h
    exact ⟨hp, nl, load_store_same _ _ _ hl, rfl, hys⟩
  | cons x xs ih =>
    intro p h hx
    obtain ⟨a0, r0⟩ := x
    obtain ⟨hp, nd, hld, hr, hrest⟩ := h
    simp only [List.map_cons, List.mem_cons, not_or] at hx
    refine ⟨hp, nd, ?_, hr, ih hrest hx.2⟩
    unfold store
    rw [load_set_ne _ _ _ _ hx.1]
    exact hld

theorem seg_last_next {heap : Heap} (l : Nat) (r : Rec) :
    ∀ {xs : List (Nat × Rec)} {p : Option Nat},
      Seg heap p (xs ++ [(l, r)]) → ∃ nl, load heap l = some nl ∧ nl.next = none ∧ rec_of nl = r := by
  intro xs
  induction xs with
  | nil =>
    intro p h
    obtain ⟨-, nd, hld, hr, hrest⟩ := h
    exact ⟨nd, hld, hrest, hr⟩
  | cons x xs ih =>
    intro p h
    obtain ⟨a0, r0⟩ := x
    obtain ⟨-, nd, -, -, hrest⟩ := h
    exact ih hrest


theorem seg_head_ne_none {heap : Heap} {p : Option Nat} {x : Nat × Rec} {xs : List (Nat × Rec)}
    (h : Seg heap p (x :: xs)) : p = some x.1 := h.1

theorem seg_nil {heap : Heap} {p : Option Nat} (h : Seg heap p []) : p = none := h

theorem eq_nil_or_snoc {α : Type} (l : List α) : l = [] ∨ ∃ xs x, l = xs ++ [x] := by
  induction l using List.reverseRecOn with
  | nil => exact Or.inl rfl
  | append_singleton xs x _ => exact Or.inr ⟨xs, x, rfl⟩

theorem link_record_spec (m : Mem) (f : Nat) (nf : stress_locka_info_t)
    (active spare : List (Nat × Rec))
    (ha : Seg m.heap m.locka_infos.head active) (hf : Seg m.heap m.locka_infos.free spare)
    (hnd : ((active ++ (f, rec_of nf) :: spare).map Prod.fst).Nodup)
    (ht : active ≠ [] → m.locka_infos.tail = active.getLast?.map Prod.fst)
    (hload : load m.heap f = some nf) (hnext : nf.next = none) :
    ∃ m2, link_record f m = some m2 ∧ WF m2 (active ++ [(f, rec_of nf)]) spare ∧
      m2.locka_infos.length = u64_incr m.locka_infos.length ∧
      m2.heap.length = m.heap.length ∧ load m2.heap f = some nf := by
  rcases eq_nil_or_snoc active with rfl | ⟨xs, ⟨l, r⟩, rfl⟩
  · have hh := seg_nil ha
    refine ⟨{ m with locka_infos := { m.locka_infos with
        head := some f, tail := some f, length := u64_incr m.locka_infos.length } },
      by simp only [link_record, hh], ?_, rfl, rfl, hload⟩
    refine ⟨⟨rfl, nf, hload, rfl, by rw [hnext]; exact rfl⟩, hf, by simpa using hnd, ?_⟩
    intro _; rfl
  · have hne : xs ++ [(l, r)] ≠ [] := by simp
    have htl : m.locka_infos.tail = some l := by rw [ht hne]; simp
    obtain ⟨nl, hll, hnl, hrl⟩ := seg_last_next l r ha
    have hhead : ∃ a, m.locka_infos.head = some a := by
      cases xs with
      | nil => exact ⟨_, ha.1⟩
      | cons x xs => exact ⟨_, ha.1⟩
    obtain ⟨a, hhead⟩ := hhead
    have hnd' : l ∉ xs.map Prod.fst ∧ l ≠ f ∧ l ∉ spare.map Prod.fst := by
      simp only [List.map_append, List.map_cons, List.map_nil, List.append_assoc,
        List.singleton_append] at hnd
      rw [List.nodup_append] at hnd
      obtain ⟨-, h2, h3⟩ := hnd
      rw [List.nodup_cons, List.nodup_cons] at h2
      refine ⟨?_, ?_, ?_⟩
      · intro hx; exact h3 hx (List.mem_cons_self _ _)
      · intro hx; exact h2.1 (by rw [hx]; exact List.mem_cons_self _ _)
      · intro hx; exact h2.1 (List.mem_cons_of_mem _ hx)
    refine ⟨{ heap := store m.heap l { nl with next := some f },
              locka_infos := { m.locka_infos with
                tail := some f, length := u64_incr m.locka_infos.length } },
      by simp only [link_record, hhead, htl, hll], ?_, rfl, by simp [store], ?_⟩
    · refine ⟨?_, ?_, ?_, ?_⟩
      · have hys : Seg (store m.heap l { nl with next := some f })
            ({ nl with next := some f } : stress_locka_info_t).next [(f, rec_of nf)] := by
          refine ⟨rfl, nf, ?_, rfl, by rw [hnext]; exact rfl⟩
          unfold store
          rw [load_set_ne _ _ _ _ hnd'.2.1]
          exact hload
        have := seg_replace_last l r { nl with next := some f } _ (load_lt hll) hys ha hnd'.1
        have e : rec_of { nl with next := some f } = r := hrl
        rw [e] at this
        simpa using this
      · exact seg_frame_set _ _ hf hnd'.2.2
      · simpa using hnd
      · intro _; simp
    · show load (store m.heap l _) f = some nf
      unfold store
      rw [load_set_ne _ _ _ _ hnd'.2.1]
      exact hload


theorem nodup_split {active spare : List (Nat × Rec)} {f : Nat} {rf : Rec}
    (h : ((active ++ (f, rf) :: spare).map Prod.fst).Nodup) :
    f ∉ active.map Prod.fst ∧ f ∉ spare.map Prod.fst := by
  simp only [List.map_append, List.map_cons] at h
  rw [List.nodup_append] at h
  obtain ⟨-, h2, h3⟩ := h
  rw [List.nodup_cons] at h2
  exact ⟨fun hx => h3 hx (List.mem_cons_self _ _), h2.1⟩

/-- What `stress_locka_info_new` does on well-formed lists: it fails only when the free
list is empty and `calloc` fails, and then changes nothing; otherwise it appends one cell
at the tail, taken from the free list when there is one and freshly allocated otherwise. -/
theorem stress_locka_info_new_spec (calloc_ok : Bool) (m : Mem)
    (active spare : List (Nat × Rec)) (h : WF m active spare) :
    (stress_locka_info_new calloc_ok m = some (none, m) ∧ spare = [] ∧ calloc_ok = false) ∨
    (∃ p r spare1 m2, stress_locka_info_new calloc_ok m = some (some p, m2) ∧
      WF m2 (active ++ [(p, r)]) spare1 ∧
      m2.locka_infos.length = u64_incr m.locka_infos.length ∧
      ((spare = (p, r) :: spare1 ∧ m2.heap.length = m.heap.length) ∨
       (spare = [] ∧ spare1 = [] ∧ calloc_ok = true ∧ p = m.heap.length ∧
          m2.heap.length = m.heap.length + 1))) := by
  obtain ⟨ha, hf, hnd, ht⟩ := h
  cases spare with
  | nil =>
    have hfree := seg_nil hf
    cases calloc_ok with
    | false =>
      left
      refine ⟨?_, rfl, rfl⟩
      simp [stress_locka_info_new, take_record, hfree]
    | true =>
      right
      let z : stress_locka_info_t := { next := none, offset := 0, len := 0, pid := 0 }
      let m1 : Mem := { m with heap := m.heap ++ [some z] }
      have hfresh : m.heap.length ∉ active.map Prod.fst := by
        intro hx
        exact absurd (seg_lt ha _ hx) (Nat.lt_irrefl _)
      have hnd1 : ((active ++ (m.heap.length, rec_of z) :: []).map Prod.fst).Nodup := by
        simp only [List.append_nil] at hnd
        simp only [List.map_append, List.map_cons, List.map_nil]
        rw [List.nodup_append]
        refine ⟨hnd, by simp, ?_⟩
        intro a ha1 ha2
        simp only [List.mem_singleton] at ha2
        subst ha2
        exact hfresh ha1
      obtain ⟨m2, hl, hwf, hlen, hhl, -⟩ := link_record_spec m1 m.heap.length z active []
        (seg_frame_append _ ha) (by rw [show m1.locka_infos.free = none from hfree]; exact rfl)
        hnd1 ht (load_append_new _ _) rfl
      refine ⟨m.heap.length, rec_of z, [], m2, ?_, hwf, hlen, Or.inr ⟨rfl, rfl, rfl, rfl, ?_⟩⟩
      · have hl1 := hl
        simp only [m1, z] at hl1
        simp only [stress_locka_info_new, take_record, hfree, if_true, hl1]
      · rw [hhl]; simp [m1]
  | cons x spare1 =>
    obtain ⟨f, rf⟩ := x
    right
    obtain ⟨hfree, nd, hld, hr, hrest⟩ := hf
    obtain ⟨hfa, hfs⟩ := nodup_split hnd
    have hnd2 : ((spare1).map Prod.fst).Nodup := by
      simp only [List.map_append, List.map_cons] at hnd
      rw [List.nodup_append] at hnd
      exact (List.nodup_cons.1 hnd.2.1).2
    let nd1 : stress_locka_info_t := { nd with next := none }
    let m1 : Mem := { heap := store m.heap f nd1,
                      locka_infos := { m.locka_infos with free := nd.next } }
    have hrec : rec_of nd1 = rf := hr
    obtain ⟨m2, hl, hwf, hlen, hhl, -⟩ := link_record_spec m1 f nd1 active spare1
      (seg_frame_set _ _ ha hfa) (seg_frame_set _ _ hrest hfs) (by rw [hrec]; exact hnd) ht
      (load_store_same _ _ _ (load_lt hld)) rfl
    rw [hrec] at hwf
    refine ⟨f, rf, spare1, m2, ?_, hwf, hlen, Or.inl ⟨rfl, ?_⟩⟩
    · have hl1 := hl
      simp only [m1, nd1] at hl1
      simp only [stress_locka_info_new, take_record, hfree, hld, hl1]
    · rw [hhl]; simp [m1, store]


/-- What `stress_locka_info_head_remove` does on well-formed lists: the first active cell
moves to the front of the free list, and nothing happens when there is none. -/
theorem stress_locka_info_head_remove_spec (m : Mem) (a : Nat) (r : Rec)
    (active spare : List (Nat × Rec)) (h : WF m ((a, r) :: active) spare) :
    ∃ m2, stress_locka_info_head_remove m = some m2 ∧ WF m2 active ((a, r) :: spare) ∧
      m2.locka_infos.length = u64_decr m.locka_infos.length ∧
      m2.heap.length = m.heap.length := by
  obtain ⟨ha, hf, hnd, ht⟩ := h
  obtain ⟨hhead, nd, hld, hr, hrest⟩ := ha
  have hnd1 : a ∉ active.map Prod.fst ∧ a ∉ spare.map Prod.fst ∧
      ((active ++ spare).map Prod.fst).Nodup := by
    simp only [List.cons_append, List.map_cons, List.nodup_cons, List.map_append,
      List.mem_append, not_or] at hnd
    exact ⟨hnd.1.1, hnd.1.2, by simpa using hnd.2⟩
  have hnd2 : ((active ++ (a, r) :: spare).map Prod.fst).Nodup := by
    have hp : (active ++ (a, r) :: spare).Perm ((a, r) :: active ++ spare) := by
      exact List.perm_middle
    exact (List.Perm.nodup_iff (hp.map Prod.fst)).2 hnd
  have htl := ht (by simp)
  cases active with
  | nil =>
    have htail : m.locka_infos.tail = m.locka_infos.head := by
      rw [htl, hhead]; rfl
    have hnext : nd.next = none := seg_nil hrest
    refine ⟨{ heap := store m.heap a { nd with next := m.locka_infos.free },
              locka_infos := { m.locka_infos with
                tail := none, head := none, free := some a,
                length := u64_decr m.locka_infos.length } }, ?_, ?_, rfl, by simp [store]⟩
    · simp only [stress_locka_info_head_remove, hhead, hld]
      rw [hhead] at htail
      simp [htail]
    · refine ⟨rfl, ⟨rfl, _, load_store_same _ _ _ (load_lt hld), hr, ?_⟩, hnd2, ?_⟩
      · exact seg_frame_set _ _ hf hnd1.2.1
      · intro hx; exact absurd rfl hx
  | cons x rest =>
    obtain ⟨b, rb⟩ := x
    have hlast : ∃ l, ((b, rb) :: rest).getLast? = some l ∧ l.1 ≠ a := by
      have hne : ((b, rb) :: rest) ≠ [] := by simp
      refine ⟨((b, rb) :: rest).getLast hne, List.getLast?_eq_getLast _ hne, ?_⟩
      intro hx
      apply hnd1.1
      rw [← hx]
      exact List.mem_map_of_mem _ (List.getLast_mem hne)
    obtain ⟨l, hl1, hl2⟩ := hlast
    have htail : m.locka_infos.tail = some l.1 := by
      rw [htl, List.getLast?_cons_cons, hl1]; rfl
    have hne : ¬ m.locka_infos.tail = m.locka_infos.head := by
      rw [htail, hhead]
      intro hx
      exact hl2 (Option.some.inj hx)
    refine ⟨{ heap := store m.heap a { nd with next := m.locka_infos.free },
              locka_infos := { m.locka_infos with
                head := nd.next, free := some a,
                length := u64_decr m.locka_infos.length } }, ?_, ?_, rfl, by simp [store]⟩
    · simp only [stress_locka_info_head_remove, hhead, hld]
      rw [hhead] at hne
      simp [hne]
    · refine ⟨seg_frame_set _ _ hrest hnd1.1,
        ⟨rfl, _, load_store_same _ _ _ (load_lt hld), hr, seg_frame_set _ _ hf hnd1.2.1⟩,
        hnd2, ?_⟩
      intro _
      show m.locka_infos.tail = _
      rw [htail, hl1]; rfl

theorem stress_locka_info_head_remove_empty (m : Mem) (spare : List (Nat × Rec))
    (h : WF m [] spare) : stress_locka_info_head_remove m = some m := by
  have hh := seg_nil h.seg_active
  simp [stress_locka_info_head_remove, hh]

/-- The caller's writes to the record just appended replace its contents and nothing
else. -/
theorem fill_record_spec (m : Mem) (p : Nat) (r : Rec) (active spare : List (Nat × Rec))
    (offset len pid : Int) (h : WF m (active ++ [(p, r)]) spare) :
    ∃ h4, fill_record m.heap p offset len pid = some h4 ∧
      WF { m with heap := h4 } (active ++ [(p, (offset, len, pid))]) spare ∧
      h4.length = m.heap.length := by
  obtain ⟨ha, hf, hnd, ht⟩ := h
  obtain ⟨nl, hll, hnl, hrl⟩ := seg_last_next p r ha
  have hnd1 : p ∉ active.map Prod.fst ∧ p ∉ spare.map Prod.fst := by
    exact @nodup_split active spare p r (by simpa using hnd)
  refine ⟨store m.heap p { nl with offset := offset, len := len, pid := pid }, ?_, ?_,
    by simp [store]⟩
  · simp [fill_record, hll]
  · refine ⟨?_, seg_frame_set _ _ hf hnd1.2, by simpa using hnd, ?_⟩
    · have hys : Seg (store m.heap p { nl with offset := offset, len := len, pid := pid })
          ({ nl with offset := offset, len := len, pid := pid } : stress_locka_info_t).next
          [] := hnl
      exact seg_replace_last p r { nl with offset := offset, len := len, pid := pid } []
        (load_lt hll) hys ha hnd1.1
    · intro _
      show m.locka_infos.tail = _
      rw [ht (by simp)]
      simp


theorem stress_locka_unlock_empty (ctx : Ctx) (rc : Int) (m : Mem) (spare : List (Nat × Rec))
    (h : WF m [] spare) : stress_locka_unlock ctx rc m = some (0, m, []) := by
  have hh := seg_nil h.seg_active
  simp [stress_locka_unlock, hh]

/-- What `stress_locka_unlock` does on well-formed lists with at least one active record:
the first record is moved to the free list and `fcntl(F_SETLK)` is issued with its offset,
length and pid; a negative result of `fcntl` is reported with `pr_fail` and returned as
`-1`. -/
theorem stress_locka_unlock_spec (ctx : Ctx) (rc : Int) (m : Mem) (a : Nat) (r : Rec)
    (active spare : List (Nat × Rec)) (h : WF m ((a, r) :: active) spare) :
    ∃ m2, WF m2 active ((a, r) :: spare) ∧
      m2.locka_infos.length = u64_decr m.locka_infos.length ∧
      m2.heap.length = m.heap.length ∧
      stress_locka_unlock ctx rc m
        = some (if rc < 0 then -1 else 0, m2,
            if rc < 0 then [Event.fcntl_setlk (unlock_flock r) rc, Event.pr_fail_setlk ctx.name]
            else [Event.fcntl_setlk (unlock_flock r) rc]) := by
  obtain ⟨m2, h1, h2, h3, h4⟩ := stress_locka_info_head_remove_spec m a r active spare h
  obtain ⟨hhead, nd, hld, hr, -⟩ := h.seg_active
  refine ⟨m2, h2, h3, h4, ?_⟩
  simp only [stress_locka_unlock, hhead, hld, h1]
  subst hr
  by_cases hrc : rc < 0
  · simp [hrc, unlock_flock, rec_of]
  · simp [hrc, unlock_flock, rec_of]

theorem seg_congr {heap heap1 : Heap} :
    ∀ {xs : List (Nat × Rec)} {p : Option Nat},
      Seg heap p xs → (∀ b, b ∈ xs.map Prod.fst → load heap1 b = load heap b) →
        Seg heap1 p xs := by
  intro xs
  induction xs with
  | nil => intro p h _; exact h
  | cons x xs ih =>
    intro p h hb
    obtain ⟨a0, r0⟩ := x
    obtain ⟨hp, nd, hl, hr, hrest⟩ := h
    refine ⟨hp, nd, ?_, hr, ih hrest (fun b hbm => hb b ?_)⟩
    · rw [hb a0 (by simp)]; exact hl
    · simp only [List.map_cons, List.mem_cons]
      exact Or.inr hbm

/-- The freeing loop, run with at least as many passes as the list has cells, ends, frees
exactly the cells of the list and leaves every other cell as it was. -/
theorem free_chain_spec :
    ∀ (xs : List (Nat × Rec)) (heap : Heap) (p : Option Nat) (fuel : Nat),
      Seg heap p xs → (xs.map Prod.fst).Nodup → xs.length ≤ fuel →
        ∃ heap1, free_chain fuel heap p = some heap1 ∧ heap1.length = heap.length ∧
          (∀ a, a ∈ xs.map Prod.fst → load heap1 a = none) ∧
          (∀ b, b ∉ xs.map Prod.fst → load heap1 b = load heap b) := by
  intro xs
  induction xs with
  | nil =>
    intro heap p fuel h _ _
    have hp := seg_nil h
    subst hp
    refine ⟨heap, ?_, rfl, ?_, fun _ _ => rfl⟩
    · cases fuel <;> rfl
    · intro a ha; simp at ha
  | cons x xs ih =>
    intro heap p fuel h hnd hfuel
    obtain ⟨a0, r0⟩ := x
    obtain ⟨hp, nd, hl, -, hrest⟩ := h
    subst hp
    simp only [List.map_cons, List.nodup_cons] at hnd
    obtain ⟨k, rfl⟩ : ∃ k, fuel = k + 1 := ⟨fuel - 1, by simp at hfuel; omega⟩
    obtain ⟨heap1, h1, h2, h3, h4⟩ := ih (heap.set a0 none) nd.next k
      (seg_frame_set _ _ hrest hnd.1) hnd.2 (by simp at hfuel; omega)
    refine ⟨heap1, ?_, by rw [h2]; simp, ?_, ?_⟩
    · simp only [free_chain, hl, h1]
    · intro a ha
      simp only [List.map_cons, List.mem_cons] at ha
      rcases ha with rfl | ha
      · rw [h4 _ hnd.1]; exact load_set_none _ _
      · exact h3 a ha
    · intro b hb
      simp only [List.map_cons, List.mem_cons, not_or] at hb
      rw [h4 b hb.2, load_set_ne _ _ _ _ (fun e => hb.1 e.symm)]

/-- What `stress_locka_info_free` does on well-formed lists, given enough passes for both
loops: every record of both lists is freed, `head` and `free` end up `NULL`, and `tail`
and `length` keep their values. -/
theorem stress_locka_info_free_spec (fuel : Nat) (m : Mem) (active spare : List (Nat × Rec))
    (h : WF m active spare) (h1 : active.length ≤ fuel) (h2 : spare.length ≤ fuel) :
    ∃ m2, stress_locka_info_free fuel m = some m2 ∧ WF m2 [] [] ∧
      m2.locka_infos.head = none ∧ m2.locka_infos.free = none ∧
      m2.locka_infos.tail = m.locka_infos.tail ∧
      m2.locka_infos.length = m.locka_infos.length ∧
      (∀ a, a ∈ (active ++ spare).map Prod.fst → load m2.heap a = none) := by
  obtain ⟨ha, hf, hnd, -⟩ := h
  simp only [List.map_append] at hnd
  rw [List.nodup_append] at hnd
  obtain ⟨hna, hns, hdis⟩ := hnd
  obtain ⟨heap1, e1, -, f1, g1⟩ := free_chain_spec active m.heap _ fuel ha hna h1
  have hf1 : Seg heap1 m.locka_infos.free spare :=
    seg_congr hf (fun b hb => g1 b (fun hx => hdis hx hb))
  obtain ⟨heap2, e2, -, f2, g2⟩ := free_chain_spec spare heap1 _ fuel hf1 hns h2
  refine ⟨{ heap := heap2, locka_infos := { m.locka_infos with head := none, free := none } },
    ?_, ⟨rfl, rfl, by simp, fun hx => absurd rfl hx⟩, rfl, rfl, rfl, rfl, ?_⟩
  · simp only [stress_locka_info_free, e1, e2]
  · intro a ha1
    simp only [List.map_append, List.mem_append] at ha1
    by_cases hs : a ∈ spare.map Prod.fst
    · exact f2 a hs
    · rw [g2 a hs]
      rcases ha1 with ha1 | ha1
      · exact f1 a ha1
      · exact absurd ha1 hs


theorem bounded_init : Bounded Mem.init :=
  ⟨[], [], ⟨rfl, rfl, by simp, fun hx => absurd rfl hx⟩, rfl, by simp⟩

theorem cap_check_spec (ctx : Ctx) (x : IterIn) (s : St) (hb : Bounded s.mem)
    (hh : ∀ m, m ∈ s.history → Bounded m) :
    ∃ b s1, cap_check ctx x s = some (b, s1) ∧
      (∃ active spare, WF s1.mem active spare ∧ s1.mem.locka_infos.length = active.length ∧
        active.length ≤ LOCK_MAX ∧ (b = false → active.length < LOCK_MAX)) ∧
      (∀ m, m ∈ s1.history → Bounded m) := by
  obtain ⟨active, spare, hwf, hlen, hcap⟩ := hb
  by_cases hge : s.mem.locka_infos.length ≥ LOCK_MAX
  · cases active with
    | nil =>
      rw [hlen] at hge
      simp [LOCK_MAX] at hge
    | cons y rest =>
      obtain ⟨a, r⟩ := y
      obtain ⟨m2, hwf2, hlen2, -, hun⟩ := stress_locka_unlock_spec ctx x.setlk_rc s.mem a r rest spare hwf
      have hl : m2.locka_infos.length = rest.length := by
        rw [hlen2, hlen]
        simp only [List.length_cons, LOCK_MAX] at hcap ⊢
        unfold u64_decr
        omega
      have hlt : rest.length < LOCK_MAX := by
        simp only [List.length_cons] at hcap
        omega
      simp only [cap_check, if_pos hge, hun]
      refine ⟨_, _, rfl, ⟨rest, _, hwf2, hl, le_of_lt hlt, fun _ => hlt⟩, ?_⟩
      intro m hm
      simp only [List.mem_append, List.mem_singleton] at hm
      rcases hm with hm | rfl
      · exact hh m hm
      · exact ⟨rest, _, hwf2, hl, le_of_lt hlt⟩
  · simp only [cap_check, if_neg hge]
    refine ⟨false, s, rfl, ⟨active, spare, hwf, hlen, hcap, ?_⟩, hh⟩
    intro _
    rw [hlen] at hge
    omega

theorem contention_body_spec (ctx : Ctx) (x : IterIn) (s : St) (hb : Bounded s.mem)
    (hh : ∀ m, m ∈ s.history → Bounded m) :
    ∃ fl s1, contention_body ctx x s = some (fl, s1) ∧ Bounded s1.mem ∧
      (∀ m, m ∈ s1.history → Bounded m) := by
  obtain ⟨b, s1, hc, ⟨active, spare, hwf, hlen, hcap, hlt⟩, hh1⟩ := cap_check_spec ctx x s hb hh
  cases b with
  | true =>
    simp only [contention_body, hc]
    exact ⟨_, _, rfl, ⟨active, spare, hwf, hlen, hcap⟩, hh1⟩
  | false =>
    have hlt1 := hlt rfl
    by_cases hg : x.getlk_rc < 0
    · simp only [contention_body, hc, if_pos hg]
      exact ⟨_, _, rfl, ⟨active, spare, hwf, hlen, hcap⟩, hh1⟩
    · rcases stress_locka_info_new_spec x.calloc_ok s1.mem active spare hwf with
        ⟨hnew, -, -⟩ | ⟨p, r, spare1, m3, hnew, hwf3, hlen3, -⟩
      · simp only [contention_body, hc, if_neg hg, hnew]
        exact ⟨_, _, rfl, ⟨active, spare, hwf, hlen, hcap⟩, hh1⟩
      · obtain ⟨h4, hfill, hwf4, -⟩ := fill_record_spec m3 p r active spare1
          (locka_offset x.mwc64 (locka_len x.mwc16)) (locka_len x.mwc16) ctx.pid hwf3
        have hl3 : m3.locka_infos.length = (active ++ [(p, r)]).length := by
          rw [hlen3, hlen]
          simp only [List.length_append, List.length_singleton]
          simp only [LOCK_MAX] at hlt1
          unfold u64_incr
          omega
        have hc3 : (active ++ [(p, r)]).length ≤ LOCK_MAX := by
          simp only [List.length_append, List.length_singleton]
          omega
        have hb3 : Bounded m3 := ⟨_, _, hwf3, hl3, hc3⟩
        have hb4 : Bounded { m3 with heap := h4 } :=
          ⟨_, _, hwf4, by simpa using hl3, by simpa using hc3⟩
        simp only [contention_body, hc, if_neg hg, hnew, hfill]
        refine ⟨_, _, rfl, hb4, ?_⟩
        intro m hm
        simp only [List.mem_append, List.mem_cons, List.mem_singleton, List.not_mem_nil,
          or_false] at hm
        rcases hm with hm | rfl | rfl
        · exact hh1 m hm
        · exact hb3
        · exact hb4

theorem stress_locka_contention_bounded (ctx : Ctx) :
    ∀ (xs : List IterIn) (s : St), Bounded s.mem → (∀ m, m ∈ s.history → Bounded m) →
      ∃ r, stress_locka_contention ctx xs s = some r ∧ Bounded r.2.mem ∧
        ∀ m, m ∈ r.2.history → Bounded m := by
  intro xs
  induction xs with
  | nil => intro s hb hh; exact ⟨_, rfl, hb, hh⟩
  | cons x xs ih =>
    intro s hb hh
    obtain ⟨fl, s1, hbody, hb1, hh1⟩ := contention_body_spec ctx x s hb hh
    cases fl with
    | ret rc =>
      simp only [stress_locka_contention, hbody]
      exact ⟨_, rfl, hb1, hh1⟩
    | cond k =>
      cases k with
      | false =>
        simp only [stress_locka_contention, hbody]
        exact ⟨_, rfl, hb1, hh1⟩
      | true =>
        obtain ⟨r, hr, hbr, hhr⟩ := ih s1 hb1 hh1
        simp only [stress_locka_contention, hbody, hr]
        exact ⟨r, rfl, hbr, hhr⟩

/-- C3: a run of `stress_locka_contention` that starts from the empty lists of a fresh
process goes through without a bad pointer access whatever the random values and the
results of the lock queries, unlocks and allocations are, and at every point of the loop
(after each change to the lists, and at the end of the run described) the `length`
field is at most `LOCK_MAX` and equals the number of records in the active list. -/
theorem lock_records_never_exceed_cap (ctx : Ctx) (xs : List IterIn) :
    ∃ r, stress_locka_contention ctx xs St.init = some r ∧
      r.2.mem.locka_infos.length ≤ LOCK_MAX ∧
      ∀ m, m ∈ r.2.mem :: r.2.history →
        m.locka_infos.length ≤ LOCK_MAX ∧
        ∃ active spare, WF m active spare ∧ active.length = m.locka_infos.length := by
  have h0 : ∀ m, m ∈ St.init.history → Bounded m := by
    intro m hm
    simp only [St.init, List.mem_singleton] at hm
    subst hm
    exact bounded_init
  obtain ⟨r, hr, hb, hh⟩ := stress_locka_contention_bounded ctx xs St.init bounded_init h0
  have key : ∀ m, Bounded m → m.locka_infos.length ≤ LOCK_MAX ∧
      ∃ active spare, WF m active spare ∧ active.length = m.locka_infos.length := by
    intro m ⟨active, spare, hwf, hlen, hcap⟩
    exact ⟨by rw [hlen]; exact hcap, active, spare, hwf, hlen.symm⟩
  refine ⟨r, hr, (key _ hb).1, ?_⟩
  intro m hm
  rcases List.mem_cons.1 hm with rfl | hm
  · exact key _ hb
  · exact key m (hh m hm)


theorem setlk_calls_unlock_flock (r : Rec) (rc : Int) (name : String) :
    setlk_calls
      (if rc < 0 then [Event.fcntl_setlk (unlock_flock r) rc, Event.pr_fail_setlk name]
       else [Event.fcntl_setlk (unlock_flock r) rc]) = [unlock_flock r] := by
  split_ifs <;> rfl

/-- Splitting a list after its first `n` members, when the member of index `n` is
known. -/
theorem take_drop_succ {α : Type} (l rest : List α) (r : α) (n : Nat)
    (h : l.drop n = r :: rest) :
    n < l.length ∧ l.take (n + 1) = l.take n ++ [r] ∧ l.drop (n + 1) = rest := by
  have hlt : n < l.length := by
    by_contra hge
    rw [List.drop_eq_nil_of_le (by omega)] at h
    exact List.noConfusion h
  have hsplit : l = l.take n ++ r :: rest := by
    rw [← h, List.take_append_drop]
  have hlen : (l.take n).length = n := by
    rw [List.length_take]; omega
  refine ⟨hlt, ?_, ?_⟩
  · conv_lhs => rw [hsplit]
    rw [List.take_append_eq_append_take, hlen]
    simp
  · conv_lhs => rw [hsplit]
    rw [List.drop_append_eq_append_drop, hlen]
    simp [List.drop_eq_nil_of_le, hlen]

theorem apply_op_fifo (ctx : Ctx) (op : Op) (g : Log) (h : Fifo g) :
    ∃ g1, apply_op ctx op g = some g1 ∧ Fifo g1 := by
  obtain ⟨active, spare, hwf, hdue, hrel, hact⟩ := h
  cases op with
  | append ok offset len pid =>
    rcases stress_locka_info_new_spec ok g.mem active spare hwf with
      ⟨hnew, -, -⟩ | ⟨p, r, spare1, m2, hnew, hwf2, -, -⟩
    · simp only [apply_op, hnew]
      exact ⟨_, rfl, active, spare, hwf, hdue, hrel, hact⟩
    · obtain ⟨h4, hfill, hwf4, -⟩ := fill_record_spec m2 p r active spare1 offset len pid hwf2
      simp only [apply_op, hnew, hfill]
      refine ⟨_, rfl, _, _, hwf4, ?_, ?_, ?_⟩
      · simp only [List.length_append, List.length_singleton]
        omega
      · simp only []
        rw [List.take_append_of_le_length hdue]
        exact hrel
      · simp only [List.map_append, List.map_cons, List.map_nil]
        rw [List.drop_append_of_le_length hdue, hact]
  | release rc =>
    cases active with
    | nil =>
      have hhead : g.mem.locka_infos.head = none := seg_nil hwf.seg_active
      simp only [apply_op, stress_locka_unlock_empty ctx rc g.mem spare hwf, hhead]
      refine ⟨_, rfl, [], spare, hwf, ?_, ?_, ?_⟩
      · simpa using hdue
      · simpa [setlk_calls] using hrel
      · simpa using hact
    | cons y rest =>
      obtain ⟨a, r⟩ := y
      have hhead : g.mem.locka_infos.head = some a := hwf.seg_active.1
      obtain ⟨m2, hwf2, -, -, hun⟩ := stress_locka_unlock_spec ctx rc g.mem a r rest spare hwf
      obtain ⟨hlt, htake, hdrop⟩ :=
        take_drop_succ g.appended (rest.map Prod.snd) r g.due (by rw [← hact]; rfl)
      simp only [apply_op, hun, hhead]
      refine ⟨_, rfl, rest, _, hwf2, ?_, ?_, ?_⟩
      · simpa using hlt
      · simp only [setlk_calls_unlock_flock, Option.isSome_some, if_true]
        rw [htake, List.map_append, hrel]
        rfl
      · simp only [Option.isSome_some, if_true]
        rw [hdrop]

theorem run_ops_fifo (ctx : Ctx) :
    ∀ (ops : List Op) (g : Log), Fifo g → ∃ g1, run_ops ctx ops g = some g1 ∧ Fifo g1 := by
  intro ops
  induction ops with
  | nil => intro g h; exact ⟨g, rfl, h⟩
  | cons op ops ih =>
    intro g h
    obtain ⟨g1, h1, hf1⟩ := apply_op_fifo ctx op g h
    obtain ⟨g2, h2, hf2⟩ := ih g1 hf1
    simp only [run_ops, h1, h2]
    exact ⟨g2, rfl, hf2⟩

/-- On a log that is first in, first out, `locka_infos.head` is `NULL` exactly when
every record appended has been released. -/
theorem fifo_head_none_iff (g : Log) (active spare : List (Nat × Rec))
    (hwf : WF g.mem active spare) (hdue : g.due ≤ g.appended.length)
    (hact : active.map Prod.snd = g.appended.drop g.due) :
    (g.mem.locka_infos.head = none ↔ g.due = g.appended.length) := by
  have hlen : active.length = g.appended.length - g.due := by
    have := congrArg List.length hact
    simpa using this
  cases active with
  | nil =>
    have hhead : g.mem.locka_infos.head = none := seg_nil hwf.seg_active
    simp only [List.length_nil] at hlen
    exact ⟨fun _ => by omega, fun _ => hhead⟩
  | cons y rest =>
    have hhead : g.mem.locka_infos.head = some y.1 := hwf.seg_active.1
    simp only [List.length_cons] at hlen
    rw [hhead]
    exact ⟨fun hx => Option.noConfusion hx, fun hx => by omega⟩

/-- C4: lock records are released in strict FIFO order.  Any sequence of appends and
releases applied to the empty lists of a fresh process goes through without a bad
pointer access, and afterwards: every release that found a record on the list
(`locka_infos.head` not `NULL`) has issued exactly one `fcntl(F_SETLK)`; the `j`-th of
these calls carries `l_type = F_UNLCK`, `l_whence = SEEK_SET` and the offset, length and
pid of the `j`-th record appended; the records still on the list are, in order, exactly
the records appended and not yet released; and the list is empty (`head` is `NULL`)
exactly when every record appended has been released. -/
theorem lock_records_released_fifo (ctx : Ctx) (ops : List Op) :
    ∃ g active spare, run_ops ctx ops Log.init = some g ∧
      WF g.mem active spare ∧
      g.released.length = g.due ∧ g.due ≤ g.appended.length ∧
      g.released = (g.appended.take g.due).map unlock_flock ∧
      (∀ j, j < g.due → g.released[j]? = (g.appended[j]?).map unlock_flock) ∧
      (∀ f, f ∈ g.released → f.l_type = F_UNLCK ∧ f.l_whence = SEEK_SET) ∧
      active.map Prod.snd = g.appended.drop g.due ∧
      (g.mem.locka_infos.head = none ↔ g.due = g.appended.length) := by
  have h0 : Fifo Log.init :=
    ⟨[], [], ⟨rfl, rfl, by simp, fun hx => absurd rfl hx⟩, Nat.le_refl _, rfl, rfl⟩
  obtain ⟨g, hg, active, spare, hwf, hdue, hrel, hact⟩ := run_ops_fifo ctx ops _ h0
  refine ⟨g, active, spare, hg, hwf, ?_, hdue, hrel, ?_, ?_, hact,
    fifo_head_none_iff g active spare hwf hdue hact⟩
  · rw [hrel, List.length_map, List.length_take]
    omega
  · intro j hj
    rw [hrel, List.getElem?_map, List.getElem?_take_of_lt hj]
  · intro f hf
    rw [hrel] at hf
    obtain ⟨r, -, rfl⟩ := List.mem_map.1 hf
    exact ⟨rfl, rfl⟩


theorem stress_locka_contention_append (ctx : Ctx) :
    ∀ (xs ys : List IterIn) (s s1 : St),
      stress_locka_contention ctx xs s = some (none, s1) →
        stress_locka_contention ctx (xs ++ ys) s = stress_locka_contention ctx ys s1 := by
  intro xs
  induction xs with
  | nil =>
    intro ys s s1 h
    simp only [stress_locka_contention, Option.some.injEq, Prod.mk.injEq, true_and] at h
    subst h
    rfl
  | cons x xs ih =>
    intro ys s s1 h
    simp only [List.cons_append, stress_locka_contention] at h ⊢
    cases hb : contention_body ctx x s with
    | none => rw [hb] at h; simp at h
    | some r =>
      obtain ⟨fl, s2⟩ := r
      rw [hb] at h
      cases fl with
      | ret rc => simp at h
      | cond k =>
        cases k with
        | false => simp at h
        | true =>
          simp only at h ⊢
          exact ih ys s2 s1 h

/-- A pass below the cap in which the lock query and the allocation succeed appends one
record. -/
theorem contention_body_appends (ctx : Ctx) (x : IterIn) (s : St) (n : Nat)
    (hx : ¬ x.getlk_rc < 0) (hc : x.calloc_ok = true) (hn : n < LOCK_MAX)
    (h : ∃ active spare, WF s.mem active spare ∧ s.mem.locka_infos.length = active.length ∧
      active.length = n) :
    ∃ s1, contention_body ctx x s = some (Flow.cond x.keep, s1) ∧
      ∃ active spare, WF s1.mem active spare ∧ s1.mem.locka_infos.length = active.length ∧
        active.length = n + 1 := by
  obtain ⟨active, spare, hwf, hlen, hn1⟩ := h
  have hge : ¬ s.mem.locka_infos.length ≥ LOCK_MAX := by rw [hlen, hn1]; omega
  have hcc : cap_check ctx x s = some (false, s) := by simp only [cap_check, if_neg hge]
  rcases stress_locka_info_new_spec x.calloc_ok s.mem active spare hwf with
    ⟨-, -, hno⟩ | ⟨p, r, spare1, m3, hnew, hwf3, hlen3, -⟩
  · rw [hc] at hno; exact Bool.noConfusion hno
  · obtain ⟨h4, hfill, hwf4, -⟩ := fill_record_spec m3 p r active spare1
      (locka_offset x.mwc64 (locka_len x.mwc16)) (locka_len x.mwc16) ctx.pid hwf3
    simp only [contention_body, hcc, if_neg hx, hnew, hfill]
    refine ⟨_, rfl, _, _, hwf4, ?_, ?_⟩
    · show m3.locka_infos.length = _
      rw [hlen3, hlen]
      simp only [List.length_append, List.length_singleton]
      simp only [LOCK_MAX] at hn
      unfold u64_incr
      omega
    · simp only [List.length_append, List.length_singleton]
      omega

theorem contention_fills (ctx : Ctx) (x : IterIn) (hx : ¬ x.getlk_rc < 0)
    (hc : x.calloc_ok = true) (hk : x.keep = true) :
    ∀ n, n ≤ LOCK_MAX →
      ∃ s, stress_locka_contention ctx (List.replicate n x) St.init = some (none, s) ∧
        ∃ active spare, WF s.mem active spare ∧ s.mem.locka_infos.length = active.length ∧
          active.length = n := by
  intro n
  induction n with
  | zero =>
    intro _
    exact ⟨St.init, rfl, [], [], ⟨rfl, rfl, by simp, fun hx => absurd rfl hx⟩, rfl, rfl⟩
  | succ n ih =>
    intro hn
    obtain ⟨s, hs, hinv⟩ := ih (by omega)
    obtain ⟨s1, hb, hinv1⟩ := contention_body_appends ctx x s n hx hc (by omega) hinv
    refine ⟨s1, ?_, hinv1⟩
    rw [List.replicate_succ', stress_locka_contention_append ctx _ _ _ _ hs]
    simp only [stress_locka_contention, hb, hk]



/-- After `LOCK_MAX` passes in which the lock query and the allocation succeed, a run from
the fresh lists is still in the loop and the cap is reached. -/
theorem contention_reaches_cap :
    ∃ s, stress_locka_contention ctx_verify_off (List.replicate LOCK_MAX x_unlock_fails) St.init
        = some (none, s) ∧
      Bounded s.mem ∧ s.mem.locka_infos.length ≥ LOCK_MAX := by
  obtain ⟨s, hs, active, spare, hwf, hlen, hn⟩ :=
    contention_fills ctx_verify_off x_unlock_fails (by decide) rfl rfl LOCK_MAX (le_refl _)
  exact ⟨s, hs, ⟨active, spare, hwf, hlen, le_of_eq hn⟩, by rw [hlen, hn]⟩

/-- A failing unlock at the cap ends the run with `-1` after a call of `pr_fail`, for
either value of the verification flag. -/
theorem failing_unlock_at_cap (ctx : Ctx) (x : IterIn)
    (xs : List IterIn) (s : St) (hb : Bounded s.mem)
    (hcap : s.mem.locka_infos.length ≥ LOCK_MAX) (hrc : x.setlk_rc < 0) :
    ∃ s1 f, contention_body ctx x s = some (Flow.ret (-1), s1) ∧
      s1.trace = s.trace ++ [Event.fcntl_setlk f x.setlk_rc, Event.pr_fail_setlk ctx.name] ∧
      stress_locka_contention ctx (x :: xs) s = some (some (-1), s1) ∧
      ∀ v, stress_locka_contention { ctx with verify := v } (x :: xs) s
        = some (some (-1), s1) := by
  obtain ⟨active, spare, hwf, hlen, hcap1⟩ := hb
  cases active with
  | nil =>
    rw [hlen] at hcap
    simp [LOCK_MAX] at hcap
  | cons y rest =>
    obtain ⟨a, r⟩ := y
    have key : ∀ c : Ctx, c.name = ctx.name → ∃ m2,
        contention_body c x s = some (Flow.ret (-1),
          { s with mem := m2,
                   trace := s.trace ++ [Event.fcntl_setlk (unlock_flock r) x.setlk_rc,
                     Event.pr_fail_setlk ctx.name],
                   history := s.history ++ [m2] }) ∧
        stress_locka_info_head_remove s.mem = some m2 := by
      intro c hc
      obtain ⟨m2, h1, -, -, -⟩ := stress_locka_info_head_remove_spec s.mem a r rest spare hwf
      obtain ⟨m3, -, -, -, hun⟩ := stress_locka_unlock_spec c x.setlk_rc s.mem a r rest spare hwf
      obtain ⟨hhead, nd, hld, hr, -⟩ := hwf.seg_active
      refine ⟨m2, ?_, h1⟩
      simp only [contention_body, cap_check, if_pos hcap, stress_locka_unlock, hhead, hld, h1,
        if_pos hrc]
      subst hr
      simp [unlock_flock, rec_of, hc]
    obtain ⟨m2, hbody, hrem⟩ := key ctx rfl
    refine ⟨_, _, hbody, rfl, by simp only [stress_locka_contention, hbody], ?_⟩
    intro v
    obtain ⟨m2', hbody', hrem'⟩ := key { ctx with verify := v } rfl
    rw [hrem] at hrem'
    injection hrem' with hrem'
    subst hrem'
    simp only [stress_locka_contention, hbody']

/-- C9 (amended): an unlock that fails is reported as a failure whether or not
verification mode is enabled.  When the cap is reached and the `fcntl(F_SETLK)` issued
by `stress_locka_unlock` returns a negative value, `pr_fail` is called right after it and
`stress_locka_contention` returns `-1`; the outcome is the same with verification mode
on and off. -/
theorem unlock_failure_reported_regardless_of_verify (ctx : Ctx) (x : IterIn)
    (xs : List IterIn) (s : St) (hb : Bounded s.mem)
    (hcap : s.mem.locka_infos.length ≥ LOCK_MAX) (hrc : x.setlk_rc < 0) :
    ∃ s1 f, contention_body ctx x s = some (Flow.ret (-1), s1) ∧
      s1.trace = s.trace ++ [Event.fcntl_setlk f x.setlk_rc, Event.pr_fail_setlk ctx.name] ∧
      stress_locka_contention ctx (x :: xs) s = some (some (-1), s1) ∧
      ∀ v, stress_locka_contention { ctx with verify := v } (x :: xs) s
        = some (some (-1), s1) :=
  failing_unlock_at_cap ctx x xs s hb hcap hrc

/-- The amended C9 at the state a fresh process reaches after `LOCK_MAX` successful
passes, with verification mode off and a failing unlock. -/
theorem unlock_failure_reported_regardless_of_verify_witness :
    ∃ s, stress_locka_contention ctx_verify_off (List.replicate LOCK_MAX x_unlock_fails) St.init
        = some (none, s) ∧
      Bounded s.mem ∧ s.mem.locka_infos.length ≥ LOCK_MAX ∧ x_unlock_fails.setlk_rc < 0 ∧
      ∃ s1 f, contention_body ctx_verify_off x_unlock_fails s = some (Flow.ret (-1), s1) ∧
        s1.trace = s.trace ++ [Event.fcntl_setlk f x_unlock_fails.setlk_rc,
          Event.pr_fail_setlk ctx_verify_off.name] ∧
        stress_locka_contention ctx_verify_off (x_unlock_fails :: []) s
          = some (some (-1), s1) ∧
        ∀ v, stress_locka_contention { ctx_verify_off with verify := v }
          (x_unlock_fails :: []) s = some (some (-1), s1) :=
  contention_reaches_cap.elim fun s hs =>
    ⟨s, hs.1, hs.2.1, hs.2.2, by decide,
      unlock_failure_reported_regardless_of_verify ctx_verify_off x_unlock_fails [] s
        hs.2.1 hs.2.2 (by decide)⟩

/-- C9 (counterexample): with verification mode off, a run from the fresh lists in which
every lock query and allocation succeeds reaches the cap after `LOCK_MAX` passes; the
unlock of the next pass fails, `pr_fail` is called and `stress_locka_contention` returns
`-1`. -/
theorem unlock_failure_reported_with_verify_off :
    ctx_verify_off.verify = false ∧
    ∃ s, stress_locka_contention ctx_verify_off
        (List.replicate LOCK_MAX x_unlock_fails ++ [x_unlock_fails]) St.init
          = some (some (-1), s) ∧
      Event.pr_fail_setlk "locka" ∈ s.trace := by
  refine ⟨rfl, ?_⟩
  obtain ⟨s, hs, hb, hcap⟩ := contention_reaches_cap
  obtain ⟨s1, f, -, htr, hrun, -⟩ :=
    failing_unlock_at_cap ctx_verify_off x_unlock_fails [] s hb hcap
      (by decide)
  refine ⟨s1, ?_, ?_⟩
  · rw [stress_locka_contention_append ctx_verify_off _ _ _ _ hs]
    exact hrun
  · rw [htr]
    simp [ctx_verify_off]


theorem locka_len_bounds (r16 : Nat) : 0 ≤ locka_len r16 ∧ locka_len r16 ≤ 4095 := by
  unfold locka_len
  have h : (r16 % 2 ^ 16 + 1) &&& 0xfff ≤ 0xfff := Nat.and_le_right
  refine ⟨Int.ofNat_nonneg _, ?_⟩
  have := Int.ofNat_le.2 h
  simpa using this

/-- The part of the range property that holds: the drawn length is between 0 and 4095,
the end of the range is inside the backing file, and the offset is not negative when
the 64-bit random value is below `2 ^ 63`. -/
theorem locka_range_upper (r16 r64 : Nat) :
    0 ≤ locka_len r16 ∧ locka_len r16 ≤ 4095 ∧
    locka_offset r64 (locka_len r16) + locka_len r16 < LOCK_FILE_SIZE ∧
    (r64 % 2 ^ 64 < 2 ^ 63 → 0 ≤ locka_offset r64 (locka_len r16)) := by
  obtain ⟨h1, h2⟩ := locka_len_bounds r16
  have hpos : 0 < LOCK_FILE_SIZE - locka_len r16 := by
    unfold LOCK_FILE_SIZE; omega
  refine ⟨h1, h2, ?_, ?_⟩
  · have := Int.tmod_lt_of_pos (to_int64 r64) hpos
    unfold locka_offset
    omega
  · intro h
    unfold locka_offset
    apply Int.tmod_nonneg
    unfold to_int64
    rw [if_pos h]
    exact Int.ofNat_nonneg _

/-- C5 (failing input): when `stress_mwc64()` returns `2 ^ 64 - 1` and `stress_mwc16()`
returns 0, the length is 1 and the offset is `-1`: the cast to `off_t` gives `-1` and the
signed remainder keeps the sign, so the range starts before the backing file. -/
theorem locka_offset_negative :
    to_int64 (2 ^ 64 - 1) = -1 ∧ locka_len 0 = 1 ∧
    locka_offset (2 ^ 64 - 1) (locka_len 0) = -1 ∧
    ¬ (0 ≤ locka_offset (2 ^ 64 - 1) (locka_len 0)) := by
  decide

/-- The memory `one_record_mem` is what a fresh process holds after one pass of the
contention loop that drew length 8 at offset 1000. -/
theorem one_record_mem_reached :
    (stress_locka_contention { name := "locka", pid := 42, verify := false }
      [{ setlk_rc := 0, mwc16 := 7, mwc64 := 1000, getlk_rc := 0, calloc_ok := true,
         keep := false }] St.init).map (fun r => (r.1, r.2.mem))
      = some (some 0, one_record_mem) := by
  decide

/-- C10 (failing input): teardown of a process holding one lock record frees the record
and sets `head` and `free` to `NULL`, but leaves `length` at 1 (and `tail` pointing to
the freed record). -/
theorem info_free_keeps_length :
    stress_locka_info_free 1 one_record_mem
      = some { heap := [none],
               locka_infos := { head := none, tail := some 0, free := none, length := 1 } } := by
  decide

/-- Teardown on any well-formed lists, with enough passes allowed for both loops: the
function ends, both lists are empty afterwards and every record is freed; the `length`
field keeps the value it had before. -/
theorem info_free_empties_lists (m : Mem) (active spare : List (Nat × Rec))
    (h : WF m active spare) (fuel : Nat) (hfuel : active.length + spare.length ≤ fuel) :
    ∃ m2, stress_locka_info_free fuel m = some m2 ∧
      m2.locka_infos.head = none ∧ m2.locka_infos.free = none ∧ WF m2 [] [] ∧
      (∀ a, a ∈ (active ++ spare).map Prod.fst → load m2.heap a = none) ∧
      m2.locka_infos.length = m.locka_infos.length := by
  obtain ⟨m2, h1, h2, h3, h4, -, h6, h7⟩ :=
    stress_locka_info_free_spec fuel m active spare h (by omega) (by omega)
  exact ⟨m2, h1, h3, h4, h2, h7, h6⟩

/-- A sequence of uses on the fresh lists: two appends, a release, an append that finds
the released cell on the free list (so it succeeds although `calloc` would fail), a
release whose `fcntl` fails, a release that empties the list, a release on the empty
list (which issues no call), two appends from the free list and an append with a failing
`calloc` on an empty free list. -/
theorem run_ops_example :
    (run_ops ctx_verify_off
      [Op.append true 10 1 7, Op.append true 20 2 7, Op.release 0, Op.append false 30 3 7,
       Op.release (-1), Op.release 0, Op.release 0, Op.append false 40 4 7,
       Op.append false 50 5 7, Op.append false 60 6 7]
      Log.init).map
        (fun g => (g.appended, g.released, g.due, g.mem.locka_infos, g.mem.heap.length))
      = some ([(10, 1, 7), (20, 2, 7), (30, 3, 7), (40, 4, 7), (50, 5, 7)],
              [unlock_flock (10, 1, 7), unlock_flock (20, 2, 7), unlock_flock (30, 3, 7)],
              3,
              { head := some 0, tail := some 1, free := none, length := 2 }, 2) := by
  decide


theorem list_step_recycled (op : ListOp) (t : Tally) (h : Recycled t) :
    ∃ t1, list_step op t = some t1 ∧ Recycled t1 := by
  obtain ⟨active, spare, hwf, hout, hheap, hhw, hmiss, hlen⟩ := h
  cases op with
  | new ok =>
    rcases stress_locka_info_new_spec ok t.mem active spare hwf with
      ⟨hnew, -, -⟩ | ⟨p, r, spare1, m2, hnew, hwf2, hlen2, hcase⟩
    · simp only [list_step, hnew]
      refine ⟨_, rfl, active, spare, hwf, ?_, hheap, ?_, ?_, ?_⟩
      · simpa using hout
      · simp only [Option.isSome_none, Bool.false_eq_true, if_false]
        rw [hhw]
        have : t.outstanding ≤ t.high_water := by omega
        omega
      · simp [hmiss]
      · simpa using hlen
    · simp only [list_step, hnew, Option.isSome_some, if_true]
      rcases hcase with ⟨hsp, hh⟩ | ⟨hsp, hsp1, -, -, hh⟩
      · subst hsp
        simp only [List.length_cons] at hheap
        refine ⟨_, rfl, active ++ [(p, r)], spare1, hwf2, ?_, ?_, ?_, ?_, ?_⟩
        · simp [hout]
        · simp only [List.length_append, List.length_singleton]
          show m2.heap.length = _
          omega
        · show m2.heap.length = max t.high_water (t.outstanding + 1)
          omega
        · show t.recycle_misses + (if m2.heap.length > t.mem.heap.length ∧ _ then 1 else 0) = 0
          rw [if_neg (fun hx => by omega)]
          omega
        · show m2.locka_infos.length = (t.outstanding + 1) % 2 ^ 64
          rw [hlen2, hlen]
          unfold u64_incr
          omega
      · subst hsp hsp1
        have hfree : t.mem.locka_infos.free = none := seg_nil hwf.seg_spare
        simp only [List.length_nil] at hheap
        refine ⟨_, rfl, active ++ [(p, r)], [], hwf2, ?_, ?_, ?_, ?_, ?_⟩
        · simp [hout]
        · simp only [List.length_append, List.length_singleton, List.length_nil]
          show m2.heap.length = _
          omega
        · show m2.heap.length = max t.high_water (t.outstanding + 1)
          omega
        · show t.recycle_misses + (if m2.heap.length > t.mem.heap.length ∧ _ then 1 else 0) = 0
          rw [if_neg (fun hx => hx.2 hfree)]
          omega
        · show m2.locka_infos.length = (t.outstanding + 1) % 2 ^ 64
          rw [hlen2, hlen]
          unfold u64_incr
          omega
  | head_remove =>
    cases active with
    | nil =>
      have hhead : t.mem.locka_infos.head = none := seg_nil hwf.seg_active
      simp only [list_step, stress_locka_info_head_remove_empty t.mem spare hwf, hhead]
      refine ⟨_, rfl, [], spare, hwf, ?_, hheap, hhw, ?_, ?_⟩
      · simpa using hout
      · simp [hmiss]
      · simpa using hlen
    | cons y rest =>
      obtain ⟨a, r⟩ := y
      obtain ⟨m2, hrm, hwf2, hlen2, hh⟩ :=
        stress_locka_info_head_remove_spec t.mem a r rest spare hwf
      have hhead : t.mem.locka_infos.head = some a := hwf.seg_active.1
      simp only [List.length_cons] at hout hheap
      simp only [list_step, hrm, hhead, Option.isSome_some, if_true]
      refine ⟨_, rfl, rest, (a, r) :: spare, hwf2, ?_, ?_, ?_, ?_, ?_⟩
      · show rest.length = t.outstanding - 1
        omega
      · simp only [List.length_cons]
        show m2.heap.length = _
        omega
      · show m2.heap.length = t.high_water
        omega
      · show t.recycle_misses + (if m2.heap.length > t.mem.heap.length then 1 else 0) = 0
        rw [if_neg (by omega)]
        omega
      · show m2.locka_infos.length = (t.outstanding - 1) % 2 ^ 64
        rw [hlen2, hlen]
        unfold u64_decr
        omega

theorem run_list_ops_recycled :
    ∀ (ops : List ListOp) (t : Tally), Recycled t →
      ∃ t1, run_list_ops ops t = some t1 ∧ Recycled t1 := by
  intro ops
  induction ops with
  | nil => intro t h; exact ⟨t, rfl, h⟩
  | cons op ops ih =>
    intro t h
    obtain ⟨t1, h1, hr1⟩ := list_step_recycled op t h
    obtain ⟨t2, h2, hr2⟩ := ih t1 hr1
    simp only [run_list_ops, h1, h2]
    exact ⟨t2, rfl, hr2⟩

/-- C14: the free list bounds allocation by the high-water mark of outstanding records.
Any sequence of `stress_locka_info_new` and `stress_locka_info_head_remove` calls on the
empty lists of a fresh process goes through without a bad pointer access, and
afterwards: no call allocated a fresh record while the free list held one; the number of
records ever allocated (heap cells) is the number of active records plus the number of
records on the free list; and it does not exceed (it equals) the largest number of
outstanding records reached so far. -/
theorem allocation_bounded_by_high_water (ops : List ListOp) :
    ∃ t active spare, run_list_ops ops Tally.init = some t ∧
      WF t.mem active spare ∧ active.length = t.outstanding ∧
      t.recycle_misses = 0 ∧
      t.mem.heap.length = active.length + spare.length ∧
      t.mem.heap.length ≤ t.high_water ∧ t.mem.heap.length = t.high_water ∧
      t.mem.locka_infos.length = t.outstanding % 2 ^ 64 := by
  have h0 : Recycled Tally.init :=
    ⟨[], [], ⟨rfl, rfl, by simp, fun hx => absurd rfl hx⟩, rfl, rfl, rfl, rfl, rfl⟩
  obtain ⟨t, ht, active, spare, hwf, hout, hheap, hhw, hmiss, hlen⟩ :=
    run_list_ops_recycled ops Tally.init h0
  exact ⟨t, active, spare, ht, hwf, hout, hmiss, hheap, le_of_eq hhw, hhw, hlen⟩

/-- A sequence of calls on the fresh lists: three records are appended, two removed, two
appended again from the free list, and an append with a failing `calloc` on an empty
free list changes nothing: two records were recycled, three were ever allocated. -/
theorem run_list_ops_example :
    (run_list_ops
      [ListOp.new true, ListOp.new true, ListOp.new true, ListOp.head_remove,
       ListOp.head_remove, ListOp.new false, ListOp.new false, ListOp.new false]
      Tally.init).map
        (fun t => (t.outstanding, t.high_water, t.recycle_misses, t.mem.heap.length,
          t.mem.locka_infos))
      = some (3, 3, 0, 3, { head := some 2, tail := some 0, free := none, length := 3 }) := by
  decide

end StressLocka

/-! ## Theorems: `stress-splice.c` -/

namespace StressSplice

theorem splice_incs_append (a b : List Event) : incs (a ++ b) = incs a + incs b := by
  simp [incs, List.count_append]

theorem incs_zero_of_forall {l : List Event} (h : ∀ e, e ∈ l → e ≠ Event.inc_counter) :
    incs l = 0 := by
  unfold incs
  rw [List.count_eq_zero]
  intro hm
  exact h _ hm rfl

theorem size_after_write (size bl : Int) (h0 : 0 < size) (h1 : size < 2 ^ 63) (hbl : 1 ≤ bl) :
    to_int64 ((size_t_of size
        + (2 ^ 64 - size_t_of (if size > bl then bl else size) % 2 ^ 64)) % 2 ^ 64)
      = size - (if size > bl then bl else size) := by
  unfold to_int64 size_t_of
  split_ifs <;> omega

/-- With a buffer length of at least one, `stress_splice_write` ends within `size`
passes, and its events are `write` calls on its descriptor. -/
theorem stress_splice_write_total (fd : Res) (wr : Nat → Int) (bl : Int) (hbl : 1 ≤ bl) :
    ∀ (fuel k : Nat) (size ret : Int), size < 2 ^ 63 → size.toNat ≤ fuel →
      ∃ v evs, stress_splice_write fd wr bl fuel k size ret = some (v, evs) ∧
        ∀ e, e ∈ evs → ∃ n r, e = Event.write fd n r := by
  intro fuel
  induction fuel with
  | zero =>
    intro k size ret _ hf
    have : ¬ size > 0 := by omega
    simp only [stress_splice_write, if_neg this]
    exact ⟨_, _, rfl, fun e he => by simp at he⟩
  | succ fuel ih =>
    intro k size ret hs hf
    by_cases h0 : size > 0
    · by_cases hr : wr k < 0
      · simp only [stress_splice_write, if_pos h0, if_pos hr]
        refine ⟨_, _, rfl, ?_⟩
        intro e he
        simp only [List.mem_singleton] at he
        exact ⟨_, _, he⟩
      · have hsz := size_after_write size bl h0 hs hbl
        obtain ⟨v, evs, hrec, hev⟩ := ih (k + 1)
          (size - (if size > bl then bl else size)) (wr k)
          (by split_ifs <;> omega) (by split_ifs <;> omega)
        simp only [stress_splice_write, if_pos h0, if_neg hr, hsz, hrec]
        refine ⟨v, _, rfl, ?_⟩
        intro e he
        simp only [List.mem_cons] at he
        rcases he with he | he
        · exact ⟨_, _, he⟩
        · exact hev e he
    · simp only [stress_splice_write, if_neg h0]
      exact ⟨_, _, rfl, fun e he => by simp at he⟩

/-- The call of `stress_splice_write` made by the loop body always ends. -/
theorem body_write_total (sb : Nat) (wr : Nat → Int) :
    ∃ v evs, stress_splice_write Res.fds1_1 wr (buffer_len_of sb) sb 0 (to_int64 sb) 0
        = some (v, evs) ∧
      ∀ e, e ∈ evs → ∃ n r, e = Event.write Res.fds1_1 n r := by
  have hs : to_int64 sb < 2 ^ 63 ∧ (to_int64 sb).toNat ≤ sb := by
    unfold to_int64
    split_ifs <;> omega
  by_cases h0 : sb = 0
  · subst h0
    exact ⟨_, _, rfl, fun e he => by simp at he⟩
  · have hbl : 1 ≤ buffer_len_of sb := by
      unfold buffer_len_of to_int64 SPLICE_BUFFER_LEN
      split_ifs <;> omega
    exact stress_splice_write_total _ _ _ hbl _ _ _ _ hs.1 hs.2


theorem looped_pipe_events (sb : Nat) (r1 r2 : Int) (u : Bool) :
    ∀ e, e ∈ (stress_splice_looped_pipe r1 r2 u).2 →
      is_direct_splice sb e = false ∧ e ≠ Event.inc_counter := by
  intro e he
  unfold stress_splice_looped_pipe at he
  split_ifs at he <;>
    simp only [List.mem_cons, List.mem_singleton, List.not_mem_nil, or_false] at he <;>
    first
    | exact absurd he id
    | (rcases he with rfl | rfl <;> exact ⟨rfl, fun h => Event.noConfusion h⟩)

theorem probe_events_plain (sb : Nat) (pr : Nat → Int) :
    (∀ e, e ∈ probe_events sb pr → e ≠ Event.inc_counter) ∧
    (0 < sb → ∀ e, e ∈ probe_events sb pr → is_direct_splice sb e = false) := by
  refine ⟨?_, ?_⟩
  · intro e he
    simp only [probe_events, List.mem_cons, List.mem_singleton, List.not_mem_nil, or_false] at he
    rcases he with rfl | rfl | rfl | rfl | rfl | rfl | rfl <;> exact fun h => Event.noConfusion h
  · intro hsb e he
    have hne : ¬ (0 = sb) := by omega
    simp only [probe_events, List.mem_cons, List.mem_singleton, List.not_mem_nil, or_false] at he
    rcases he with rfl | rfl | rfl | rfl | rfl | rfl | rfl <;>
      simp [is_direct_splice, hne, ALL_FLAGS, SPLICE_F_MOVE]

/-- What the part of the loop body after the feed of the first pipe does: it increments
the Operation Counter once and reaches the loop condition when both pipeline splices
succeed, and breaks without incrementing otherwise; it never issues the primary splice
from the source. -/
theorem splice_rest_spec (sb : Nat) (x : IterIn) (s : LoopSt) :
    ∃ ext, (splice_rest sb x s).2.trace = s.trace ++ ext ∧
      (splice_rest sb x s).2.use_splice = s.use_splice ∧
      ((0 ≤ x.p12_ret ∧ 0 ≤ x.p2out_ret) →
        (splice_rest sb x s).1 = Flow.cond x.keep ∧
        (splice_rest sb x s).2.counter = u64_incr s.counter ∧ incs ext = 1) ∧
      (¬ (0 ≤ x.p12_ret ∧ 0 ≤ x.p2out_ret) →
        (splice_rest sb x s).1 = Flow.brk ∧
        (splice_rest sb x s).2.counter = s.counter ∧ incs ext = 0) ∧
      (0 < sb → ∀ e, e ∈ ext → is_direct_splice sb e = false) := by
  by_cases h1 : x.p12_ret < 0
  · have hr : splice_rest sb x s = (Flow.brk, { s with trace := s.trace ++
        [Event.splice Res.fds1_0 none Res.fds2_1 none sb SPLICE_F_MOVE x.p12_ret] }) := by
      simp only [splice_rest, if_pos h1]
    rw [hr]
    refine ⟨_, rfl, rfl, fun h => absurd h.1 (by omega), fun _ => ⟨rfl, rfl, ?_⟩, ?_⟩
    · simp [incs]
    · intro _ e he
      simp only [List.mem_singleton] at he
      subst he
      rfl
  · by_cases h2 : x.p2out_ret < 0
    · have hr : splice_rest sb x s = (Flow.brk, { s with trace := s.trace ++
          [Event.splice Res.fds1_0 none Res.fds2_1 none sb SPLICE_F_MOVE x.p12_ret,
           Event.splice Res.fds2_0 none Res.fd_out none sb SPLICE_F_MOVE x.p2out_ret] }) := by
        simp only [splice_rest, if_neg h1, if_pos h2]
      rw [hr]
      refine ⟨_, rfl, rfl, fun h => absurd h.2 (by omega), fun _ => ⟨rfl, rfl, ?_⟩, ?_⟩
      · simp [incs]
      · intro _ e he
        simp only [List.mem_cons, List.mem_singleton, List.not_mem_nil, or_false] at he
        rcases he with rfl | rfl <;> rfl
    · have hr : splice_rest sb x s = (Flow.cond x.keep,
          { s with
            use_splice_loop := (stress_splice_looped_pipe (x.loop_ret 2) (x.loop_ret 3)
              (stress_splice_looped_pipe (x.loop_ret 0) (x.loop_ret 1) s.use_splice_loop).1).1,
            counter := u64_incr s.counter,
            trace := s.trace ++
              [Event.splice Res.fds1_0 none Res.fds2_1 none sb SPLICE_F_MOVE x.p12_ret,
               Event.splice Res.fds2_0 none Res.fd_out none sb SPLICE_F_MOVE x.p2out_ret]
              ++ probe_events sb x.probe_ret
              ++ (stress_splice_looped_pipe (x.loop_ret 0) (x.loop_ret 1) s.use_splice_loop).2
              ++ (stress_splice_looped_pipe (x.loop_ret 2) (x.loop_ret 3)
                  (stress_splice_looped_pipe (x.loop_ret 0) (x.loop_ret 1)
                    s.use_splice_loop).1).2
              ++ [Event.inc_counter, Event.keep_stressing x.keep] }) := by
        simp only [splice_rest, if_neg h1, if_neg h2]
      rw [hr]
      refine ⟨[Event.splice Res.fds1_0 none Res.fds2_1 none sb SPLICE_F_MOVE x.p12_ret,
          Event.splice Res.fds2_0 none Res.fd_out none sb SPLICE_F_MOVE x.p2out_ret]
          ++ probe_events sb x.probe_ret
          ++ (stress_splice_looped_pipe (x.loop_ret 0) (x.loop_ret 1) s.use_splice_loop).2
          ++ (stress_splice_looped_pipe (x.loop_ret 2) (x.loop_ret 3)
                (stress_splice_looped_pipe (x.loop_ret 0) (x.loop_ret 1) s.use_splice_loop).1).2
          ++ [Event.inc_counter, Event.keep_stressing x.keep],
        by simp only [List.append_assoc], rfl, fun _ => ⟨rfl, rfl, ?_⟩,
        fun h => absurd (⟨by omega, by omega⟩ : 0 ≤ x.p12_ret ∧ 0 ≤ x.p2out_ret) h, ?_⟩
      · rw [splice_incs_append, splice_incs_append, splice_incs_append, splice_incs_append,
          incs_zero_of_forall (probe_events_plain sb x.probe_ret).1,
          incs_zero_of_forall (fun e he => (looped_pipe_events sb _ _ _ e he).2),
          incs_zero_of_forall (fun e he => (looped_pipe_events sb _ _ _ e he).2)]
        simp [incs]
      · intro hsb e he
        simp only [List.mem_append] at he
        rcases he with (((he | he) | he) | he) | he
        · simp only [List.mem_cons, List.mem_singleton, List.not_mem_nil, or_false] at he
          rcases he with rfl | rfl <;> rfl
        · exact (probe_events_plain sb x.probe_ret).2 hsb e he
        · exact (looped_pipe_events sb _ _ _ e he).1
        · exact (looped_pipe_events sb _ _ _ e he).1
        · simp only [List.mem_cons, List.mem_singleton, List.not_mem_nil, or_false] at he
          rcases he with rfl | rfl <;> rfl


theorem fallback_pass (instance_id sb : Nat) (hsb : 0 < sb) (x : IterIn) (s : LoopSt)
    (hus : s.use_splice = false) :
    ∃ fl s1 ret wr rest, splice_body instance_id sb x s = some (fl, s1) ∧
      s1.use_splice = false ∧
      stress_splice_write Res.fds1_1 x.write_ret (buffer_len_of sb) sb 0 (to_int64 sb) 0
        = some (ret, wr) ∧
      s1.trace = s.trace ++ (wr ++ rest) ∧
      (∀ e, e ∈ wr → ∃ n r, e = Event.write Res.fds1_1 n r) ∧
      (∀ e, e ∈ wr ++ rest → is_direct_splice sb e = false) := by
  have hus' : ¬ s.use_splice = true := by rw [hus]; exact Bool.false_ne_true
  obtain ⟨ret, evs, hw, hev⟩ := body_write_total sb x.write_ret
  have hevd : ∀ e, e ∈ evs → is_direct_splice sb e = false := by
    intro e he
    obtain ⟨n, r, rfl⟩ := hev e he
    rfl
  by_cases hr : ret < 0
  · simp only [splice_body, if_neg hus', hw, if_pos hr]
    refine ⟨Flow.brk, _, ret, evs, [], rfl, hus, rfl, by simp, hev, ?_⟩
    intro e he
    rw [List.append_nil] at he
    exact hevd e he
  · obtain ⟨ext, htr, hu, -, -, hdir⟩ := splice_rest_spec sb x { s with trace := s.trace ++ evs }
    simp only [splice_body, if_neg hus', hw, if_neg hr]
    refine ⟨(splice_rest sb x { s with trace := s.trace ++ evs }).1,
      (splice_rest sb x { s with trace := s.trace ++ evs }).2, ret, evs, ext, rfl,
      hu.trans hus, rfl, htr.trans (List.append_assoc _ _ _), hev, ?_⟩
    intro e he
    rcases List.mem_append.1 he with he | he
    · exact hevd e he
    · exact hdir hsb e he

/-- C6: once the splice from the source has been found unsupported, the fallback is
used for the rest of the run.  For a transfer size greater than zero (which keeps the
primary splice apart from the zero-length probe): a pass in which the splice from the
source fails with `EINVAL` clears `use_splice`; every later pass leaves it cleared,
feeds the first pipe with `stress_splice_write`, and never issues the primary splice
`splice(fd_in, NULL, fds1[1], NULL, splice_bytes, SPLICE_F_MOVE)`.  The probe splices,
which the source issues in every completed pass, are not counted as such an attempt. -/
theorem fallback_is_permanent (instance_id sb : Nat) (hsb : 0 < sb) :
    FallbackPermanent instance_id sb := by
  refine ⟨?_, fallback_pass instance_id sb hsb, ?_⟩
  · intro x s hus h0 he
    have hus' : s.use_splice = true := hus
    by_cases hi : instance_id = 0
    · simp only [splice_body, if_pos hus', if_pos h0, if_pos he, if_pos hi]
      exact ⟨_, rfl, rfl, rfl⟩
    · simp only [splice_body, if_pos hus', if_pos h0, if_pos he, if_neg hi]
      exact ⟨_, rfl, rfl, rfl⟩
  · intro xs
    induction xs with
    | nil =>
      intro s hus
      exact ⟨(false, s), [], rfl, hus, by simp, fun e he => by simp at he⟩
    | cons x xs ih =>
      intro s hus
      obtain ⟨fl, s1, ret, wr, rest, hb, hu1, -, htr, -, hd⟩ :=
        fallback_pass instance_id sb hsb x s hus
      cases fl with
      | brk =>
        simp only [splice_loop, hb]
        exact ⟨_, wr ++ rest, rfl, hu1, htr, hd⟩
      | cond k =>
        cases k with
        | false =>
          simp only [splice_loop, hb]
          exact ⟨_, wr ++ rest, rfl, hu1, htr, hd⟩
        | true =>
          obtain ⟨r, ext, hr, hur, htr2, hd2⟩ := ih s1 hu1
          simp only [splice_loop, hb, hr]
          refine ⟨r, (wr ++ rest) ++ ext, rfl, hur, ?_, ?_⟩
          · rw [htr2, htr, List.append_assoc]
          · intro e he
            rcases List.mem_append.1 he with he | he
            · exact hd e he
            · exact hd2 e he

/-- C6 for worker instance 0 and a transfer size of 4096 bytes. -/
theorem fallback_is_permanent_witness : 0 < 4096 ∧ FallbackPermanent 0 4096 :=
  ⟨by decide, fallback_is_permanent 0 4096 (by decide)⟩


/-- C7: for each of the seven acquisition steps of `stress_splice`, if the step fails
after all earlier steps succeeded, the function returns `EXIT_FAILURE`, the resources
acquired are exactly those of the earlier steps, and the resources released are exactly
the acquired ones, each released once. -/
theorem failed_step_releases_exactly_earlier (instance_id splice_bytes counter : Nat)
    (env : SetupEnv) (iters : List IterIn) (st : Step)
    (hearlier : ∀ t, t ∈ st.earlier → t.ok env = true) (hfail : st.ok env = false) :
    ∃ tr, stress_splice instance_id splice_bytes counter env iters = some (EXIT_FAILURE, tr) ∧
      acquired tr = st.earlier.flatMap Step.yields ∧
      (released tr).Perm (acquired tr) ∧ (released tr).Nodup := by
  cases st <;>
    simp only [Step.ok, Step.earlier, List.mem_cons, List.mem_singleton, List.not_mem_nil,
      or_false, forall_eq_or_imp, forall_eq, false_implies, implies_true] at hfail hearlier <;>
    simp only [stress_splice, hfail, hearlier, if_true, if_false, Bool.true_eq_false] <;>
    refine ⟨_, rfl, ?_, ?_, ?_⟩ <;> decide

/-- C7 for a failure of the fourth pipe pair. -/
theorem failed_step_releases_exactly_earlier_witness :
    (∀ t, t ∈ Step.pipe_fds4.earlier →
      t.ok { mmap_ok := true, open_zero_ok := true, pipe1_ok := true, pipe2_ok := true,
             pipe3_ok := true, pipe4_ok := false, open_null_ok := true,
             getfl := 0, setfl1 := 0, wr := 0, setfl2 := 0 } = true) ∧
    ∃ tr, stress_splice 0 4096 0
        { mmap_ok := true, open_zero_ok := true, pipe1_ok := true, pipe2_ok := true,
          pipe3_ok := true, pipe4_ok := false, open_null_ok := true,
          getfl := 0, setfl1 := 0, wr := 0, setfl2 := 0 } [] = some (EXIT_FAILURE, tr) ∧
      acquired tr = Step.pipe_fds4.earlier.flatMap Step.yields ∧
      (released tr).Perm (acquired tr) ∧ (released tr).Nodup :=
  ⟨by decide,
   failed_step_releases_exactly_earlier 0 4096 0 _ [] Step.pipe_fds4 (by decide) (by decide)⟩


/-- The flow, the counter and `use_splice` after the rest of the body do not depend on
what the probe splices and the looped-pipe splices return. -/
theorem splice_rest_independent (sb : Nat) (x : IterIn) (s : LoopSt) (pr lr : Nat → Int) :
    (splice_rest sb { x with probe_ret := pr, loop_ret := lr } s).1 = (splice_rest sb x s).1 ∧
    (splice_rest sb { x with probe_ret := pr, loop_ret := lr } s).2.counter
      = (splice_rest sb x s).2.counter ∧
    (splice_rest sb { x with probe_ret := pr, loop_ret := lr } s).2.use_splice
      = (splice_rest sb x s).2.use_splice := by
  obtain ⟨ext, _, hu, hok, hbad, _⟩ := splice_rest_spec sb x s
  obtain ⟨ext', _, hu', hok', hbad', _⟩ :=
    splice_rest_spec sb { x with probe_ret := pr, loop_ret := lr } s
  rw [hu, hu']
  by_cases h : 0 ≤ x.p12_ret ∧ 0 ≤ x.p2out_ret
  · obtain ⟨a1, a2, -⟩ := hok h
    obtain ⟨b1, b2, -⟩ := hok' h
    rw [a1, a2, b1, b2]
    exact ⟨rfl, rfl, rfl⟩
  · obtain ⟨a1, a2, -⟩ := hbad h
    obtain ⟨b1, b2, -⟩ := hbad' h
    rw [a1, a2, b1, b2]
    exact ⟨rfl, rfl, rfl⟩

/-- C8: the Operation Counter is incremented exactly once in a pass of the primary loop
in which the feed of the first pipe and the two pipeline splices succeed, and not at all
in any other pass (a switch to the fallback, a break on an error).  Every pass ends
(the body returns a result), and the flow of control and the counter after the pass are
the same whatever the seven probe splices and the looped-pipe splices return: they
never break the loop and never change the count. -/
theorem counter_once_per_completed_pass (instance_id sb : Nat) (x : IterIn) (s : LoopSt) :
    ∃ fl s1 ext, splice_body instance_id sb x s = some (fl, s1) ∧
      s1.trace = s.trace ++ ext ∧
      (moves_ok sb s.use_splice x = true →
        fl = Flow.cond x.keep ∧ s1.counter = u64_incr s.counter ∧ incs ext = 1) ∧
      (moves_ok sb s.use_splice x = false → s1.counter = s.counter ∧ incs ext = 0) ∧
      (∀ pr lr, ∃ s2,
        splice_body instance_id sb { x with probe_ret := pr, loop_ret := lr } s
          = some (fl, s2) ∧ s2.counter = s1.counter) := by
  have finish : ∀ (pre : List Event), incs pre = 0 →
      feed_ok sb s.use_splice x = true →
      (∀ pr lr, splice_body instance_id sb { x with probe_ret := pr, loop_ret := lr } s
        = some (splice_rest sb { x with probe_ret := pr, loop_ret := lr }
            { s with trace := s.trace ++ pre })) →
      splice_body instance_id sb x s
        = some (splice_rest sb x { s with trace := s.trace ++ pre }) →
      ∃ fl s1 ext, splice_body instance_id sb x s = some (fl, s1) ∧
        s1.trace = s.trace ++ ext ∧
        (moves_ok sb s.use_splice x = true →
          fl = Flow.cond x.keep ∧ s1.counter = u64_incr s.counter ∧ incs ext = 1) ∧
        (moves_ok sb s.use_splice x = false → s1.counter = s.counter ∧ incs ext = 0) ∧
        (∀ pr lr, ∃ s2,
          splice_body instance_id sb { x with probe_ret := pr, loop_ret := lr } s
            = some (fl, s2) ∧ s2.counter = s1.counter) := by
    intro pre hpre hfeed hall hbody
    obtain ⟨ext, htr, -, hok, hbad, -⟩ := splice_rest_spec sb x { s with trace := s.trace ++ pre }
    have hind := splice_rest_independent sb x { s with trace := s.trace ++ pre }
    refine ⟨(splice_rest sb x { s with trace := s.trace ++ pre }).1,
      (splice_rest sb x { s with trace := s.trace ++ pre }).2, pre ++ ext, hbody,
      htr.trans (List.append_assoc _ _ _), ?_, ?_, ?_⟩
    · intro hm
      have hp : 0 ≤ x.p12_ret ∧ 0 ≤ x.p2out_ret := by
        simp only [moves_ok, Bool.and_eq_true, decide_eq_true_eq] at hm
        exact ⟨hm.1.2, hm.2⟩
      obtain ⟨a1, a2, a3⟩ := hok hp
      refine ⟨a1, a2, ?_⟩
      rw [splice_incs_append, a3, hpre]
    · intro hm
      have hp : ¬ (0 ≤ x.p12_ret ∧ 0 ≤ x.p2out_ret) := by
        intro hp
        have : moves_ok sb s.use_splice x = true := by
          simp only [moves_ok, hfeed, Bool.and_eq_true, decide_eq_true_eq]
          exact ⟨⟨trivial, hp.1⟩, hp.2⟩
        rw [this] at hm
        exact Bool.noConfusion hm
      obtain ⟨-, a2, a3⟩ := hbad hp
      refine ⟨a2, ?_⟩
      rw [splice_incs_append, a3, hpre]
    · intro pr lr
      obtain ⟨i1, i2, -⟩ := hind pr lr
      refine ⟨_, ?_, i2⟩
      rw [hall pr lr, ← i1]
  by_cases hus : s.use_splice = true
  · by_cases h0 : x.src_ret < 0
    · have hm : moves_ok sb s.use_splice x = false := by
        simp [moves_ok, feed_ok, hus, h0]
      rw [hm]
      by_cases he : x.src_errno = EINVAL
      · by_cases hi : instance_id = 0
        · simp only [splice_body, if_pos hus, if_pos h0, if_pos he, if_pos hi]
          exact ⟨Flow.cond x.keep, _,
            [Event.splice Res.fd_in none Res.fds1_1 none sb SPLICE_F_MOVE x.src_ret,
             Event.pr_inf_direct_write, Event.keep_stressing x.keep],
            rfl, by simp, fun h => Bool.noConfusion h, fun _ => ⟨rfl, by simp [incs]⟩,
            fun _ _ => ⟨_, rfl, rfl⟩⟩
        · simp only [splice_body, if_pos hus, if_pos h0, if_pos he, if_neg hi]
          exact ⟨Flow.cond x.keep, _,
            [Event.splice Res.fd_in none Res.fds1_1 none sb SPLICE_F_MOVE x.src_ret,
             Event.keep_stressing x.keep],
            rfl, by simp, fun h => Bool.noConfusion h, fun _ => ⟨rfl, by simp [incs]⟩,
            fun _ _ => ⟨_, rfl, rfl⟩⟩
      · simp only [splice_body, if_pos hus, if_pos h0, if_neg he]
        exact ⟨Flow.brk, _,
          [Event.splice Res.fd_in none Res.fds1_1 none sb SPLICE_F_MOVE x.src_ret],
          rfl, rfl, fun h => Bool.noConfusion h, fun _ => ⟨rfl, by simp [incs]⟩,
          fun _ _ => ⟨_, rfl, rfl⟩⟩
    · apply finish [Event.splice Res.fd_in none Res.fds1_1 none sb SPLICE_F_MOVE x.src_ret]
      · simp [incs]
      · simp only [feed_ok, if_pos hus, decide_eq_true_eq]; omega
      · intro pr lr
        simp only [splice_body, if_pos hus, if_neg h0]
      · simp only [splice_body, if_pos hus, if_neg h0]
  · obtain ⟨ret, evs, hw, hev⟩ := body_write_total sb x.write_ret
    have hevi : incs evs = 0 := by
      apply incs_zero_of_forall
      intro e he
      obtain ⟨n, r, rfl⟩ := hev e he
      exact fun h => Event.noConfusion h
    by_cases hr : ret < 0
    · have hm : moves_ok sb s.use_splice x = false := by
        simp [moves_ok, feed_ok, hus, hw, hr]
      rw [hm]
      simp only [splice_body, if_neg hus, hw, if_pos hr]
      exact ⟨Flow.brk, _, evs, rfl, rfl, fun h => Bool.noConfusion h, fun _ => ⟨rfl, hevi⟩,
        fun _ _ => ⟨_, rfl, rfl⟩⟩
    · apply finish evs hevi
      · simp only [feed_ok, if_neg hus, hw, decide_eq_true_eq]; omega
      · intro pr lr
        simp only [splice_body, if_neg hus, hw, if_neg hr]
      · simp only [splice_body, if_neg hus, hw, if_neg hr]

/-- The transfer size computed at the start of `stress_splice` is at least
`MIN_SPLICE_BYTES`, so it is greater than zero when that constant is. -/
theorem splice_bytes_of_ge_min (MIN_SPLICE_BYTES MAX_SPLICE_BYTES DEFAULT_SPLICE_BYTES : Nat)
    (setting : Option Nat) (maximize minimize : Bool) (num_instances : Nat) :
    MIN_SPLICE_BYTES ≤ splice_bytes_of MIN_SPLICE_BYTES MAX_SPLICE_BYTES DEFAULT_SPLICE_BYTES
      setting maximize minimize num_instances := by
  simp only [splice_bytes_of]
  split_ifs <;> omega

/-- A run of two passes: the splice from the source fails with `EINVAL` in the first,
so the second feeds the first pipe with one `write` of 4096 bytes and completes; the
Operation Counter goes from 0 to 1 and `use_splice` is cleared. -/
theorem fallback_run_example :
    (splice_loop 0 4096 [x_einval, x_completes]
      { use_splice := true, use_splice_loop := false, counter := 0, trace := [] }).map
        (fun r => (r.1, r.2.use_splice, r.2.counter, r.2.trace.take 4))
      = some (true, false, 1,
          [Event.splice Res.fd_in none Res.fds1_1 none 4096 SPLICE_F_MOVE (-1),
           Event.pr_inf_direct_write,
           Event.keep_stressing true,
           Event.write Res.fds1_1 4096 4096]) := by
  decide


theorem to_int32_fits (r : Int) (h1 : -2 ^ 31 ≤ r) (h2 : r < 2 ^ 31) : to_int32 r = r := by
  unfold to_int32
  split_ifs <;> omega

theorem ceil_div_nonpos (size bl : Int) (hbl : 0 < bl) (hs : size ≤ 0) : ceil_div size bl = 0 := by
  unfold ceil_div
  have : (size + bl - 1) / bl ≤ 0 := by
    have h1 : size + bl - 1 < bl := by omega
    have := Int.ediv_lt_of_lt_mul hbl (show size + bl - 1 < 1 * bl by omega)
    omega
  omega

theorem ceil_div_step (size bl : Int) (hbl : 0 < bl) (hs : 0 < size) :
    ceil_div size bl = ceil_div (size - (if size > bl then bl else size)) bl + 1 := by
  by_cases h : size > bl
  · rw [if_pos h]
    unfold ceil_div
    have e : size + bl - 1 = (size - bl + bl - 1) + 1 * bl := by ring
    rw [e, Int.add_mul_ediv_right _ _ (by omega : bl ≠ 0)]
    have hnn : 0 ≤ (size - bl + bl - 1) / bl := Int.ediv_nonneg (by omega) (by omega)
    omega
  · rw [if_neg h, sub_self, ceil_div_nonpos 0 bl hbl (le_refl _)]
    unfold ceil_div
    have e : size + bl - 1 = (size - 1) + 1 * bl := by ring
    rw [e, Int.add_mul_ediv_right _ _ (by omega : bl ≠ 0)]
    have : (size - 1) / bl = 0 := Int.ediv_eq_zero_of_lt (by omega) (by omega)
    omega

theorem size_t_of_chunk (size bl : Int) (h0 : 0 < size) (h1 : size < 2 ^ 63) (hbl : 0 < bl) :
    ((size_t_of (if size > bl then bl else size) : Nat) : Int)
      = (if size > bl then bl else size) := by
  unfold size_t_of
  split_ifs <;> omega


theorem ceil_div_pos (size bl : Int) (hbl : 0 < bl) (hs : 0 < size) : 1 ≤ ceil_div size bl := by
  rw [ceil_div_step size bl hbl hs]
  omega

theorem requested_cons_write (fd : Res) (n : Nat) (r : Int) (evs : List Event) :
    requested (Event.write fd n r :: evs) = n :: requested evs := rfl

/-- The write loop when none of its writes fails. -/
theorem write_all_ok (fd : Res) (wr : Nat → Int) (bl : Int) (hbl : 0 < bl) :
    ∀ (fuel k : Nat) (size ret : Int), 0 ≤ size → size < 2 ^ 63 →
      0 ≤ ret → ret < 2 ^ 31 →
      (∀ i, k ≤ i → i < k + ceil_div size bl → 0 ≤ wr i ∧ wr i < 2 ^ 31) →
      ceil_div size bl ≤ fuel →
      ∃ v evs, stress_splice_write fd wr bl fuel k size ret = some (v, evs) ∧
        evs.length = ceil_div size bl ∧
        (∀ e, e ∈ evs → ∃ n r, e = Event.write fd n r ∧ (n : Int) ≤ bl) ∧
        (((requested evs).sum : Nat) : Int) = size ∧ 0 ≤ v := by
  intro fuel
  induction fuel with
  | zero =>
    intro k size ret h0 h63 hr0 hr1 _ hf
    have hs : ¬ size > 0 := by
      intro hpos
      have := ceil_div_pos size bl hbl hpos
      omega
    have hz : size = 0 := by omega
    have hc : ceil_div size bl = 0 := ceil_div_nonpos size bl hbl (by omega)
    simp only [stress_splice_write, if_neg hs]
    refine ⟨_, _, rfl, by rw [hc]; rfl, fun e he => by simp at he, ?_, ?_⟩
    · rw [hz]; rfl
    · rw [to_int32_fits ret (by omega) hr1]; exact hr0
  | succ fuel ih =>
    intro k size ret h0 h63 hr0 hr1 hwr hf
    by_cases hs : size > 0
    · have hstep := ceil_div_step size bl hbl hs
      have hk := hwr k (le_refl _) (by omega)
      have hnr : ¬ wr k < 0 := by omega
      have hsz := size_after_write size bl hs h63 (by omega)
      have hn := size_t_of_chunk size bl hs h63 hbl
      obtain ⟨v, evs, hrec, hlen, hev, hsum, hv⟩ := ih (k + 1)
        (size - (if size > bl then bl else size)) (wr k)
        (by split_ifs <;> omega) (by split_ifs <;> omega) hk.1 hk.2
        (fun i hi1 hi2 => hwr i (by omega) (by omega)) (by omega)
      simp only [stress_splice_write, if_pos hs, if_neg hnr, hsz, hrec]
      refine ⟨v, _, rfl, by rw [List.length_cons, hlen, hstep], ?_, ?_, hv⟩
      · intro e he
        rcases List.mem_cons.1 he with he | he
        · refine ⟨_, _, he, ?_⟩
          rw [hn]
          split_ifs <;> omega
        · exact hev e he
      · rw [requested_cons_write, List.sum_cons, Nat.cast_add, hsum, hn]
        ring
    · have hz : size = 0 := by omega
      have hc : ceil_div size bl = 0 := ceil_div_nonpos size bl hbl (by omega)
      simp only [stress_splice_write, if_neg hs]
      refine ⟨_, _, rfl, by rw [hc]; rfl, fun e he => by simp at he, ?_, ?_⟩
      · rw [hz]; rfl
      · rw [to_int32_fits ret (by omega) hr1]; exact hr0

/-- The write loop when the write of index `j` is the first to fail. -/
theorem write_fails_at (fd : Res) (wr : Nat → Int) (bl : Int) (hbl : 0 < bl) :
    ∀ (fuel k : Nat) (size ret : Int) (j : Nat), 0 ≤ size → size < 2 ^ 63 →
      k ≤ j → j < k + ceil_div size bl →
      (∀ i, k ≤ i → i < j → 0 ≤ wr i) → wr j < 0 → -2 ^ 31 ≤ wr j →
      j - k + 1 ≤ fuel →
      ∃ evs, stress_splice_write fd wr bl fuel k size ret = some (wr j, evs) ∧
        evs.length = j - k + 1 ∧
        (∀ e, e ∈ evs → ∃ n r, e = Event.write fd n r ∧ (n : Int) ≤ bl) ∧
        ∃ n, evs.getLast? = some (Event.write fd n (wr j)) := by
  intro fuel
  induction fuel with
  | zero => intro k size ret j _ _ _ _ _ _ _ hf; omega
  | succ fuel ih =>
    intro k size ret j h0 h63 hkj hjc hok hbad hfit hf
    have hs : size > 0 := by
      by_contra hs
      have := ceil_div_nonpos size bl hbl (by omega)
      omega
    have hn := size_t_of_chunk size bl hs h63 hbl
    have hnle : ((size_t_of (if size > bl then bl else size) : Nat) : Int) ≤ bl := by
      rw [hn]; split_ifs <;> omega
    rcases Nat.eq_or_lt_of_le hkj with heq | hlt
    · subst heq
      simp only [stress_splice_write, if_pos hs, if_pos hbad,
        to_int32_fits (wr k) hfit (by omega)]
      refine ⟨_, rfl, by simp, ?_, _, rfl⟩
      intro e he
      simp only [List.mem_singleton] at he
      exact ⟨_, _, he, hnle⟩
    · have hk := hok k (le_refl _) hlt
      have hnr : ¬ wr k < 0 := by omega
      have hsz := size_after_write size bl hs h63 (by omega)
      have hstep := ceil_div_step size bl hbl hs
      obtain ⟨evs, hrec, hlen, hev, n, hlast⟩ := ih (k + 1)
        (size - (if size > bl then bl else size)) (wr k) j
        (by split_ifs <;> omega) (by split_ifs <;> omega) (by omega) (by omega)
        (fun i hi1 hi2 => hok i (by omega) hi2) hbad hfit (by omega)
      simp only [stress_splice_write, if_pos hs, if_neg hnr, hsz, hrec]
      refine ⟨_, rfl, by rw [List.length_cons, hlen]; omega, ?_, n, ?_⟩
      · intro e he
        rcases List.mem_cons.1 he with he | he
        · exact ⟨_, _, he, hnle⟩
        · exact hev e he
      · cases evs with
        | nil => simp at hlen
        | cons e es => rw [List.getLast?_cons_cons]; exact hlast


/-- C15: for a size and a buffer length greater than zero (and writes that return `-1`
or a byte count of at most `MAX_RW_COUNT`), `stress_splice_write` ends as soon as it is
allowed `ceil(size / buffer_len)` passes of its loop, and each of its writes requests at
most `buffer_len` bytes.  When none of the writes fails it makes exactly
`ceil(size / buffer_len)` writes, the requested lengths sum to `size`, and it returns a
non-negative value.  When a write fails it stops at that write, which is its last call,
and returns a negative value. -/
theorem stress_splice_write_calls (fd : Res) (wr : Nat → Int) (bl size : Int) (fuel : Nat)
    (hs : 0 < size) (hs63 : size < 2 ^ 63) (hbl : 0 < bl)
    (hfit : ∀ k, -1 ≤ wr k ∧ wr k ≤ MAX_RW_COUNT) (hfuel : ceil_div size bl ≤ fuel) :
    ∃ v evs, stress_splice_write fd wr bl fuel 0 size 0 = some (v, evs) ∧
      (∀ e, e ∈ evs → ∃ n r, e = Event.write fd n r ∧ (n : Int) ≤ bl) ∧
      ((∀ k, k < ceil_div size bl → 0 ≤ wr k) →
        evs.length = ceil_div size bl ∧ (((requested evs).sum : Nat) : Int) = size ∧ 0 ≤ v) ∧
      (∀ j, j < ceil_div size bl → wr j < 0 → (∀ k, k < j → 0 ≤ wr k) →
        evs.length = j + 1 ∧ v < 0 ∧ ∃ n, evs.getLast? = some (Event.write fd n (wr j))) := by
  have hfit2 : ∀ k, -2 ^ 31 ≤ wr k ∧ wr k < 2 ^ 31 := by
    intro k
    have := hfit k
    unfold MAX_RW_COUNT at this
    omega
  by_cases hall : ∀ k, k < ceil_div size bl → 0 ≤ wr k
  · obtain ⟨v, evs, hres, hlen, hev, hsum, hv⟩ := write_all_ok fd wr bl hbl fuel 0 size 0
      (by omega) hs63 (le_refl _) (by norm_num)
      (fun i _ hi => ⟨hall i (by omega), (hfit2 i).2⟩) hfuel
    refine ⟨v, evs, hres, hev, fun _ => ⟨hlen, hsum, hv⟩, ?_⟩
    intro j hj hbad _
    have := hall j hj
    omega
  · have hex : ∃ j, j < ceil_div size bl ∧ wr j < 0 := by
      by_contra hne
      apply hall
      intro k hk
      by_contra hk0
      exact hne ⟨k, hk, by omega⟩
    classical
    have hj := Nat.find_spec hex
    have hmin : ∀ k, k < Nat.find hex → 0 ≤ wr k := by
      intro k hk
      by_contra hk0
      exact Nat.find_min hex hk ⟨by omega, by omega⟩
    obtain ⟨evs, hres, hlen, hev, n, hlast⟩ := write_fails_at fd wr bl hbl fuel 0 size 0
      (Nat.find hex) (by omega) hs63 (Nat.zero_le _) (by omega)
      (fun i _ hi => hmin i hi) hj.2 (hfit2 _).1 (by omega)
    refine ⟨_, evs, hres, hev, fun h => absurd h hall, ?_⟩
    intro j hjc hbad hok
    have hje : j = Nat.find hex := by
      rcases Nat.lt_trichotomy j (Nat.find hex) with hlt | heq | hgt
      · have := hmin j hlt
        omega
      · exact heq
      · have := hok _ hgt
        omega
    subst hje
    exact ⟨by omega, hj.2, n, hlast⟩

/-- C15 for ten bytes written through a buffer of four with no failing write: three
writes of 4, 4 and 2 bytes. -/
theorem stress_splice_write_calls_witness :
    ((0 : Int) < 10 ∧ (10 : Int) < 2 ^ 63 ∧ (0 : Int) < 4 ∧
      (∀ k : Nat, -1 ≤ (fun _ => (4 : Int)) k ∧ (fun _ => (4 : Int)) k ≤ MAX_RW_COUNT) ∧
      ceil_div 10 4 ≤ 3) ∧
    stress_splice_write Res.fds1_1 (fun _ => 4) 4 3 0 10 0
      = some (4, [Event.write Res.fds1_1 4 4, Event.write Res.fds1_1 4 4,
                  Event.write Res.fds1_1 2 4]) ∧
    ∃ v evs, stress_splice_write Res.fds1_1 (fun _ => 4) 4 3 0 10 0 = some (v, evs) ∧
      (∀ e, e ∈ evs → ∃ n r, e = Event.write Res.fds1_1 n r ∧ (n : Int) ≤ 4) ∧
      ((∀ k, k < ceil_div 10 4 → 0 ≤ (fun _ => (4 : Int)) k) →
        evs.length = ceil_div 10 4 ∧ (((requested evs).sum : Nat) : Int) = 10 ∧ 0 ≤ v) ∧
      (∀ j, j < ceil_div 10 4 → (fun _ => (4 : Int)) j < 0 →
        (∀ k, k < j → 0 ≤ (fun _ => (4 : Int)) k) →
        evs.length = j + 1 ∧ v < 0 ∧
          ∃ n, evs.getLast? = some (Event.write Res.fds1_1 n ((fun _ => (4 : Int)) j))) :=
  ⟨⟨by decide, by decide, by decide,
      fun _ => (by decide : (-1 : Int) ≤ 4 ∧ (4 : Int) ≤ MAX_RW_COUNT), by decide⟩, by decide,
    stress_splice_write_calls Res.fds1_1 (fun _ => 4) 4 10 3 (by decide) (by decide)
      (by decide) (fun _ => (by decide : (-1 : Int) ≤ 4 ∧ (4 : Int) ≤ MAX_RW_COUNT))
      (by decide)⟩

/-- Ten bytes written through a buffer of four when the third write fails: the loop
stops at the third write and returns `-1`; with too few passes allowed the loop has
not ended. -/
theorem stress_splice_write_failure_example :
    stress_splice_write Res.fds1_1 wr_third_fails 4 3 0 10 0
      = some (-1, [Event.write Res.fds1_1 4 4, Event.write Res.fds1_1 4 4,
                   Event.write Res.fds1_1 2 (-1)]) ∧
    stress_splice_write Res.fds1_1 (fun _ => 4) 4 2 0 10 0 = none := by
  decide

end StressSplice

/-! ## Theorems: the entry points and the lifecycle state -/

namespace StressFork

theorem entry_states_append (a b : List EntryEvent) :
    entry_states (a ++ b) = entry_states a ++ entry_states b := by
  simp [entry_states, List.filterMap_append]

theorem entry_states_fn (t : List Event) : entry_states (t.map EntryEvent.fn) = [] := by
  induction t with
  | nil => rfl
  | cons e t ih =>
    rw [List.map_cons]
    show entry_states ([EntryEvent.fn e] ++ t.map EntryEvent.fn) = []
    rw [entry_states_append, ih]
    rfl

/-- The lifecycle states set by the part common to `stress_fork` and `stress_vfork`:
`RUN` alone while `stress_fork_fn` has not returned, `RUN` then `DEINIT` once it has. -/
theorem run_entry_states (r : FnResult) :
    entry_states (run_entry r).trace = [StressSplice.ProcState.STRESS_STATE_RUN] ∨
    entry_states (run_entry r).trace
      = [StressSplice.ProcState.STRESS_STATE_RUN, StressSplice.ProcState.STRESS_STATE_DEINIT] := by
  cases r with
  | child_exit t =>
    left
    show entry_states ([EntryEvent.set_proc_state _] ++ t.map EntryEvent.fn) = _
    rw [entry_states_append, entry_states_fn]
    rfl
  | returned rc c t =>
    right
    show entry_states (([EntryEvent.set_proc_state _] ++ t.map EntryEvent.fn)
      ++ [EntryEvent.set_proc_state _]) = _
    rw [entry_states_append, entry_states_append, entry_states_fn]
    rfl
  | running c t =>
    left
    show entry_states ([EntryEvent.set_proc_state _] ++ t.map EntryEvent.fn) = _
    rw [entry_states_append, entry_states_fn]
    rfl

theorem run_entry_monotonic (r : FnResult) :
    StressSplice.Monotonic (entry_states (run_entry r).trace) := by
  rcases run_entry_states r with h | h <;> rw [h] <;> unfold StressSplice.Monotonic <;> decide

end StressFork

namespace StressLocka

theorem locka_states_append (a b : List EntryEvent) :
    entry_states (a ++ b) = entry_states a ++ entry_states b := by
  simp [entry_states, List.filterMap_append]

theorem entry_states_loop (t : List Event) : entry_states (t.map EntryEvent.loop) = [] := by
  induction t with
  | nil => rfl
  | cons e t ih =>
    rw [List.map_cons]
    show entry_states ([EntryEvent.loop e] ++ t.map EntryEvent.loop) = []
    rw [locka_states_append, ih]
    rfl

theorem fill_loop_states (exit_status : Int → Int) :
    ∀ (xs : List FillIn) (offset : Int) (tr : List EntryEvent),
      entry_states (fill_loop exit_status xs offset tr).trace = entry_states tr := by
  intro xs
  induction xs with
  | nil =>
    intro offset tr
    unfold fill_loop
    split_ifs <;> rfl
  | cons x xs ih =>
    intro offset tr
    unfold fill_loop
    split_ifs
    · simp only [FillResult.trace, locka_states_append]
      simp [entry_states]
    · rw [ih]
      simp only [locka_states_append]
      simp [entry_states]
    · simp only [FillResult.trace, locka_states_append]
      simp [entry_states]
    · rw [ih]
      simp only [locka_states_append]
      simp [entry_states]
    · rfl

theorem fork_loop_states :
    ∀ (xs : List ForkIn) (tr : List EntryEvent),
      entry_states (fork_loop xs tr).trace = entry_states tr := by
  intro xs
  induction xs with
  | nil => intro tr; rfl
  | cons x xs ih =>
    intro tr
    unfold fork_loop
    split_ifs
    · rw [ih]
      simp only [locka_states_append]
      simp [entry_states]
    · simp only [ForkResult.trace, locka_states_append]
      simp [entry_states]
    · simp only [ForkResult.trace, locka_states_append]
      simp [entry_states]
    · simp only [ForkResult.trace, locka_states_append]
      simp [entry_states]

/-- A duplicate-free list of numbers below `n` has at most `n` members. -/
theorem nodup_length_le (l : List Nat) (n : Nat) (hnd : l.Nodup) (hlt : ∀ a, a ∈ l → a < n) :
    l.length ≤ n := by
  have h1 : l.toFinset ⊆ Finset.range n := by
    intro a ha
    rw [List.mem_toFinset] at ha
    exact Finset.mem_range.2 (hlt a ha)
  have h2 := Finset.card_le_card h1
  rw [List.toFinset_card_of_nodup hnd, Finset.card_range] at h2
  exact h2

/-- On well-formed lists the teardown ends within as many passes as the heap has
cells. -/
theorem info_free_total (m : Mem) (active spare : List (Nat × Rec)) (h : WF m active spare) :
    ∃ m2, stress_locka_info_free m.heap.length m = some m2 := by
  have hnd := h.nodup
  rw [List.map_append, List.nodup_append] at hnd
  have ha : active.length ≤ m.heap.length := by
    have := nodup_length_le (active.map Prod.fst) m.heap.length hnd.1 (seg_lt h.seg_active)
    simpa using this
  have hs : spare.length ≤ m.heap.length := by
    have := nodup_length_le (spare.map Prod.fst) m.heap.length hnd.2.1 (seg_lt h.seg_spare)
    simpa using this
  obtain ⟨m2, h1, -⟩ := stress_locka_info_free_spec m.heap.length m active spare h ha hs
  exact ⟨m2, h1⟩

theorem tidy_states (ret cpid : Int) (m : Mem) (tr : List EntryEvent)
    (active spare : List (Nat × Rec)) (h : WF m active spare) :
    ∃ r, tidy ret cpid m tr = some r ∧
      entry_states r.trace
        = entry_states tr ++ [StressSplice.ProcState.STRESS_STATE_DEINIT] := by
  obtain ⟨m2, h1⟩ := info_free_total m active spare h
  simp only [tidy, h1]
  refine ⟨_, rfl, ?_⟩
  simp only [EntryResult.trace, locka_states_append]
  split_ifs <;> simp [entry_states]

theorem wf_init : WF Mem.init [] [] :=
  ⟨rfl, rfl, by simp, fun hx => absurd rfl hx⟩


/-- The function `stress_locka` always comes to a result, and the lifecycle states it
has set are none, `RUN`, `DEINIT`, or `RUN` then `DEINIT`. -/
theorem stress_locka_states (exit_status : Int → Int) (ctx : Ctx) (env : EntryEnv) :
    ∃ r, stress_locka exit_status ctx env = some r ∧
      (entry_states r.trace = [] ∨
       entry_states r.trace = [StressSplice.ProcState.STRESS_STATE_RUN] ∨
       entry_states r.trace = [StressSplice.ProcState.STRESS_STATE_DEINIT] ∨
       entry_states r.trace = [StressSplice.ProcState.STRESS_STATE_RUN,
         StressSplice.ProcState.STRESS_STATE_DEINIT]) := by
  simp only [stress_locka]
  split_ifs with h1 h2 h3
  · exact ⟨_, rfl, Or.inl rfl⟩
  · exact ⟨_, rfl, Or.inl rfl⟩
  · obtain ⟨r, hr, hs⟩ := tidy_states EXIT_FAILURE (-1) Mem.init
      ([EntryEvent.mkdir env.mkdir_rc, EntryEvent.open_file env.open_fd,
        EntryEvent.lseek env.lseek_rc] ++ [EntryEvent.pr_fail_lseek]) [] [] wf_init
    exact ⟨r, hr, Or.inr (Or.inr (Or.inl hs))⟩
  · have hf := fill_loop_states exit_status env.fills 0
      [EntryEvent.mkdir env.mkdir_rc, EntryEvent.open_file env.open_fd,
        EntryEvent.lseek env.lseek_rc]
    revert hf
    generalize fill_loop exit_status env.fills 0
      [EntryEvent.mkdir env.mkdir_rc, EntryEvent.open_file env.open_fd,
        EntryEvent.lseek env.lseek_rc] = fr
    intro hf
    have h0 : entry_states [EntryEvent.mkdir env.mkdir_rc, EntryEvent.open_file env.open_fd,
        EntryEvent.lseek env.lseek_rc] = [] := rfl
    rw [h0] at hf
    cases fr with
    | tidy ret tr =>
      dsimp only
      obtain ⟨r, hr, hs⟩ := tidy_states ret (-1) Mem.init tr [] [] wf_init
      refine ⟨r, hr, Or.inr (Or.inr (Or.inl ?_))⟩
      rw [hs]
      have : entry_states tr = [] := hf
      rw [this]
      rfl
    | running tr => exact ⟨_, rfl, Or.inl hf⟩
    | filled tr =>
      dsimp only
      have htr : entry_states tr = [] := hf
      have hk := fork_loop_states env.forks
        (tr ++ [EntryEvent.set_proc_state StressSplice.ProcState.STRESS_STATE_RUN])
      have hrun : entry_states
          (tr ++ [EntryEvent.set_proc_state StressSplice.ProcState.STRESS_STATE_RUN])
          = [StressSplice.ProcState.STRESS_STATE_RUN] := by
        rw [locka_states_append, htr]
        rfl
      rw [hrun] at hk
      revert hk
      generalize fork_loop env.forks
        (tr ++ [EntryEvent.set_proc_state StressSplice.ProcState.STRESS_STATE_RUN]) = kr
      intro hk
      cases kr with
      | running tr1 => exact ⟨_, rfl, Or.inr (Or.inl hk)⟩
      | tidy cpid tr1 =>
        dsimp only
        have htr1 : entry_states tr1 = [StressSplice.ProcState.STRESS_STATE_RUN] := hk
        obtain ⟨r, hr, hs⟩ := tidy_states EXIT_FAILURE cpid Mem.init tr1 [] [] wf_init
        refine ⟨r, hr, Or.inr (Or.inr (Or.inr ?_))⟩
        rw [hs, htr1]
        rfl
      | forked cpid tr1 =>
        dsimp only
        have htr1 : entry_states tr1 = [StressSplice.ProcState.STRESS_STATE_RUN] := hk
        obtain ⟨⟨fl, s⟩, hc, hb, -⟩ := stress_locka_contention_bounded ctx env.passes St.init
          bounded_init (fun m hm => by
            simp only [St.init, List.mem_singleton] at hm
            rw [hm]
            exact bounded_init)
        obtain ⟨active, spare, hwf, -, -⟩ := hb
        have hloop : entry_states (tr1 ++ s.trace.map EntryEvent.loop)
            = [StressSplice.ProcState.STRESS_STATE_RUN] := by
          rw [locka_states_append, htr1, entry_states_loop]
          rfl
        simp only [hc]
        cases fl with
        | none => exact ⟨_, rfl, Or.inr (Or.inl hloop)⟩
        | some rc =>
          simp only []
          split_ifs with hcp hrc
          · exact ⟨_, rfl, Or.inr (Or.inl hloop)⟩
          · obtain ⟨m2, hm2⟩ := info_free_total s.mem active spare hwf
            simp only [hm2]
            refine ⟨_, rfl, Or.inr (Or.inl ?_)⟩
            simp only [EntryResult.trace]
            rw [locka_states_append, hloop]
            rfl
          · obtain ⟨r, hr, hs⟩ := tidy_states EXIT_SUCCESS cpid s.mem
              (tr1 ++ s.trace.map EntryEvent.loop) active spare hwf
            refine ⟨r, hr, Or.inr (Or.inr (Or.inr ?_))⟩
            rw [hs, hloop]
            rfl
          · obtain ⟨r, hr, hs⟩ := tidy_states EXIT_FAILURE cpid s.mem
              (tr1 ++ s.trace.map EntryEvent.loop) active spare hwf
            refine ⟨r, hr, Or.inr (Or.inr (Or.inr ?_))⟩
            rw [hs, hloop]
            rfl

theorem stress_locka_monotonic (exit_status : Int → Int) (ctx : Ctx) (env : EntryEnv) :
    ∃ r, stress_locka exit_status ctx env = some r ∧
      StressSplice.Monotonic (entry_states r.trace) := by
  obtain ⟨r, hr, h⟩ := stress_locka_states exit_status ctx env
  refine ⟨r, hr, ?_⟩
  rcases h with h | h | h | h <;> rw [h] <;> unfold StressSplice.Monotonic <;> decide

end StressLocka

namespace StressSplice

theorem states_append (a b : List Event) : states (a ++ b) = states a ++ states b := by
  simp [states, List.filterMap_append]

theorem states_looped_pipe (r1 r2 : Int) (u : Bool) :
    states (stress_splice_looped_pipe r1 r2 u).2 = [] := by
  unfold stress_splice_looped_pipe
  split_ifs <;> rfl

theorem states_non_block_write (fd : Res) (a b c d : Int) :
    states (stress_splice_non_block_write_4K fd a b c d).2 = [] := by
  unfold stress_splice_non_block_write_4K
  split_ifs <;> rfl

theorem states_writes (fd : Res) :
    ∀ (evs : List Event), (∀ e, e ∈ evs → ∃ n r, e = Event.write fd n r) → states evs = [] := by
  intro evs
  induction evs with
  | nil => intro _; rfl
  | cons e evs ih =>
    intro h
    obtain ⟨n, r, he⟩ := h e (List.mem_cons_self _ _)
    have := ih (fun e1 h1 => h e1 (List.mem_cons_of_mem _ h1))
    subst he
    show states ([Event.write fd n r] ++ evs) = []
    rw [states_append, this]
    rfl

theorem splice_rest_states (sb : Nat) (x : IterIn) (s : LoopSt) :
    states (splice_rest sb x s).2.trace = states s.trace := by
  unfold splice_rest
  split_ifs
  · simp only [states_append]
    simp [states]
  · simp only [states_append]
    simp [states]
  · simp only [states_append, states_looped_pipe]
    simp [states, probe_events]

/-- Every pass of the loop body comes to an end and sets no lifecycle state. -/
theorem splice_body_states (instance_id sb : Nat) (x : IterIn) (s : LoopSt) :
    ∃ fl s1, splice_body instance_id sb x s = some (fl, s1) ∧
      states s1.trace = states s.trace := by
  have key : ∀ s2 : LoopSt, states s2.trace = states s.trace →
      ∃ fl s1, some (splice_rest sb x s2) = some (fl, s1) ∧
        states s1.trace = states s.trace :=
    fun s2 h => ⟨(splice_rest sb x s2).1, (splice_rest sb x s2).2, rfl,
      (splice_rest_states sb x s2).trans h⟩
  by_cases hu : s.use_splice = true
  · simp only [splice_body, if_pos hu]
    split_ifs
    · refine ⟨_, _, rfl, ?_⟩
      simp only [states_append]
      simp [states]
    · refine ⟨_, _, rfl, ?_⟩
      simp only [states_append]
      simp [states]
    · refine ⟨_, _, rfl, ?_⟩
      simp only [states_append]
      simp [states]
    · apply key
      simp only [states_append]
      simp [states]
  · obtain ⟨v, evs, hw, hev⟩ := body_write_total sb x.write_ret
    have hst := states_writes Res.fds1_1 evs hev
    simp only [splice_body, if_neg hu, hw]
    split_ifs
    · refine ⟨_, _, rfl, ?_⟩
      simp only [states_append, hst, List.append_nil]
    · apply key
      simp only [states_append, hst, List.append_nil]

/-- The primary loop comes to a result on every list of passes and sets no lifecycle
state. -/
theorem splice_loop_states (instance_id sb : Nat) :
    ∀ (xs : List IterIn) (s : LoopSt),
      ∃ b s1, splice_loop instance_id sb xs s = some (b, s1) ∧
        states s1.trace = states s.trace := by
  intro xs
  induction xs with
  | nil => intro s; exact ⟨_, _, rfl, rfl⟩
  | cons x xs ih =>
    intro s
    obtain ⟨fl, s1, hb, hs⟩ := splice_body_states instance_id sb x s
    cases fl with
    | brk =>
      simp only [splice_loop, hb]
      exact ⟨_, _, rfl, hs⟩
    | cond k =>
      cases k with
      | false =>
        simp only [splice_loop, hb]
        exact ⟨_, _, rfl, hs⟩
      | true =>
        obtain ⟨b, s2, hl, hs2⟩ := ih s1
        simp only [splice_loop, hb, hl]
        exact ⟨_, _, rfl, hs2.trans hs⟩

theorem run_start_states (counter : Nat) (env : SetupEnv) :
    states (run_start counter env).trace = [ProcState.STRESS_STATE_RUN] := by
  simp only [run_start, loop_start, states_append, states_non_block_write]
  rfl

theorem stress_splice_unfold_run (instance_id sb counter : Nat) (env : SetupEnv)
    (iters : List IterIn) (h1 : env.mmap_ok = true) (h2 : env.open_zero_ok = true)
    (h3 : env.pipe1_ok = true) (h4 : env.pipe2_ok = true) (h5 : env.pipe3_ok = true)
    (h6 : env.pipe4_ok = true) (h7 : env.open_null_ok = true) :
    stress_splice instance_id sb counter env iters =
      match splice_loop instance_id sb iters (run_start counter env) with
      | none => none
      | some (false, _) => none
      | some (true, s1) => some (EXIT_SUCCESS, s1.trace ++ close_all) := by
  simp only [stress_splice, h1, h2, h3, h4, h5, h6, h7]
  rfl

/-- Either `stress_splice` has returned and the lifecycle states it has set are `DEINIT`
only (a failed acquisition step, with one `DEINIT` per cleanup label passed) or `RUN`
followed by `DEINIT` only; or it is still in its primary loop and has set `RUN`
alone. -/
theorem stress_splice_states (instance_id sb counter : Nat) (env : SetupEnv)
    (iters : List IterIn) :
    (∃ rc tr, stress_splice instance_id sb counter env iters = some (rc, tr) ∧
      ∃ n, (states tr = List.replicate n ProcState.STRESS_STATE_DEINIT ∨
        states tr = ProcState.STRESS_STATE_RUN ::
          List.replicate n ProcState.STRESS_STATE_DEINIT)) ∨
    (stress_splice instance_id sb counter env iters = none ∧
      ∃ s1, splice_loop instance_id sb iters (run_start counter env) = some (false, s1) ∧
        states s1.trace = [ProcState.STRESS_STATE_RUN]) := by
  by_cases h1 : env.mmap_ok = true
  swap
  · left
    simp only [stress_splice, Bool.not_eq_true] at h1 ⊢
    simp only [h1, if_true]
    exact ⟨_, _, rfl, 1, Or.inl rfl⟩
  by_cases h2 : env.open_zero_ok = true
  swap
  · left
    simp only [stress_splice, Bool.not_eq_true] at h2 ⊢
    simp only [h1, h2, if_true]
    exact ⟨_, _, rfl, 1, Or.inl rfl⟩
  by_cases h3 : env.pipe1_ok = true
  swap
  · left
    simp only [stress_splice, Bool.not_eq_true] at h3 ⊢
    simp only [h1, h2, h3, if_true]
    exact ⟨_, _, rfl, 2, Or.inl rfl⟩
  by_cases h4 : env.pipe2_ok = true
  swap
  · left
    simp only [stress_splice, Bool.not_eq_true] at h4 ⊢
    simp only [h1, h2, h3, h4, if_true]
    exact ⟨_, _, rfl, 3, Or.inl rfl⟩
  by_cases h5 : env.pipe3_ok = true
  swap
  · left
    simp only [stress_splice, Bool.not_eq_true] at h5 ⊢
    simp only [h1, h2, h3, h4, h5, if_true]
    exact ⟨_, _, rfl, 4, Or.inl rfl⟩
  by_cases h6 : env.pipe4_ok = true
  swap
  · left
    simp only [stress_splice, Bool.not_eq_true] at h6 ⊢
    simp only [h1, h2, h3, h4, h5, h6, if_true]
    exact ⟨_, _, rfl, 5, Or.inl rfl⟩
  by_cases h7 : env.open_null_ok = true
  swap
  · left
    simp only [stress_splice, Bool.not_eq_true] at h7 ⊢
    simp only [h1, h2, h3, h4, h5, h6, h7, if_true]
    exact ⟨_, _, rfl, 6, Or.inl rfl⟩
  rw [stress_splice_unfold_run instance_id sb counter env iters h1 h2 h3 h4 h5 h6 h7]
  obtain ⟨b, s1, hl, hs⟩ := splice_loop_states instance_id sb iters (run_start counter env)
  rw [run_start_states] at hs
  rw [hl]
  cases b with
  | false => exact Or.inr ⟨rfl, s1, rfl, hs⟩
  | true =>
    refine Or.inl ⟨_, _, rfl, 7, Or.inr ?_⟩
    rw [states_append, hs]
    rfl

theorem monotonic_deinit (n : Nat) :
    Monotonic (List.replicate n ProcState.STRESS_STATE_DEINIT) := by
  unfold Monotonic
  rw [List.pairwise_replicate]
  right
  exact Nat.le_refl _

theorem monotonic_run_deinit (n : Nat) :
    Monotonic (ProcState.STRESS_STATE_RUN :: List.replicate n ProcState.STRESS_STATE_DEINIT) := by
  unfold Monotonic
  rw [List.pairwise_cons]
  refine ⟨fun a ha => ?_, monotonic_deinit n⟩
  rw [List.eq_of_mem_replicate ha]
  decide

theorem stress_splice_monotonic (instance_id sb counter : Nat) (env : SetupEnv)
    (iters : List IterIn) :
    (∃ rc tr, stress_splice instance_id sb counter env iters = some (rc, tr) ∧
      Monotonic (states tr)) ∨
    (stress_splice instance_id sb counter env iters = none ∧
      ∃ s1, splice_loop instance_id sb iters (run_start counter env) = some (false, s1) ∧
        Monotonic (states s1.trace)) := by
  rcases stress_splice_states instance_id sb counter env iters with
    ⟨rc, tr, h, n, hn | hn⟩ | ⟨h, s1, hl, hs⟩
  · exact Or.inl ⟨rc, tr, h, by rw [hn]; exact monotonic_deinit n⟩
  · exact Or.inl ⟨rc, tr, h, by rw [hn]; exact monotonic_run_deinit n⟩
  · exact Or.inr ⟨h, s1, hl, by rw [hs]; exact monotonic_run_deinit 0⟩

/-- Claim C13: the lifecycle states that an entry point hands to
`stress_set_proc_state` never go back.  For `stress_fork` and `stress_vfork`, whatever
the settings and the answers of the environment, the states set are in the order
`INIT <= RUN <= DEINIT`; `stress_locka` always comes to a result and the states it has
set are in that order; `stress_splice` has either returned with its states in that order,
or is still in its primary loop with its states in that order. -/
theorem lifecycle_states_monotonic :
    (∀ (MIN_FORKS MAX_FORKS DEFAULT_FORKS : Nat) (setting : Option Nat)
        (maximize minimize verify : Bool) (its : List (StressFork.Env × Bool)) (counter : Nat),
      Monotonic (StressFork.entry_states
        (StressFork.stress_fork MIN_FORKS MAX_FORKS DEFAULT_FORKS setting maximize minimize
          verify its counter).trace)) ∧
    (∀ (MAX_FORKS MIN_VFORKS MAX_VFORKS DEFAULT_VFORKS : Nat) (setting : Option Nat)
        (maximize minimize verify : Bool) (its : List (StressFork.Env × Bool)) (counter : Nat),
      Monotonic (StressFork.entry_states
        (StressFork.stress_vfork MAX_FORKS MIN_VFORKS MAX_VFORKS DEFAULT_VFORKS setting
          maximize minimize verify its counter).trace)) ∧
    (∀ (exit_status : Int → Int) (ctx : StressLocka.Ctx) (env : StressLocka.EntryEnv),
      ∃ r, StressLocka.stress_locka exit_status ctx env = some r ∧
        Monotonic (StressLocka.entry_states r.trace)) ∧
    (∀ (instance_id splice_bytes counter : Nat) (env : SetupEnv) (iters : List IterIn),
      (∃ rc tr, stress_splice instance_id splice_bytes counter env iters = some (rc, tr) ∧
        Monotonic (states tr)) ∨
      (stress_splice instance_id splice_bytes counter env iters = none ∧
        ∃ s1, splice_loop instance_id splice_bytes iters (run_start counter env)
            = some (false, s1) ∧
          Monotonic (states s1.trace))) :=
  ⟨fun _ _ _ _ _ _ _ _ _ => StressFork.run_entry_monotonic _,
   fun _ _ _ _ _ _ _ _ _ _ => StressFork.run_entry_monotonic _,
   StressLocka.stress_locka_monotonic,
   stress_splice_monotonic⟩

end StressSplice
